import Mathlib

/-!
# The firmware download and the command queue of the IoTConnect FreeRTOS SDK

A shallow embedding of `iotc_ota_fw_download` (`freertos-layer/iotc_https_ota.c`), of the
OTA handling of `iotconnect_app.c` and of the command queue and the publish of
`freertos-layer/iotc_mqtt_client.c`, and theorems about them.

The function talks to four collaborators that are not part of the repository: the
TLS transport (`mbedtls_transport_*`), the HTTP client (`HTTPClient_*`), the C library
(`strncpy`, `sscanf`) and the firmware sink (`otaPal_*`).  Every answer a collaborator
can give is a field of `World`; the function is then an ordinary function of the world
that returns its C return value together with the sequence of calls it made.
Logging (`IOTCL_INFO`, `IOTCL_ERROR`, the progress counter) has no effect on control flow
and is left out.  Values of type `int` are integers without wrap-around: the largest sum the
function forms is at most `data_length + DATA_CHUNK_SIZE`, so the model and 32-bit
arithmetic agree while that sum is at most `INT_MAX` (beyond it C leaves the behaviour
undefined); the theorems that speak of a resolved size assume this bound.
-/

namespace Iotc

/-! ## Collaborators -/

/-- The status values of the HTTP client (`HTTPStatus_t` of coreHTTP, declared outside the
repository).  `HTTPSuccess` is the value `0`; the download engine tells apart
`HTTPSuccess`, `HTTPNetworkError` and everything else. -/
inductive HTTPStatus
  | HTTPSuccess
  | HTTPInvalidParameter
  | HTTPNetworkError
  | HTTPPartialResponse
  | HTTPNoResponse
  | HTTPInsufficientMemory
  | HTTPSecurityAlertResponseHeadersSizeLimitExceeded
  | HTTPSecurityAlertExtraneousResponseData
  | HTTPSecurityAlertInvalidChunkHeader
  | HTTPSecurityAlertInvalidProtocolVersion
  | HTTPSecurityAlertInvalidStatusCode
  | HTTPSecurityAlertInvalidCharacter
  | HTTPSecurityAlertInvalidContentLength
  | HTTPParserInternalError
  | HTTPHeaderNotFound
  | HTTPInvalidResponse
  deriving DecidableEq, Repr

open HTTPStatus

/-- The fields of `HTTPResponse_t` that a received response fills in and the download could
look at: the HTTP status code of the status line and the length of the body. -/
structure HTTPResponse where
  statusCode : Nat
  bodyLen : Nat
  deriving DecidableEq, Repr

/-- Everything the collaborators answer during one call of `iotc_ota_fw_download`.
Answers inside the chunk loop are indexed by the chunk's `data_start`; the answers to the
sends of one chunk are further indexed by the number of sends already made for it. -/
structure World where
  /-- `mbedtls_transport_allocate` returned a non-NULL context. -/
  allocate : Bool
  /-- `mbedtls_transport_configure` returned `TLS_TRANSPORT_SUCCESS`. -/
  configure : Bool
  /-- The first `mbedtls_transport_connect` returned `TLS_TRANSPORT_SUCCESS`. -/
  connect : Bool
  /-- Result of `HTTPClient_InitializeRequestHeaders` for the size probe. -/
  probeInitializeRequestHeaders : HTTPStatus
  /-- Result of `HTTPClient_AddRangeHeader(&headers, 0, 0)`. -/
  probeAddRangeHeader : HTTPStatus
  /-- Result of the `HTTPClient_Send` of the size probe. -/
  probeSend : HTTPStatus
  /-- What `HTTPClient_ReadHeader` left in `data_length_str` / `data_length_str_len`:
  `none` is the NULL pointer, `some v` the header value `v` of length `v.length`. -/
  contentRange : Option (List Char)
  /-- The bytes found in memory at `data_length_buffer` (and after it) when the array is
  declared: the array has no initialiser. -/
  stack : List Char
  /-- `otaPal_CreateFileForRx` returned `OtaPalSuccess`. -/
  createFileForRx : Bool
  /-- Result of `HTTPClient_InitializeRequestHeaders` for the chunk at `data_start`. -/
  initializeRequestHeaders : Int → HTTPStatus
  /-- Result of `HTTPClient_AddRangeHeader` for the chunk at `data_start`. -/
  addRangeHeader : Int → HTTPStatus
  /-- Result of `HTTPClient_Send` for the chunk at `data_start`, after `n` earlier sends
  for the same chunk, with the response it received. -/
  send : Int → Nat → HTTPStatus × HTTPResponse
  /-- Value (an `int16_t`) returned by `otaPal_WriteBlock` for the chunk at `data_start`. -/
  writeBlock : Int → Int
  /-- `otaPal_CloseFile` returned `OtaPalSuccess`. -/
  closeFile : Bool

/-- The calls to the transport, the HTTP client and the sink, in the order they are made. -/
inductive Event
  /-- `mbedtls_transport_connect(network_conext, host, 443, 10000, 10000)`. -/
  | connect
  /-- `mbedtls_transport_disconnect(network_conext)`. -/
  | disconnect
  /-- `HTTPClient_Send` of a GET whose range header is `bytes=range_start-range_end`. -/
  | request (range_start range_end : Int)
  /-- `otaPal_CreateFileForRx` with `file_context.fileSize = fileSize`. -/
  | createFileForRx (fileSize : Nat)
  /-- `otaPal_WriteBlock(&file_context, offset, response.pBody, blockSize)`. -/
  | writeBlock (offset blockSize : Nat)
  /-- `otaPal_CloseFile(&file_context)`. -/
  | closeFile
  deriving DecidableEq, Repr

/-- One run: the value returned (`none` when the model ran out of fuel before the function
returned) and the calls made. -/
structure Run where
  result : Option Int
  trace : List Event
  deriving DecidableEq, Repr

/-! ## Constants of `iotc_https_ota.c` -/

/-- `#define S3_RANGE_RESPONSE_PREFIX "bytes 0-0/"`. -/
def S3_RANGE_RESPONSE_PREFIX : List Char := "bytes 0-0/".toList

/-- `sizeof` of a string literal: its characters and the terminating NUL. -/
def sizeof_literal (s : List Char) : Nat := s.length + 1

/-- `#define DATA_BYTE_SIZE_CHAR_MAX (sizeof(S3_RANGE_RESPONSE_PREFIX) + 7)`. -/
def DATA_BYTE_SIZE_CHAR_MAX : Nat := sizeof_literal S3_RANGE_RESPONSE_PREFIX + 7

/-- `#define DATA_CHUNK_SIZE (1024 * 4)`. -/
def DATA_CHUNK_SIZE : Int := 1024 * 4

/-- The largest value of the 32-bit type `int`. -/
def INT_MAX : Int := 2147483647

/-- `#define RESPONSE_BUFFER_LENGTH (DATA_CHUNK_SIZE + 2048)`. -/
def RESPONSE_BUFFER_LENGTH : Int := DATA_CHUNK_SIZE + 2048

/-! ## The C library -/

/-- The NUL character. -/
def NUL : Char := Char.ofNat 0

/-- The string a `char *` denotes: the bytes before the first NUL. -/
def cstring (memory : List Char) : List Char := memory.takeWhile (fun c => c != NUL)

/-- `strncpy(dest, src, n)`: the memory at `dest` afterwards.  At most `n` characters of
`src` are copied, stopping after a NUL; the rest of the `n` bytes is filled with NUL; no
NUL is written when `src` holds none among its first `n` characters, and the bytes of
`dest` from index `n` on are left as they were. -/
def strncpy (dest src : List Char) (n : Nat) : List Char :=
  let copied := cstring (src.take n)
  copied ++ List.replicate (n - copied.length) NUL ++ dest.drop n

/-- `isspace` in the C locale. -/
def isspace (c : Char) : Bool :=
  c = ' ' || c = '\t' || c = '\n' || c = Char.ofNat 11 || c = Char.ofNat 12 || c = '\r'

/-- `isdigit`. -/
def isdigit (c : Char) : Bool := decide (48 ≤ c.toNat) && decide (c.toNat ≤ 57)

/-- The value of a run of decimal digits read from the front of the input, on top of `acc`. -/
def scan_digits : List Char → Nat → Nat
  | [], acc => acc
  | c :: cs, acc => if isdigit c then scan_digits cs (acc * 10 + (c.toNat - 48)) else acc

/-- The optional sign in front of a number: whether it is `-`, and the input after it. -/
def scan_sign (input : List Char) : Bool × List Char :=
  match input with
  | '-' :: rest => (true, rest)
  | '+' :: rest => (false, rest)
  | _ => (false, input)

/-- The conversion `%d` of `sscanf`: skip white space, read an optional sign and then
decimal digits.  `none` is a matching failure (no digit to read).  The value is the one
the digits denote; C defines the conversion only when it fits an `int`. -/
def scan_d (input : List Char) : Option Int :=
  let (negative, digits) := scan_sign (input.dropWhile isspace)
  match digits with
  | [] => none
  | c :: _ =>
    if isdigit c then
      some (if negative then - (scan_digits digits 0 : Int) else (scan_digits digits 0 : Int))
    else none

/-- The call `sscanf(input, format "%d", &data_length)` for a format without conversions
before the final `%d`: `some v` when `sscanf` returns 1 having stored `v`, `none` when it
returns anything else.  A white-space character of the format matches any amount of
white space of the input, none included; any other character must match exactly. -/
def sscanf_d : (format : List Char) → (input : List Char) → Option Int
  | [], input => scan_d input
  | f :: fs, input =>
    if isspace f then sscanf_d fs (input.dropWhile isspace)
    else
      match input with
      | [] => none
      | c :: cs => if c = f then sscanf_d fs cs else none

/-- Conversion to `int16_t`. -/
def toInt16 (n : Int) : Int := (n + 32768) % 65536 - 32768

/-- Conversion to `uint32_t`. -/
def toUInt32 (n : Int) : Nat := (n % 4294967296).toNat

/-! ## `iotc_ota_fw_download` -/

/-- The `do ... while (http_status == HTTPNetworkError)` loop of one chunk, with
`tries_remaining` tries left and `sent` sends already made for the chunk.  The result is
the list of calls made and the response of the successful send, or `none` where the
source executes `return -1`. -/
def sendLoop (w : World) (data_start data_end : Int) :
    (tries_remaining : Nat) → (sent : Nat) → List Event × Option HTTPResponse
  | tries_remaining, sent =>
    let (http_status, response) := w.send data_start sent
    let sendEv := Event.request data_start (data_end - 1)
    if data_start ≠ 0 ∧ http_status = HTTPNetworkError then
      match tries_remaining with
      | 0 => ([sendEv], none)
      | tries + 1 =>
        let (evs, r) := sendLoop w data_start data_end tries (sent + 1)
        (sendEv :: Event.disconnect :: Event.connect :: evs, r)
    else if http_status ≠ HTTPSuccess then ([sendEv], none)
    else ([sendEv], some response)

/-- The `for (int data_start = 0; data_start < data_length; data_start += DATA_CHUNK_SIZE)`
loop and the code after it, from the loop test on.  `fuel` bounds the number of
iterations the model follows. -/
def chunkLoop (w : World) (data_length : Int) : (fuel : Nat) → (data_start : Int) → Run
  | 0, _ => ⟨none, []⟩
  | fuel + 1, data_start =>
    if data_start < data_length then
      let data_end :=
        if data_start + DATA_CHUNK_SIZE > data_length then data_length
        else data_start + DATA_CHUNK_SIZE
      if w.initializeRequestHeaders data_start ≠ HTTPSuccess then ⟨some (-1), []⟩
      else if w.addRangeHeader data_start ≠ HTTPSuccess then ⟨some (-1), []⟩
      else
        match sendLoop w data_start data_end 30 0 with
        | (evs, none) => ⟨some (-1), evs⟩
        | (evs, some response) =>
          let bytes_written := w.writeBlock data_start
          let writeEv := Event.writeBlock (toUInt32 data_start) (toUInt32 response.bodyLen)
          if bytes_written ≠ toInt16 response.bodyLen then ⟨some (-1), evs ++ [writeEv]⟩
          else
            let rest := chunkLoop w data_length fuel (data_start + DATA_CHUNK_SIZE)
            ⟨rest.result, evs ++ writeEv :: rest.trace⟩
    else
      ⟨some 0, [Event.disconnect, Event.closeFile]⟩

/-- The size probe's reading of the header value: the length checks, the `strncpy` into
`data_length_buffer` and the `sscanf`.  `none` where the source executes `return -1`. -/
def probe_data_length (w : World) : Option Int :=
  match w.contentRange with
  | none => none
  | some data_length_str =>
    let data_length_str_len := data_length_str.length
    if data_length_str_len = 0 then none
    else if data_length_str_len > DATA_BYTE_SIZE_CHAR_MAX then none
    else
      let data_length_buffer := strncpy w.stack data_length_str data_length_str_len
      sscanf_d S3_RANGE_RESPONSE_PREFIX (cstring data_length_buffer)

/-- `int iotc_ota_fw_download(const char* host, const char* path)`. -/
def iotc_ota_fw_download (w : World) : Run :=
  if !w.allocate then ⟨some (-1), []⟩
  else if !w.configure then ⟨some (-1), []⟩
  else if !w.connect then ⟨some (-1), [Event.connect]⟩
  else if w.probeInitializeRequestHeaders ≠ HTTPSuccess then ⟨some (-1), [Event.connect]⟩
  else if w.probeAddRangeHeader ≠ HTTPSuccess then ⟨some (-1), [Event.connect]⟩
  else
    let probe := [Event.connect, Event.request 0 0]
    match probe_data_length w with
    | none => ⟨some (-1), probe⟩
    | some data_length =>
      let create := Event.createFileForRx (toUInt32 data_length)
      if !w.createFileForRx then ⟨some (-1), probe ++ [create]⟩
      else
        let loop := chunkLoop w data_length (data_length.toNat + 1) 0
        ⟨loop.result, probe ++ create :: loop.trace⟩

/-! ## Reading a run -/

/-- The byte ranges of the requests of a trace, in order. -/
def requests (trace : List Event) : List (Int × Int) :=
  trace.filterMap fun e =>
    match e with
    | Event.request a b => some (a, b)
    | _ => none

/-- The ranges `[k*C, min((k+1)*C, T) - 1]` for `k = 0 .. ceil(T/C) - 1`, with
`C = DATA_CHUNK_SIZE`. -/
def tiling (T : Int) : List (Int × Int) :=
  (List.range ((T + DATA_CHUNK_SIZE - 1) / DATA_CHUNK_SIZE).toNat).map fun (k : Nat) =>
    ((k : Int) * DATA_CHUNK_SIZE, min (((k : Int) + 1) * DATA_CHUNK_SIZE) T - 1)

/-- The number of reconnect-and-retry steps of a trace: the connects after the first. -/
def reconnects (trace : List Event) : Nat := trace.count Event.connect - 1

/-- The number of requests of a trace whose range starts at `data_start`. -/
def sendsAt (data_start : Int) (trace : List Event) : Nat :=
  (requests trace).countP fun r => decide (r.1 = data_start)

/-- The calls of `m` failed tries for the range `a-b`, each followed by a reconnect. -/
def retries : Nat → Int → Int → List Event
  | 0, _, _ => []
  | m + 1, a, b => Event.request a b :: Event.disconnect :: Event.connect :: retries m a b

/-- The value of `data_end` in the iteration of the chunk loop at `data_start`. -/
def data_end_at (data_length data_start : Int) : Int :=
  if data_start + DATA_CHUNK_SIZE > data_length then data_length
  else data_start + DATA_CHUNK_SIZE

/-- The transport was set up and the request headers of the probe were built, so that the
size probe is sent. -/
def probeSent (w : World) : Prop :=
  w.allocate = true ∧ w.configure = true ∧ w.connect = true ∧
    w.probeInitializeRequestHeaders = HTTPSuccess ∧ w.probeAddRangeHeader = HTTPSuccess

/-- The iteration of the chunk loop at `data_start` runs to its end: the loop test holds,
the headers are built, the send loop ends with a response and the sink reports to have
written the whole body. -/
def chunkCompletes (w : World) (T data_start : Int) : Prop :=
  data_start < T ∧ w.initializeRequestHeaders data_start = HTTPSuccess ∧
    w.addRangeHeader data_start = HTTPSuccess ∧
    ∃ evs response, sendLoop w data_start (data_end_at T data_start) 30 0 = (evs, some response)
      ∧ w.writeBlock data_start = toInt16 response.bodyLen

/-- The download reaches the send loop of the chunk number `k` (at `k * DATA_CHUNK_SIZE`) of
an object of resolved size `T`: the probe resolved `T` (a size for which the `int`
arithmetic of the loop does not overflow), the sink was created, the `k` chunks before it
ran to their end and the headers of the chunk are built. -/
def reachesChunk (w : World) (T : Int) (k : Nat) : Prop :=
  probeSent w ∧ probe_data_length w = some T ∧ w.createFileForRx = true ∧
    (∀ i : Nat, i < k → chunkCompletes w T ((i : Int) * DATA_CHUNK_SIZE)) ∧
    (k : Int) * DATA_CHUNK_SIZE < T ∧
    w.initializeRequestHeaders ((k : Int) * DATA_CHUNK_SIZE) = HTTPSuccess ∧
    w.addRangeHeader ((k : Int) * DATA_CHUNK_SIZE) = HTTPSuccess ∧
    T + DATA_CHUNK_SIZE ≤ INT_MAX

/-- The world `w` with the HTTP status code of every chunk response replaced: the response
to the send number `sent` for the chunk at `data_start` carries `code data_start sent`. -/
def withStatusCodes (w : World) (code : Int → Nat → Nat) : World :=
  { w with
    send := fun data_start sent =>
      ((w.send data_start sent).1,
        ⟨code data_start sent, (w.send data_start sent).2.bodyLen⟩) }

/-- The character of the decimal digit `d`. -/
def digitChar (d : Nat) : Char := Char.ofNat (48 + d)

/-! ## `iotconnect_app.c`: OTA directives -/

/-- `#define APP_VERSION "05.09.24"` (`include/iotconnect_app.h`). -/
def APP_VERSION : List Char := "05.09.24".toList

/-- `strcmp(a, b)` on strings without NUL: the difference of the first two bytes that
differ, the end of a string counting as the byte 0; the callers look at its sign only. -/
def strcmp : List Char → List Char → Int
  | [], [] => 0
  | [], b :: _ => - (b.toNat : Int)
  | a :: _, [] => (a.toNat : Int)
  | a :: as, b :: bs => if a = b then strcmp as bs else (a.toNat : Int) - (b.toNat : Int)

/-- `static bool is_app_version_same_as_ota(const char *version)`. -/
def is_app_version_same_as_ota (version : List Char) : Bool :=
  strcmp APP_VERSION version == 0

/-- `static bool app_needs_ota_update(const char *version)`. -/
def app_needs_ota_update (version : List Char) : Bool :=
  decide (strcmp APP_VERSION version < 0)

/-- The loop of `split_url` from index `i` on, `rest` being the characters of `url` from
`i`.  The result is the return value with `*host_name` and `*resource`; `hostAlloc` and
`resourceAlloc` tell whether the two calls of `malloc` succeed. -/
def split_url_loop (url : List Char) (hostAlloc resourceAlloc : Bool) :
    (rest : List Char) → (i slash_count host_name_start : Nat) →
      Int × Option (List Char) × Option (List Char)
  | [], _, _, _ => (-4, none, none)
  | c :: rest, i, slash_count, host_name_start =>
    if c = '/' then
      if slash_count + 1 = 2 then
        split_url_loop url hostAlloc resourceAlloc rest (i + 1) (slash_count + 1) (i + 1)
      else if slash_count + 1 = 3 then
        let host_name_len := i - host_name_start
        if !hostAlloc then (-2, none, none)
        else
          let host_name := (url.drop host_name_start).take host_name_len
          if !resourceAlloc then (-3, none, none)
          else (0, some host_name, some (url.drop i))
      else
        split_url_loop url hostAlloc resourceAlloc rest (i + 1) (slash_count + 1)
          host_name_start
    else
      split_url_loop url hostAlloc resourceAlloc rest (i + 1) slash_count host_name_start

/-- `static int split_url(const char *url, char **host_name, char **resource)`, called with
two valid pointers as `start_ota` does. -/
def split_url (url : List Char) (hostAlloc resourceAlloc : Bool) :
    Int × Option (List Char) × Option (List Char) :=
  split_url_loop url hostAlloc resourceAlloc url 0 0 0

/-- The status argument of `iotcl_mqtt_send_ota_ack` as `on_ota` computes it: the literal
`0` (success), or `IOTCL_C2D_EVT_OTA_DOWNLOAD_FAILED`, a nonzero constant of the IoTConnect
C library that is declared outside the repository. -/
inductive OtaAckStatus
  | success
  | IOTCL_C2D_EVT_OTA_DOWNLOAD_FAILED
  deriving DecidableEq, Repr

/-- Which of the three warnings the version comparison of `on_ota` logs. -/
inductive VersionVerdict
  | sameVersion
  | updateRequired
  | deviceNewer
  deriving DecidableEq, Repr

/-- What `on_ota` does, in order. -/
inductive OtaEvent
  /-- The `IOTCL_WARN` chosen by the version comparison. -/
  | warn (verdict : VersionVerdict)
  /-- `iotc_ota_fw_download(host_name, resource)`: the run of the download engine. -/
  | download (host_name resource : List Char) (run : Run)
  /-- `iotcl_mqtt_send_ota_ack(ack_id, status, message)`. -/
  | ota_ack (ack_id : Option (List Char)) (status : OtaAckStatus)
      (message : Option (List Char))
  /-- `vTaskDelay(pdMS_TO_TICKS(ms))`. -/
  | delay (ms : Nat)
  /-- `iotc_ota_fw_apply()`. -/
  | apply
  deriving DecidableEq, Repr

/-- What the IoTConnect C library reads from the event handed to `on_ota`: the results of
`iotcl_c2d_get_ota_url(data, 0)`, `iotcl_c2d_get_ack_id(data)` and
`iotcl_c2d_get_ota_sw_version(data)`, `none` being the NULL pointer. -/
structure OtaDirective where
  url : Option (List Char)
  ack_id : Option (List Char)
  version : Option (List Char)

/-- What the collaborators of `start_ota` answer: the two calls of `malloc` in `split_url`
and the world of the download. -/
structure OtaEnv where
  hostAlloc : Bool
  resourceAlloc : Bool
  world : World

/-- `static int start_ota(char *url)`: the value returned (that of the download when the
URL could be split) and the download it ran, if any. -/
def start_ota (env : OtaEnv) (url : List Char) : Option Int × List OtaEvent :=
  match split_url url env.hostAlloc env.resourceAlloc with
  | (0, some host_name, some resource) =>
    let run := iotc_ota_fw_download env.world
    (run.result, [OtaEvent.download host_name resource run])
  | (status, _, _) => (some status, [])

/-- The warning of the version comparison in `on_ota`. -/
def version_verdict (version : List Char) : VersionVerdict :=
  if is_app_version_same_as_ota version then VersionVerdict.sameVersion
  else if app_needs_ota_update version then VersionVerdict.updateRequired
  else VersionVerdict.deviceNewer

/-- `static void on_ota(IotclC2dEventData data)`. -/
def on_ota (env : OtaEnv) (data : OtaDirective) : List OtaEvent :=
  let (success, message, needs_ota_commit, evs) :=
    match data.url with
    | some url =>
      match data.version with
      | none => (true, some "Failed to parse message".toList, false, [])
      | some version =>
        let (status, download) := start_ota env url
        let needs_ota_commit := decide (status = some 0)
        (true, none, needs_ota_commit, OtaEvent.warn (version_verdict version) :: download)
    | none => (false, none, false, [])
  let ack := OtaEvent.ota_ack data.ack_id
    (if success then OtaAckStatus.success else OtaAckStatus.IOTCL_C2D_EVT_OTA_DOWNLOAD_FAILED)
    message
  evs ++ ack :: (if needs_ota_commit then [OtaEvent.delay 5000, OtaEvent.apply] else [])

/-! ## `iotc_mqtt_client.c`: publishing -/

/-- `MQTTSuccess`, the value `0` of `MQTTStatus_t` (coreMQTT); statuses are numbers, as the
function converts the notification value to a status. -/
def MQTTSuccess : Nat := 0

/-- `static BaseType_t publish_and_wait_for_ack(...)`: the value returned, given the status
returned by `MQTTAgent_Publish` and the outcome of `xTaskNotifyWaitIndexed` (`none` when it
returns `pdFALSE` after `MQTT_PUBLISH_NOTIFICATION_WAIT_MS`, `some v` when the task was
notified with the value `v`). -/
def publish_and_wait_for_ack (publishStatus : Nat) (notification : Option Nat) : Nat :=
  if publishStatus = MQTTSuccess then
    match notification with
    | some ulNotifyValue => ulNotifyValue
    | none => publishStatus
  else publishStatus


/-! ## `iotc_mqtt_client.c`: the command queue -/

/-- `#define MQTT_COMMAND_QUEUE_LENGTH ( 5 )`. -/
def MQTT_COMMAND_QUEUE_LENGTH : Nat := 5

/-- `#define MQTT_PAYLOAD_BUFFER_LENGTH ( 1024 )`. -/
def MQTT_PAYLOAD_BUFFER_LENGTH : Nat := 1024

/-- The bytes of `buf` after the copy in `incoming_message_callback`, `block` being the
bytes of the block that `malloc(MQTT_PAYLOAD_BUFFER_LENGTH)` returned and `payload` the
`payloadLength` bytes at `pPayload`. -/
def fill_buffer (block payload : List Char) : List Char :=
  if payload.length < MQTT_PAYLOAD_BUFFER_LENGTH then
    payload ++ NUL :: block.drop (payload.length + 1)
  else
    (payload.take MQTT_PAYLOAD_BUFFER_LENGTH).set (MQTT_PAYLOAD_BUFFER_LENGTH - 1) NUL

/-- A buffer allocated by `incoming_message_callback`: `id` tells the allocations apart (the
address `malloc` returned), `bytes` is its content. -/
structure CommandBuffer where
  id : Nat
  bytes : List Char
  deriving DecidableEq, Repr

/-- Who calls `free`. -/
inductive Actor
  | callback
  | worker
  deriving DecidableEq, Repr

/-- The calls of `incoming_message_callback` and `mqtt_command_task`, in order. -/
inductive QueueEvent
  /-- `malloc` returned the buffer `id`. -/
  | malloc (id : Nat)
  /-- `malloc` returned NULL. -/
  | mallocFailed
  /-- `xQueueSendToBack(mqtt_command_queue, &buf, ...)` for the buffer `id` returned
  `pdTRUE` (`ok = true`) or not. -/
  | sendToBack (id : Nat) (ok : Bool)
  /-- `xQueueReceive` delivered the buffer `id`. -/
  | receive (id : Nat)
  /-- `iotcl_c2d_process_event(message)`. -/
  | process_event (message : List Char)
  /-- `free` of the buffer `id`. -/
  | free (actor : Actor) (id : Nat)
  deriving DecidableEq, Repr

/-- The state shared by the callback and the worker: the buffers pending in
`mqtt_command_queue` (front first), the number of buffers allocated so far, which names the
next one, and the calls made so far. -/
structure QueueState where
  queue : List CommandBuffer
  allocated : Nat
  log : List QueueEvent
  deriving DecidableEq, Repr

/-- One step of the system. -/
inductive QueueStep
  /-- A run of `incoming_message_callback` for the payload `payload`; `block` is what
  `malloc` returns: `none` for NULL, `some b` for a block holding the bytes `b`. -/
  | incoming (payload : List Char) (block : Option (List Char))
  /-- An iteration of the loop of `mqtt_command_task` whose `xQueueReceive` returns;
  with an empty queue the task stays blocked. -/
  | command_task
  deriving DecidableEq, Repr

/-- `incoming_message_callback`.  The queue was created by
`xQueueCreate(MQTT_COMMAND_QUEUE_LENGTH, sizeof(char*))`: `xQueueSendToBack` appends the
pointer when fewer than `MQTT_COMMAND_QUEUE_LENGTH` items are pending and otherwise, no
item being taken during `MQTT_COMMAND_QUEUE_TIMEOUT_MS`, returns `errQUEUE_FULL`. -/
def incoming_message_callback (s : QueueState) (payload : List Char)
    (block : Option (List Char)) : QueueState :=
  match block with
  | none => { s with log := s.log ++ [QueueEvent.mallocFailed] }
  | some b =>
    let buf : CommandBuffer := ⟨s.allocated, fill_buffer b payload⟩
    if s.queue.length < MQTT_COMMAND_QUEUE_LENGTH then
      { queue := s.queue ++ [buf]
        allocated := s.allocated + 1
        log := s.log ++ [QueueEvent.malloc buf.id, QueueEvent.sendToBack buf.id true] }
    else
      { queue := s.queue
        allocated := s.allocated + 1
        log := s.log ++ [QueueEvent.malloc buf.id, QueueEvent.sendToBack buf.id false,
          QueueEvent.free Actor.callback buf.id] }

/-- One iteration of the `while (1)` loop of `mqtt_command_task`.  `xQueueReceive` waits
with `portMAX_DELAY`, so it returns with an item; the pointers in the queue are never NULL,
as the callback returns before the send when `malloc` fails. -/
def mqtt_command_task (s : QueueState) : QueueState :=
  match s.queue with
  | [] => s
  | message :: rest =>
    { queue := rest
      allocated := s.allocated
      log := s.log ++ [QueueEvent.receive message.id,
        QueueEvent.process_event (cstring message.bytes),
        QueueEvent.free Actor.worker message.id] }

/-- One step. -/
def queueStep (s : QueueState) : QueueStep → QueueState
  | QueueStep.incoming payload block => incoming_message_callback s payload block
  | QueueStep.command_task => mqtt_command_task s

/-- The state after a sequence of steps, from the empty queue. -/
def queueRun (steps : List QueueStep) : QueueState :=
  steps.foldl queueStep ⟨[], 0, []⟩

/-- The buffers `malloc` returned, in order. -/
def mallocs (log : List QueueEvent) : List Nat :=
  log.filterMap fun e => match e with
    | QueueEvent.malloc id => some id
    | _ => none

/-- The buffers freed by `actor`, in order. -/
def freesBy (actor : Actor) (log : List QueueEvent) : List Nat :=
  log.filterMap fun e => match e with
    | QueueEvent.free a id => if a = actor then some id else none
    | _ => none

/-- The buffers freed, in order. -/
def frees (log : List QueueEvent) : List Nat :=
  log.filterMap fun e => match e with
    | QueueEvent.free _ id => some id
    | _ => none

/-- The buffers whose `xQueueSendToBack` failed, in order. -/
def failedSends (log : List QueueEvent) : List Nat :=
  log.filterMap fun e => match e with
    | QueueEvent.sendToBack id false => some id
    | _ => none

/-- The buffers that `xQueueReceive` delivered, in order. -/
def received (log : List QueueEvent) : List Nat :=
  log.filterMap fun e => match e with
    | QueueEvent.receive id => some id
    | _ => none

/-- The messages passed to `iotcl_c2d_process_event`, in order. -/
def processed (log : List QueueEvent) : List (List Char) :=
  log.filterMap fun e => match e with
    | QueueEvent.process_event message => some message
    | _ => none

/-- The strings that the callbacks of a sequence of steps store for their payloads, in the
order of the steps. -/
def delivered (steps : List QueueStep) : List (List Char) :=
  steps.filterMap fun st => match st with
    | QueueStep.incoming payload block => some (cstring (fill_buffer (block.getD []) payload))
    | QueueStep.command_task => none

/-- The identifiers of the buffers pending in the queue, front first. -/
def pending (s : QueueState) : List Nat := s.queue.map CommandBuffer.id

/-- What holds of every state reached from the empty queue. -/
structure QueueInvariant (s : QueueState) : Prop where
  owners : (pending s ++ frees s.log).Perm (List.range s.allocated)
  allocations : mallocs s.log = List.range s.allocated
  callback : freesBy Actor.callback s.log = failedSends s.log
  worker : freesBy Actor.worker s.log = received s.log
  capacity : s.queue.length ≤ MQTT_COMMAND_QUEUE_LENGTH

/-! ## `iotconnect_app.c`: the version predicates as functions of both versions -/

/-- The body of `is_app_version_same_as_ota` with the running version as an argument in
the place of the constant `APP_VERSION`. -/
def is_same (running version : List Char) : Bool := strcmp running version == 0

/-- The body of `app_needs_ota_update` with the running version as an argument in the
place of the constant `APP_VERSION`. -/
def needs_update (running version : List Char) : Bool := decide (strcmp running version < 0)

/-- Byte-wise lexicographic order, following the words of the specification: `a` precedes
`b` when `a` is a proper beginning of `b`, or when at the first position where the two
differ the byte of `a` is the smaller one. -/
def precedes (a b : List Char) : Prop := List.Lex (fun x y : Char => x.toNat < y.toNat) a b

/-! ## More of the C library -/

/-- Whether the string `s` begins with the characters of `needle`: the comparison that
`strstr` makes at one position. -/
def starts_with : (s needle : List Char) → Bool
  | _, [] => true
  | [], _ :: _ => false
  | c :: s, n :: needle => c == n && starts_with s needle

/-- `strstr(haystack, needle)`: the part of `haystack` from the first occurrence of
`needle` on; `none` is the NULL pointer, returned when `needle` does not occur. -/
def strstr : (haystack needle : List Char) → Option (List Char)
  | [], needle => if needle = [] then some [] else none
  | c :: rest, needle =>
    if starts_with (c :: rest) needle then some (c :: rest) else strstr rest needle

/-- `tolower` in the C locale. -/
def tolower (c : Char) : Char :=
  if 65 ≤ c.toNat ∧ c.toNat ≤ 90 then Char.ofNat (c.toNat + 32) else c

/-- `strcasestr(haystack, needle)`: as `strstr`, the case of letters being ignored. -/
def strcasestr : (haystack needle : List Char) → Option (List Char)
  | [], needle => if needle = [] then some [] else none
  | c :: rest, needle =>
    if starts_with ((c :: rest).map tolower) (needle.map tolower) then some (c :: rest)
    else strcasestr rest needle

/-- `atoi`: the number `%d` would read, `0` when there is none.  C defines the value only
when it fits an `int`. -/
def atoi (s : List Char) : Int := (scan_d s).getD 0

/-- `EXIT_SUCCESS` of `<stdlib.h>`. -/
def EXIT_SUCCESS : Int := 0

/-- `EXIT_FAILURE` of `<stdlib.h>`. -/
def EXIT_FAILURE : Int := 1

/-! ## `iotconnect_app.c`: commands -/

/-- `#define IOTC_CMD_PING "ping"`. -/
def IOTC_CMD_PING : List Char := "ping".toList

/-- `#define IOTC_CMD_LED_RED "led-red"`. -/
def IOTC_CMD_LED_RED : List Char := "led-red".toList

/-- `#define IOTC_CMD_LED_GREEN "led-green"`. -/
def IOTC_CMD_LED_GREEN : List Char := "led-green".toList

/-- `#define IOTC_CMD_LED_FREQ "led-freq"`. -/
def IOTC_CMD_LED_FREQ : List Char := "led-freq".toList

/-- The two outcomes `on_command` passes to `iotcl_mqtt_send_cmd_ack`, constants of the
IoTConnect C library that are declared outside the repository. -/
inductive CmdAckStatus
  | IOTCL_C2D_EVT_CMD_FAILED
  | IOTCL_C2D_EVT_CMD_SUCCESS_WITH_ACK
  deriving DecidableEq, Repr

/-- What the handling of a command does, in order; the log lines are left out. -/
inductive CommandEvent
  /-- `set_led_red(state)`. -/
  | set_led_red (state : Bool)
  /-- `set_led_green(state)`. -/
  | set_led_green (state : Bool)
  /-- `set_led_freq(freq)`. -/
  | set_led_freq (freq : Int)
  /-- `iotcl_mqtt_send_cmd_ack(ack_id, status, message)`. -/
  | cmd_ack (ack_id : List Char) (status : CmdAckStatus) (message : List Char)
  deriving DecidableEq, Repr

/-- `__weak int iotc_process_cmd_str(IotclC2dEventData data, char* command)`, built with
`IOTC_USE_LED` as the header defines it: the value returned and the calls made.  The
argument of `atoi` starts `strlen(IOTC_CMD_LED_FREQ) + 1` bytes into `command`; where the
command is shorter than that the model reads an empty string. -/
def iotc_process_cmd_str (command : List Char) : Int × List CommandEvent :=
  let calls :=
    if (strcasestr command IOTC_CMD_PING).isSome then []
    else if (strcasestr command IOTC_CMD_LED_RED).isSome then
      if (strcasestr command "on".toList).isSome then [CommandEvent.set_led_red true]
      else if (strcasestr command "off".toList).isSome then [CommandEvent.set_led_red false]
      else []
    else if (strcasestr command IOTC_CMD_LED_GREEN).isSome then
      if (strcasestr command "on".toList).isSome then [CommandEvent.set_led_green true]
      else if (strcasestr command "off".toList).isSome then [CommandEvent.set_led_green false]
      else []
    else if (strcasestr command IOTC_CMD_LED_FREQ).isSome then
      let led_freq := atoi (command.drop (IOTC_CMD_LED_FREQ.length + 1))
      if led_freq ≠ 0 then [CommandEvent.set_led_freq led_freq] else []
    else []
  (0, calls)

/-- What the IoTConnect C library reads from the event handed to `on_command`: the results
of `iotcl_c2d_get_command(data)` and `iotcl_c2d_get_ack_id(data)`, `none` being the NULL
pointer. -/
structure CommandData where
  command : Option (List Char)
  ack_id : Option (List Char)

/-- `static void on_command(IotclC2dEventData data)`, linked with the implementation
`process` of the weak symbol `iotc_process_cmd_str`. -/
def on_command_linked (process : List Char → Int × List CommandEvent) (data : CommandData) :
    List CommandEvent :=
  match data.command with
  | some command =>
    let (err, calls) := process command
    calls ++
      match data.ack_id with
      | some ack_id =>
        if err = 0 then
          [CommandEvent.cmd_ack ack_id CmdAckStatus.IOTCL_C2D_EVT_CMD_FAILED
            "Command error".toList]
        else
          [CommandEvent.cmd_ack ack_id CmdAckStatus.IOTCL_C2D_EVT_CMD_SUCCESS_WITH_ACK
            "Command OK".toList]
      | none => []
  | none =>
    match data.ack_id with
    | some ack_id =>
      [CommandEvent.cmd_ack ack_id CmdAckStatus.IOTCL_C2D_EVT_CMD_FAILED
        "Internal error".toList]
    | none => []

/-- `static void on_command(IotclC2dEventData data)` with the `iotc_process_cmd_str` of the
repository. -/
def on_command (data : CommandData) : List CommandEvent :=
  on_command_linked iotc_process_cmd_str data

/-- The acks of a list of calls, in order. -/
def acks (calls : List CommandEvent) : List (List Char × CmdAckStatus × List Char) :=
  calls.filterMap fun e =>
    match e with
    | CommandEvent.cmd_ack ack_id status message => some (ack_id, status, message)
    | _ => none

/-! ## `iotc_https_client.c` -/

/-- What the collaborators of `iotc_send_http_request` answer. -/
structure HttpsWorld where
  /-- Whether `iotconnect_https_init` has stored a root CA certificate. -/
  rootCaSet : Bool
  /-- Whether `mbedtls_transport_allocate` returns a context. -/
  allocate : Bool
  /-- Whether `mbedtls_transport_configure` returns `TLS_TRANSPORT_SUCCESS`. -/
  configure : Bool
  /-- Whether `mbedtls_transport_connect` returns `TLS_TRANSPORT_SUCCESS`. -/
  connect : Bool
  /-- Result of `HTTPClient_InitializeRequestHeaders`. -/
  initializeRequestHeaders : HTTPStatus
  /-- Result of `HTTPClient_Send`. -/
  send : HTTPStatus
  /-- The field `response.pBody` after `HTTPClient_Send`, `none` being the NULL pointer. -/
  pBody : Option (List Char)

/-- `static NetworkContext_t *configure_transport(void)`: whether the pointer returned is
not NULL. -/
def configure_transport (w : HttpsWorld) : Bool :=
  if !w.rootCaSet then false
  else if !w.allocate then false
  else if !w.configure then false
  else true

/-- What `iotc_send_http_request` leaves behind: the value returned, `iotc_response->data`
and the value of the local variable `returnStatus` when the function returns. -/
structure HttpRequestResult where
  returned : Int
  data : Option (List Char)
  returnStatus : Int
  deriving DecidableEq, Repr

/-- `int32_t iotc_send_http_request(IotConnectHttpResponse *iotc_response, ...)`; `data` is
the value of `iotc_response->data` at the call. -/
def iotc_send_http_request (w : HttpsWorld) (data : Option (List Char)) : HttpRequestResult :=
  let returnStatus := EXIT_SUCCESS
  if !configure_transport w then ⟨EXIT_FAILURE, data, returnStatus⟩
  else if !w.connect then ⟨EXIT_FAILURE, data, returnStatus⟩
  else
    let httpStatus := w.initializeRequestHeaders
    let httpStatus := if httpStatus = HTTPSuccess then w.send else httpStatus
    let data := if httpStatus = HTTPSuccess then w.pBody else none
    let returnStatus := if httpStatus ≠ HTTPSuccess then EXIT_FAILURE else returnStatus
    ⟨EXIT_SUCCESS, data, returnStatus⟩

/-! ## `iotc_https_ota.c`: the scan of the OTA payload -/

/-- The macro `JSON_OBJ_URL`: a double quote, `url`, a double quote, a colon and a double
quote. -/
def JSON_OBJ_URL : List Char := ['"', 'u', 'r', 'l', '"', ':', '"']

/-- The macro `JSON_OBJ_FILENAME`: a double quote, `fileName`, a double quote, a colon and a
double quote. -/
def JSON_OBJ_FILENAME : List Char :=
  ['"', 'f', 'i', 'l', 'e', 'N', 'a', 'm', 'e', '"', ':', '"']

/-- `#define MAX_URL_LEN 2000`; `url_buff` has `MAX_URL_LEN + 1` bytes. -/
def MAX_URL_LEN : Nat := 2000

/-- The loop of `copy_until_char` from index `i` on, `rest` being the characters of
`source` from `i`.  `none` where the loop writes outside `target`. -/
def copy_until_char_loop (terminator : Char) :
    (rest : List Char) → (i : Nat) → (target : List Char) → Option (Bool × List Char)
  | [], _, target => some (false, target)
  | c :: rest, i, target =>
    if i < target.length then
      if terminator = c then some (true, target.set i NUL)
      else copy_until_char_loop terminator rest (i + 1) (target.set i c)
    else none

/-- `static bool copy_until_char(char * target, const char* source, char terminator)`: the
value returned and the memory at `target` afterwards; `target` is the array as it is at
the call, `source` the string.  `none` where a write falls outside `target`, which C
leaves undefined. -/
def copy_until_char (target source : List Char) (terminator : Char) :
    Option (Bool × List Char) :=
  if 0 < target.length then copy_until_char_loop terminator source 0 (target.set 0 NUL)
  else none

/-- The lines `on_c2d_message` logs, the first one (the payload itself) left out. -/
inductive C2dLog
  /-- An `IOTCL_ERROR` with its message. -/
  | error (message : List Char)
  /-- `IOTCL_INFO("on_c2d_message: OTA received")`. -/
  | ota_received
  /-- `IOTCL_INFO("OTA URL: %s", url_buff)`. -/
  | ota_url (url : List Char)
  /-- `IOTCL_INFO("OTA File: %s", file_name_buff)`. -/
  | ota_file (file_name : List Char)
  /-- A write outside `url_buff` or `file_name_buff`; what follows is undefined. -/
  | out_of_bounds
  deriving DecidableEq, Repr

/-- `static void on_c2d_message(void * subscription_context, MQTTPublishInfo_t * publish_info)`:
the lines logged.  `url_buff` and `file_name_buff` are the two arrays as they are at the
call, `publish_info` the `payloadLength` bytes at `pPayload` (`none` for a NULL
`publish_info`). -/
def on_c2d_message (url_buff file_name_buff : List Char) (publish_info : Option (List Char)) :
    List C2dLog :=
  match publish_info with
  | none => [C2dLog.error "on_c2d_message: publish_info is NULL".toList]
  | some pPayload =>
    let payload := cstring pPayload
    match strstr payload JSON_OBJ_URL with
    | none => [C2dLog.error "on_c2d_message: command received, url_part is NULL".toList]
    | some url_part =>
      match copy_until_char url_buff (url_part.drop JSON_OBJ_URL.length) '"' with
      | none => [C2dLog.ota_received, C2dLog.out_of_bounds]
      | some (found, url_buff) =>
        let logs := C2dLog.ota_received ::
          ((if !found then [C2dLog.error "on_c2d_message: Publish info is NULL?".toList]
            else []) ++ [C2dLog.ota_url (cstring url_buff)])
        match strstr payload JSON_OBJ_FILENAME with
        | none => logs ++ [C2dLog.error "on_c2d_message: missing filename?".toList]
        | some fn_part =>
          match copy_until_char file_name_buff (fn_part.drop JSON_OBJ_FILENAME.length) '"' with
          | none => logs ++ [C2dLog.out_of_bounds]
          | some (false, _) =>
            logs ++ [C2dLog.error "on_c2d_message: Publish info is NULL?".toList]
          | some (true, file_name_buff) => logs ++ [C2dLog.ota_file (cstring file_name_buff)]

/-- The URLs logged by `on_c2d_message`. -/
def extracted_urls (logs : List C2dLog) : List (List Char) :=
  logs.filterMap fun l =>
    match l with
    | C2dLog.ota_url url => some url
    | _ => none

/-! ## `iotc_time.c` -/

/-- `uint32_t tx_time_get(void)`: the tick count `xTaskGetTickCount()` as a `uint32_t`. -/
def tx_time_get (tickCount : Nat) : Nat := tickCount % 4294967296

/-- `void set_time(uint32_t unix_seconds)` called when the tick count is `tickCount`: the
value stored in `unix_time_base`.  `configTICK_RATE_HZ` is a constant of the FreeRTOS
configuration, which is outside the repository. -/
def set_time (configTICK_RATE_HZ tickCount unix_seconds : Nat) : Nat :=
  let system_time_in_seconds := tx_time_get tickCount / configTICK_RATE_HZ
  toUInt32 ((unix_seconds : Int) - (system_time_in_seconds : Int))

/-- `int unix_time_get(uint32_t *unix_time)` called when the tick count is `tickCount`: the
value returned and the value stored in `*unix_time`. -/
def unix_time_get (configTICK_RATE_HZ tickCount unix_time_base : Nat) : Int × Nat :=
  (0, toUInt32 ((unix_time_base : Int) + ((tx_time_get tickCount / configTICK_RATE_HZ : Nat) : Int)))

/-! ## Reading the writes of a run -/

/-- The blocks written to the sink in a trace, as (offset, length) pairs, in order. -/
def writes (trace : List Event) : List (Nat × Nat) :=
  trace.filterMap fun e =>
    match e with
    | Event.writeBlock offset length => some (offset, length)
    | _ => none

/-- The body length of the response that ends the send loop of the chunk at `data_start`
of an object of size `T` (`0` where the loop ends without a response). -/
def bodyLenAt (w : World) (T data_start : Int) : Nat :=
  match (sendLoop w data_start (data_end_at T data_start) 30 0).2 with
  | some response => response.bodyLen
  | none => 0

/-! ## Worlds used as examples -/

/-- A world in which every collaborator succeeds: the probe's `Content-Range` value is
`value` (and the byte after it in `data_length_buffer` happens to be NUL), every chunk
request is answered at once by a 206 response whose body is the part of an object of `T`
bytes that was asked for, and the sink writes every block in full. -/
def goodWorld (value : List Char) (T : Int) : World where
  allocate := true
  configure := true
  connect := true
  probeInitializeRequestHeaders := HTTPSuccess
  probeAddRangeHeader := HTTPSuccess
  probeSend := HTTPSuccess
  contentRange := some value
  stack := []
  createFileForRx := true
  initializeRequestHeaders := fun _ => HTTPSuccess
  addRangeHeader := fun _ => HTTPSuccess
  send := fun data_start _ => (HTTPSuccess, ⟨206, (min DATA_CHUNK_SIZE (T - data_start)).toNat⟩)
  writeBlock := fun data_start => ((min DATA_CHUNK_SIZE (T - data_start)).toNat : Int)
  closeFile := true

/-- The world `goodWorld value T` with network errors: for the chunk at `data_start` the
first `errors data_start` sends return `HTTPNetworkError`, the next ones succeed. -/
def flakyWorld (value : List Char) (T : Int) (errors : Int → Nat) : World :=
  { goodWorld value T with
    send := fun data_start sent =>
      if sent < errors data_start then (HTTPNetworkError, ⟨0, 0⟩)
      else (goodWorld value T).send data_start sent }

/-- The world of the end-to-end example: the probe answers `bytes 0-0/9000`. -/
def world9000 : World := goodWorld "bytes 0-0/9000".toList 9000

/-- An object of three chunks; each chunk after the first meets 30 network errors. -/
def world60 : World :=
  flakyWorld "bytes 0-0/12288".toList 12288 (fun data_start => if data_start = 0 then 0 else 30)

/-- An object of two chunks; the second chunk meets 30 network errors, then succeeds. -/
def world30 : World :=
  flakyWorld "bytes 0-0/8192".toList 8192 (fun data_start => if data_start = 4096 then 30 else 0)

/-- An object of two chunks; the second chunk meets 31 network errors. -/
def world31 : World :=
  flakyWorld "bytes 0-0/8192".toList 8192 (fun data_start => if data_start = 4096 then 31 else 0)

/-- An object of 9000 bytes; the first send of the first chunk meets a network error. -/
def worldFirstChunkError : World :=
  flakyWorld "bytes 0-0/9000".toList 9000 (fun data_start => if data_start = 0 then 1 else 0)

/-- An object of 9000 bytes; the response to the request for the second chunk cannot be
parsed. -/
def worldParseError : World :=
  { goodWorld "bytes 0-0/9000".toList 9000 with
    send := fun data_start sent =>
      if data_start = 4096 then (HTTPParserInternalError, ⟨0, 0⟩)
      else (goodWorld "bytes 0-0/9000".toList 9000).send data_start sent }

/-- An object of 9000 bytes; the sink writes only 100 bytes of the second chunk. -/
def worldShortWrite : World :=
  { goodWorld "bytes 0-0/9000".toList 9000 with
    writeBlock := fun data_start =>
      if data_start = 4096 then 100
      else (goodWorld "bytes 0-0/9000".toList 9000).writeBlock data_start }

/-- An object of 9000 bytes; the request for the first chunk is answered by a complete
response with status 403 and a body of 243 bytes, which the sink writes in full. -/
def world403 : World :=
  { goodWorld "bytes 0-0/9000".toList 9000 with
    send := fun data_start sent =>
      if data_start = 0 then (HTTPSuccess, ⟨403, 243⟩)
      else (goodWorld "bytes 0-0/9000".toList 9000).send data_start sent
    writeBlock := fun data_start =>
      if data_start = 0 then 243
      else (goodWorld "bytes 0-0/9000".toList 9000).writeBlock data_start }

/-- An object of 9000 bytes that is fetched and written in full; closing the sink fails. -/
def worldCloseFails : World :=
  { goodWorld "bytes 0-0/9000".toList 9000 with closeFile := false }

/-- The probe answers `bytes 0-0/9000`, a value of 14 characters; the byte at index 14 of
the uninitialised `data_length_buffer` happens to be the character `5` and the byte after
it NUL. -/
def worldStaleDigit : World :=
  { goodWorld "bytes 0-0/9000".toList 9000 with stack := "\x00\x00\x00\x00\x00\x00\x00\x00\x00\x00\x00\x00\x00\x005\x00\x00\x00\x00".toList }

/-- An OTA directive for the running version. -/
def directiveSameVersion : OtaDirective :=
  ⟨some "https://host/fw.bin".toList, some "ack-1".toList, some APP_VERSION⟩

/-- An OTA directive for a version that precedes the running one. -/
def directiveOlderVersion : OtaDirective :=
  ⟨some "https://host/fw.bin".toList, some "ack-1".toList, some "01.01.01".toList⟩

/-- An OTA directive for a version that follows the running one. -/
def directiveNewerVersion : OtaDirective :=
  ⟨some "https://host/fw.bin".toList, some "ack-1".toList, some "06.00.00".toList⟩

/-- An OTA directive whose URL has no third `/`. -/
def directiveBadUrl : OtaDirective :=
  ⟨some "https://host".toList, some "ack-1".toList, some "06.00.00".toList⟩

/-- Both allocations of `split_url` succeed and the download of 9000 bytes succeeds. -/
def otaEnvGood : OtaEnv := ⟨true, true, world9000⟩

/-- A world in which the TLS connection cannot be established. -/
def worldNoConnect : World :=
  { goodWorld "bytes 0-0/9000".toList 9000 with connect := false }

/-- Both allocations of `split_url` succeed and the download fails to connect. -/
def otaEnvNoConnect : OtaEnv := ⟨true, true, worldNoConnect⟩

/-- The probe answers `bytes 0-0/12345678`, a total of 8 digits. -/
def world8Digits : World := goodWorld "bytes 0-0/12345678".toList 12345678

/-- The probe answers `bytes 0-0/0`. -/
def worldEmptyObject : World := goodWorld "bytes 0-0/0".toList 0

/-- The payloads `A`, `B`, `C` arrive in this order; the worker runs once after `B` and
twice after `C`. -/
def stepsABC : List QueueStep :=
  [QueueStep.incoming "A".toList (some []), QueueStep.incoming "B".toList (some []),
    QueueStep.command_task, QueueStep.incoming "C".toList (some []),
    QueueStep.command_task, QueueStep.command_task]

/-- An exchange in which the TLS connection is established and `HTTPClient_Send` then fails
with `HTTPNetworkError`. -/
def httpsWorldSendFails : HttpsWorld :=
  ⟨true, true, true, true, HTTPSuccess, HTTPNetworkError, none⟩

/-- An exchange in which the TLS connection is established and
`HTTPClient_InitializeRequestHeaders` then fails with `HTTPInsufficientMemory`. -/
def httpsWorldHeadersFail : HttpsWorld :=
  ⟨true, true, true, true, HTTPInsufficientMemory, HTTPSuccess, none⟩

/-- The command `ping` with the correlation id `a1`. -/
def commandPing : CommandData := ⟨some "ping".toList, some "a1".toList⟩

/-- The text `http://a/b` followed by a backslash. -/
def urlWithBackslash : List Char := "http://a/b".toList ++ [Char.ofNat 92]

/-- An OTA payload whose URL holds an escaped double quote: an opening brace, the URL
marker, `urlWithBackslash`, a double quote, `c`, a double quote, a comma, the file name
marker, `f.bin`, a double quote and a closing brace. -/
def payloadEscapedQuote : List Char :=
  "\x7b".toList ++ (JSON_OBJ_URL ++ (urlWithBackslash ++ '"' :: ('c' :: '"' :: ',' ::
    (JSON_OBJ_FILENAME ++ "f.bin".toList ++ ['"'] ++ "\x7d".toList))))

/-- An object of 9000 bytes; the request for the first chunk is answered by a complete 206
response whose body has 100 bytes only, which the sink writes in full. -/
def worldShortBody : World :=
  { goodWorld "bytes 0-0/9000".toList 9000 with
    send := fun data_start sent =>
      if data_start = 0 then (HTTPSuccess, ⟨206, 100⟩)
      else (goodWorld "bytes 0-0/9000".toList 9000).send data_start sent
    writeBlock := fun data_start =>
      if data_start = 0 then 100
      else (goodWorld "bytes 0-0/9000".toList 9000).writeBlock data_start }

/-- An object of two chunks; the second chunk meets 3 network errors, then succeeds. -/
def worldThreeErrors : World :=
  flakyWorld "bytes 0-0/8192".toList 8192 (fun data_start => if data_start = 4096 then 3 else 0)

/-- An OTA payload whose URL has `MAX_URL_LEN + 1` characters: the URL marker, 2001 times
the letter `a` and a double quote. -/
def payloadLongUrl : List Char :=
  JSON_OBJ_URL ++ (List.replicate (MAX_URL_LEN + 1) 'a' ++ '"' :: [])

/-! ## Lemmas on the send loop and the chunk loop -/

theorem requests_nil : requests [] = [] := rfl

theorem requests_cons_request (a b : Int) (t : List Event) :
    requests (Event.request a b :: t) = (a, b) :: requests t := rfl

theorem requests_cons_connect (t : List Event) :
    requests (Event.connect :: t) = requests t := rfl

theorem requests_cons_disconnect (t : List Event) :
    requests (Event.disconnect :: t) = requests t := rfl

theorem requests_cons_createFileForRx (n : Nat) (t : List Event) :
    requests (Event.createFileForRx n :: t) = requests t := rfl

theorem requests_cons_writeBlock (a b : Nat) (t : List Event) :
    requests (Event.writeBlock a b :: t) = requests t := rfl

theorem requests_cons_closeFile (t : List Event) :
    requests (Event.closeFile :: t) = requests t := rfl

theorem requests_append (a b : List Event) : requests (a ++ b) = requests a ++ requests b := by
  simp [requests, List.filterMap_append]

theorem sendLoop_of_success (w : World) (s e : Int) (tries sent : Nat)
    (h : (w.send s sent).1 = HTTPSuccess) :
    sendLoop w s e tries sent = ([Event.request s (e - 1)], some (w.send s sent).2) := by
  rcases hs : w.send s sent with ⟨st, r⟩
  rw [hs] at h
  simp only at h
  subst h
  cases tries <;> simp [sendLoop, hs]

theorem DATA_CHUNK_SIZE_eq : DATA_CHUNK_SIZE = 4096 := by decide

theorem chunkLoop_requests_of_success (w : World) (T : Int)
    (hinit : ∀ s, w.initializeRequestHeaders s = HTTPSuccess)
    (hrange : ∀ s, w.addRangeHeader s = HTTPSuccess)
    (hsend : ∀ s, (w.send s 0).1 = HTTPSuccess)
    (hwrite : ∀ s, w.writeBlock s = toInt16 (w.send s 0).2.bodyLen) :
    ∀ (fuel j n : Nat), ((n : Int) = (T + DATA_CHUNK_SIZE - 1) / DATA_CHUNK_SIZE) →
      (T - (j : Int) * DATA_CHUNK_SIZE).toNat < fuel →
      requests (chunkLoop w T fuel ((j : Int) * DATA_CHUNK_SIZE)).trace
        = (List.range' j (n - j)).map fun (k : Nat) =>
            ((k : Int) * DATA_CHUNK_SIZE, min (((k : Int) + 1) * DATA_CHUNK_SIZE) T - 1) := by
  intro fuel
  induction fuel with
  | zero => intro j n _ h; omega
  | succ fuel ih =>
    intro j n hn hfuel
    simp only [DATA_CHUNK_SIZE_eq] at hn hfuel ih ⊢
    by_cases hlt : (j : Int) * 4096 < T
    · have hjn : j < n := by omega
      have hrest := ih (j + 1) n hn (by push_cast; omega)
      have hstep : (j : Int) * 4096 + 4096 = ((j + 1 : Nat) : Int) * 4096 := by
        push_cast; ring
      have hr : List.range' j (n - j) = j :: List.range' (j + 1) (n - (j + 1)) := by
        have : n - j = (n - (j + 1)) + 1 := by omega
        rw [this, List.range'_succ]
      rw [hr]
      simp only [chunkLoop, DATA_CHUNK_SIZE_eq, hlt, if_true, hinit, hrange, ne_eq,
        not_true_eq_false, if_false, sendLoop_of_success w _ _ 30 0 (hsend _), hwrite,
        List.map_cons]
      rw [hstep, requests_append, requests_cons_writeBlock, hrest, requests_cons_request,
        requests_nil]
      simp only [List.singleton_append, List.cons.injEq, Prod.mk.injEq, true_and, and_true]
      by_cases hc : ((j + 1 : Nat) : Int) * 4096 > T
      · simp only [hc, if_true]; rw [min_eq_right (by push_cast at hc ⊢; omega)]
      · simp only [hc, if_false]; rw [min_eq_left (by push_cast at hc ⊢; omega)]; push_cast; ring
    · have hjn : n - j = 0 := by omega
      rw [hjn]
      simp [chunkLoop, DATA_CHUNK_SIZE_eq, hlt, requests_cons_disconnect, requests_cons_closeFile, requests_nil]

theorem tiling_count (T b : Int) (hb : 0 ≤ b) (hbT : b < T) :
    (tiling T).countP (fun r => decide (r.1 ≤ b ∧ b ≤ r.2)) = 1 := by
  unfold tiling
  rw [List.countP_map]
  have hk : (b / 4096).toNat ∈ List.range ((T + DATA_CHUNK_SIZE - 1) / DATA_CHUNK_SIZE).toNat := by
    rw [List.mem_range, DATA_CHUNK_SIZE_eq]
    omega
  rw [← List.count_eq_one_of_mem (List.nodup_range _) hk, List.count]
  apply List.countP_congr
  intro k hkn
  rw [List.mem_range, DATA_CHUNK_SIZE_eq] at hkn
  simp only [Function.comp, DATA_CHUNK_SIZE_eq, decide_eq_true_eq, beq_iff_eq]
  have hmin : min (((k : Int) + 1) * 4096) T = if ((k : Int) + 1) * 4096 ≤ T then ((k : Int) + 1) * 4096 else T := by
    split
    · exact min_eq_left (by assumption)
    · exact min_eq_right (by omega)
  rw [hmin]
  split <;> omega

theorem tiling_getLast (T : Int) (hT : 0 < T) :
    ∃ a e, (tiling T).getLast? = some (a, e) ∧
      e - a + 1 = if T % DATA_CHUNK_SIZE = 0 then DATA_CHUNK_SIZE else T % DATA_CHUNK_SIZE := by
  unfold tiling
  obtain ⟨m, hm⟩ : ∃ m, ((T + DATA_CHUNK_SIZE - 1) / DATA_CHUNK_SIZE).toNat = m + 1 := by
    refine ⟨((T + DATA_CHUNK_SIZE - 1) / DATA_CHUNK_SIZE).toNat - 1, ?_⟩
    rw [DATA_CHUNK_SIZE_eq]
    omega
  rw [hm, List.range_succ, List.map_append, List.map_singleton, List.getLast?_concat]
  refine ⟨_, _, rfl, ?_⟩
  rw [DATA_CHUNK_SIZE_eq] at hm ⊢
  rw [min_eq_right (by omega)]
  split <;> omega

theorem count_connect_sendLoop (w : World) (s e : Int) :
    ∀ tries sent, (sendLoop w s e tries sent).1.count Event.connect ≤ tries := by
  intro tries
  induction tries with
  | zero =>
    intro sent
    unfold sendLoop
    rcases w.send s sent with ⟨st, r⟩
    simp only
    split_ifs <;> simp
  | succ tries ih =>
    intro sent
    unfold sendLoop
    rcases w.send s sent with ⟨st, r⟩
    simp only
    split_ifs
    · have := ih (sent + 1)
      simp only [List.count_cons, beq_iff_eq, reduceCtorEq, if_false, if_true, add_zero]
      simpa using this
    · simp
    · simp

theorem count_connect_sendLoop_zero (w : World) (e : Int) (tries sent : Nat) :
    (sendLoop w 0 e tries sent).1.count Event.connect = 0 := by
  unfold sendLoop
  rcases w.send 0 sent with ⟨st, r⟩
  cases tries <;> simp only <;> split_ifs <;> simp_all

theorem chunkLoop_cases (w : World) (T : Int) (fuel : Nat) (s : Int) (P : Run → Prop)
    (hdone : ¬ s < T → P ⟨some 0, [Event.disconnect, Event.closeFile]⟩)
    (hheaders : s < T →
      (w.initializeRequestHeaders s ≠ HTTPSuccess ∨ w.addRangeHeader s ≠ HTTPSuccess) →
      P ⟨some (-1), []⟩)
    (hsend : ∀ evs, s < T → w.initializeRequestHeaders s = HTTPSuccess →
      w.addRangeHeader s = HTTPSuccess →
      sendLoop w s (data_end_at T s) 30 0 = (evs, none) → P ⟨some (-1), evs⟩)
    (hwrite : ∀ evs response, s < T → w.initializeRequestHeaders s = HTTPSuccess →
      w.addRangeHeader s = HTTPSuccess →
      sendLoop w s (data_end_at T s) 30 0 = (evs, some response) →
      w.writeBlock s ≠ toInt16 response.bodyLen →
      P ⟨some (-1), evs ++ [Event.writeBlock (toUInt32 s) (toUInt32 response.bodyLen)]⟩)
    (hnext : ∀ evs response, s < T → w.initializeRequestHeaders s = HTTPSuccess →
      w.addRangeHeader s = HTTPSuccess →
      sendLoop w s (data_end_at T s) 30 0 = (evs, some response) →
      w.writeBlock s = toInt16 response.bodyLen →
      P ⟨(chunkLoop w T fuel (s + DATA_CHUNK_SIZE)).result,
        evs ++ Event.writeBlock (toUInt32 s) (toUInt32 response.bodyLen)
          :: (chunkLoop w T fuel (s + DATA_CHUNK_SIZE)).trace⟩) :
    P (chunkLoop w T (fuel + 1) s) := by
  rw [chunkLoop]
  by_cases hlt : s < T
  · rw [if_pos hlt]
    by_cases h1 : w.initializeRequestHeaders s = HTTPSuccess
    · by_cases h2 : w.addRangeHeader s = HTTPSuccess
      · simp only [h1, h2, ne_eq, not_true_eq_false, if_false]
        change P (match sendLoop w s (data_end_at T s) 30 0 with
          | (evs, none) => ⟨some (-1), evs⟩
          | (evs, some response) =>
            if w.writeBlock s ≠ toInt16 response.bodyLen then
              ⟨some (-1), evs ++ [Event.writeBlock (toUInt32 s) (toUInt32 response.bodyLen)]⟩
            else
              ⟨(chunkLoop w T fuel (s + DATA_CHUNK_SIZE)).result,
                evs ++ Event.writeBlock (toUInt32 s) (toUInt32 response.bodyLen)
                  :: (chunkLoop w T fuel (s + DATA_CHUNK_SIZE)).trace⟩)
        rcases hsl : sendLoop w s (data_end_at T s) 30 0 with ⟨evs, _ | response⟩
        · exact hsend evs hlt h1 h2 hsl
        · by_cases hw : w.writeBlock s = toInt16 response.bodyLen
          · simp only [hw, ne_eq, not_true_eq_false, if_false]
            exact hnext evs response hlt h1 h2 hsl hw
          · simp only [ne_eq, hw, not_false_eq_true, if_true]
            exact hwrite evs response hlt h1 h2 hsl hw
      · simp only [h1, h2, ne_eq, not_true_eq_false, if_false, not_false_eq_true, if_true]
        exact hheaders hlt (Or.inr h2)
    · simp only [h1, ne_eq, not_false_eq_true, if_true]
      exact hheaders hlt (Or.inl h1)
  · rw [if_neg hlt]
    exact hdone hlt

theorem count_connect_chunkLoop (w : World) (T : Int) :
    ∀ (fuel j n : Nat), ((n : Int) = (T + DATA_CHUNK_SIZE - 1) / DATA_CHUNK_SIZE) → 1 ≤ j →
      (chunkLoop w T fuel ((j : Int) * DATA_CHUNK_SIZE)).trace.count Event.connect
        ≤ 30 * (n - j) := by
  intro fuel
  induction fuel with
  | zero => intro j n _ _; simp [chunkLoop]
  | succ fuel ih =>
    intro j n hn hj
    have hrest := ih (j + 1) n hn (by omega)
    have hstep : (j : Int) * DATA_CHUNK_SIZE + DATA_CHUNK_SIZE
        = ((j + 1 : Nat) : Int) * DATA_CHUNK_SIZE := by push_cast; ring
    rw [DATA_CHUNK_SIZE_eq] at hn
    refine chunkLoop_cases w T fuel _
      (fun r => r.trace.count Event.connect ≤ 30 * (n - j)) ?_ ?_ ?_ ?_ ?_
    · intro _; simp
    · intro _ _; simp
    · intro evs hlt _ _ hsl
      have hjn : j < n := by rw [DATA_CHUNK_SIZE_eq] at hlt; omega
      have hsend := count_connect_sendLoop w ((j : Int) * DATA_CHUNK_SIZE)
        (data_end_at T ((j : Int) * DATA_CHUNK_SIZE)) 30 0
      rw [hsl] at hsend
      simp only at hsend ⊢
      omega
    · intro evs response hlt _ _ hsl _
      have hjn : j < n := by rw [DATA_CHUNK_SIZE_eq] at hlt; omega
      have hsend := count_connect_sendLoop w ((j : Int) * DATA_CHUNK_SIZE)
        (data_end_at T ((j : Int) * DATA_CHUNK_SIZE)) 30 0
      rw [hsl] at hsend
      simp only [List.count_append, List.count_cons, List.count_nil, beq_iff_eq,
        reduceCtorEq, if_false] at hsend ⊢
      omega
    · intro evs response hlt _ _ hsl _
      have hjn : j < n := by rw [DATA_CHUNK_SIZE_eq] at hlt; omega
      have hsend := count_connect_sendLoop w ((j : Int) * DATA_CHUNK_SIZE)
        (data_end_at T ((j : Int) * DATA_CHUNK_SIZE)) 30 0
      rw [hsl] at hsend
      rw [hstep]
      simp only [List.count_append, List.count_cons, beq_iff_eq, reduceCtorEq, if_false]
        at hsend ⊢
      omega

theorem count_connect_chunkLoop_zero (w : World) (T : Int) (fuel n : Nat)
    (hn : (n : Int) = (T + DATA_CHUNK_SIZE - 1) / DATA_CHUNK_SIZE) :
    (chunkLoop w T fuel 0).trace.count Event.connect ≤ 30 * (n - 1) := by
  cases fuel with
  | zero => simp [chunkLoop]
  | succ fuel =>
    have hrest := count_connect_chunkLoop w T fuel 1 n hn (le_refl 1)
    simp only [Nat.cast_one, one_mul] at hrest
    refine chunkLoop_cases w T fuel 0
      (fun r => r.trace.count Event.connect ≤ 30 * (n - 1)) ?_ ?_ ?_ ?_ ?_
    · intro _; simp
    · intro _ _; simp
    · intro evs _ _ _ hsl
      have hsend := count_connect_sendLoop_zero w (data_end_at T 0) 30 0
      rw [hsl] at hsend
      simp only at hsend ⊢
      omega
    · intro evs response _ _ _ hsl _
      have hsend := count_connect_sendLoop_zero w (data_end_at T 0) 30 0
      rw [hsl] at hsend
      simp only [List.count_append, List.count_cons, List.count_nil, beq_iff_eq,
        reduceCtorEq, if_false] at hsend ⊢
      omega
    · intro evs response _ _ _ hsl _
      have hsend := count_connect_sendLoop_zero w (data_end_at T 0) 30 0
      rw [hsl] at hsend
      rw [zero_add]
      simp only [List.count_append, List.count_cons, beq_iff_eq, reduceCtorEq, if_false]
        at hsend ⊢
      omega

theorem sendsAt_append (s : Int) (a b : List Event) :
    sendsAt s (a ++ b) = sendsAt s a + sendsAt s b := by
  simp [sendsAt, requests_append, List.countP_append]

theorem sendsAt_sendLoop (w : World) (s e s' : Int) :
    ∀ tries sent, sendsAt s' (sendLoop w s e tries sent).1
      ≤ if s' = s then (if s = 0 then 1 else tries + 1) else 0 := by
  intro tries
  induction tries with
  | zero =>
    intro sent
    unfold sendLoop
    rcases w.send s sent with ⟨st, r⟩
    by_cases hss : s' = s
    · subst hss
      simp only [sendsAt]
      split_ifs <;> simp_all [requests_cons_request, requests_nil]
    · have hss' : ¬ s = s' := fun h => hss h.symm
      simp only [sendsAt]
      split_ifs <;> simp_all [requests_cons_request, requests_nil]
  | succ tries ih =>
    intro sent
    unfold sendLoop
    rcases w.send s sent with ⟨st, r⟩
    have := ih (sent + 1)
    by_cases hss : s' = s
    · subst hss
      simp only [sendsAt] at this ⊢
      split_ifs at this ⊢ <;>
        simp_all [requests_cons_request, requests_cons_disconnect, requests_cons_connect,
          requests_nil, List.countP_cons]
    · have hss' : ¬ s = s' := fun h => hss h.symm
      simp only [sendsAt] at this ⊢
      split_ifs at this ⊢ <;>
        simp_all [requests_cons_request, requests_cons_disconnect, requests_cons_connect,
          requests_nil, List.countP_cons]
      assumption

theorem sendsAt_chunkLoop (w : World) (T s : Int) :
    ∀ (fuel : Nat) (s0 : Int), sendsAt s (chunkLoop w T fuel s0).trace
      ≤ if s0 ≤ s then (if s = 0 then 1 else 31) else 0 := by
  intro fuel
  induction fuel with
  | zero => intro s0; simp [chunkLoop, sendsAt, requests_nil]
  | succ fuel ih =>
    intro s0
    have hrest := ih (s0 + DATA_CHUNK_SIZE)
    have hsl := sendsAt_sendLoop w s0 (data_end_at T s0) s 30 0
    have hC := DATA_CHUNK_SIZE_eq
    refine chunkLoop_cases w T fuel s0
      (fun r => sendsAt s r.trace ≤ if s0 ≤ s then (if s = 0 then 1 else 31) else 0)
      ?_ ?_ ?_ ?_ ?_
    · intro _
      simp [sendsAt, requests_cons_disconnect, requests_cons_closeFile, requests_nil]
    · intro _ _
      simp [sendsAt, requests_nil]
    · intro evs _ _ _ heq
      rw [heq] at hsl
      simp only at hsl ⊢
      split_ifs at hsl ⊢ <;> omega
    · intro evs response _ _ _ heq _
      rw [heq] at hsl
      have h0 : sendsAt s [Event.writeBlock (toUInt32 s0) (toUInt32 response.bodyLen)] = 0 := by
        simp [sendsAt, requests_cons_writeBlock, requests_nil]
      simp only [sendsAt_append, h0] at hsl ⊢
      split_ifs at hsl ⊢ <;> omega
    · intro evs response _ _ _ heq _
      rw [heq] at hsl
      have h0 : sendsAt s (Event.writeBlock (toUInt32 s0) (toUInt32 response.bodyLen)
          :: (chunkLoop w T fuel (s0 + DATA_CHUNK_SIZE)).trace)
          = sendsAt s (chunkLoop w T fuel (s0 + DATA_CHUNK_SIZE)).trace := by
        simp [sendsAt, requests_cons_writeBlock]
      simp only [sendsAt_append, h0] at hsl ⊢
      split_ifs at hsl hrest ⊢ <;> omega

theorem download_of_not_probeSent (w : World) (h : ¬ probeSent w) :
    iotc_ota_fw_download w = ⟨some (-1), []⟩ ∨
      iotc_ota_fw_download w = ⟨some (-1), [Event.connect]⟩ := by
  unfold probeSent at h
  unfold iotc_ota_fw_download
  by_cases h1 : w.allocate = true
  · by_cases h2 : w.configure = true
    · by_cases h3 : w.connect = true
      · by_cases h4 : w.probeInitializeRequestHeaders = HTTPSuccess
        · by_cases h5 : w.probeAddRangeHeader = HTTPSuccess
          · exact absurd ⟨h1, h2, h3, h4, h5⟩ h
          · simp [h1, h2, h3, h4, h5]
        · simp [h1, h2, h3, h4]
      · simp [h1, h2, h3]
    · simp [h1, h2]
  · simp [h1]

theorem download_of_probe_none (w : World) (h : probeSent w)
    (hprobe : probe_data_length w = none) :
    iotc_ota_fw_download w = ⟨some (-1), [Event.connect, Event.request 0 0]⟩ := by
  obtain ⟨h1, h2, h3, h4, h5⟩ := h
  simp [iotc_ota_fw_download, h1, h2, h3, h4, h5, hprobe]

theorem download_of_create_failed (w : World) (T : Int) (h : probeSent w)
    (hprobe : probe_data_length w = some T) (hcreate : w.createFileForRx = false) :
    iotc_ota_fw_download w = ⟨some (-1),
      [Event.connect, Event.request 0 0, Event.createFileForRx (toUInt32 T)]⟩ := by
  obtain ⟨h1, h2, h3, h4, h5⟩ := h
  simp [iotc_ota_fw_download, h1, h2, h3, h4, h5, hprobe, hcreate]

theorem download_of_created (w : World) (T : Int) (h : probeSent w)
    (hprobe : probe_data_length w = some T) (hcreate : w.createFileForRx = true) :
    iotc_ota_fw_download w = ⟨(chunkLoop w T (T.toNat + 1) 0).result,
      Event.connect :: Event.request 0 0 :: Event.createFileForRx (toUInt32 T)
        :: (chunkLoop w T (T.toNat + 1) 0).trace⟩ := by
  obtain ⟨h1, h2, h3, h4, h5⟩ := h
  simp [iotc_ota_fw_download, h1, h2, h3, h4, h5, hprobe, hcreate]

theorem download_cases (w : World) (P : Run → Prop)
    (hsetup : ¬ probeSent w → P ⟨some (-1), []⟩ ∧ P ⟨some (-1), [Event.connect]⟩)
    (hprobe : probeSent w → probe_data_length w = none →
      P ⟨some (-1), [Event.connect, Event.request 0 0]⟩)
    (hcreate : ∀ T, probeSent w → probe_data_length w = some T → w.createFileForRx = false →
      P ⟨some (-1), [Event.connect, Event.request 0 0, Event.createFileForRx (toUInt32 T)]⟩)
    (hloop : ∀ T, probeSent w → probe_data_length w = some T → w.createFileForRx = true →
      P ⟨(chunkLoop w T (T.toNat + 1) 0).result,
        Event.connect :: Event.request 0 0 :: Event.createFileForRx (toUInt32 T)
          :: (chunkLoop w T (T.toNat + 1) 0).trace⟩) :
    P (iotc_ota_fw_download w) := by
  by_cases h : probeSent w
  · rcases hp : probe_data_length w with _ | T
    · rw [download_of_probe_none w h hp]; exact hprobe h hp
    · rcases hc : w.createFileForRx with _ | _
      · rw [download_of_create_failed w T h hp hc]; exact hcreate T h hp hc
      · rw [download_of_created w T h hp hc]; exact hloop T h hp hc
  · rcases download_of_not_probeSent w h with h' | h'
    · rw [h']; exact (hsetup h).1
    · rw [h']; exact (hsetup h).2

theorem sendsAt_download (w : World) (s : Int) :
    sendsAt s (iotc_ota_fw_download w).trace ≤ 31 := by
  refine download_cases w (fun r => sendsAt s r.trace ≤ 31) ?_ ?_ ?_ ?_
  · intro _
    simp [sendsAt, requests_cons_connect, requests_nil]
  · intro _ _
    simp only [sendsAt, requests_cons_connect, requests_cons_request, requests_nil,
      List.countP_cons, List.countP_nil]
    split_ifs <;> omega
  · intro T _ _ _
    simp only [sendsAt, requests_cons_connect, requests_cons_request,
      requests_cons_createFileForRx, requests_nil, List.countP_cons, List.countP_nil]
    split_ifs <;> omega
  · intro T _ _ _
    have hloop := sendsAt_chunkLoop w T s (T.toNat + 1) 0
    have hsplit : Event.connect :: Event.request 0 0 :: Event.createFileForRx (toUInt32 T)
        :: (chunkLoop w T (T.toNat + 1) 0).trace
        = [Event.connect, Event.request 0 0, Event.createFileForRx (toUInt32 T)]
          ++ (chunkLoop w T (T.toNat + 1) 0).trace := rfl
    have hhead : sendsAt s [Event.connect, Event.request 0 0,
        Event.createFileForRx (toUInt32 T)] ≤ if s = 0 then 1 else 0 := by
      simp only [sendsAt, requests_cons_connect, requests_cons_request,
        requests_cons_createFileForRx, requests_nil, List.countP_cons, List.countP_nil]
      by_cases hs : s = 0
      · simp [hs]
      · have hs' : ¬ (0 : Int) = s := fun h => hs h.symm
        simp [hs, hs']
    simp only [hsplit, sendsAt_append]
    split_ifs at hloop hhead <;> omega

theorem reconnects_download (w : World) (T : Int) (hprobe : probe_data_length w = some T) :
    reconnects (iotc_ota_fw_download w).trace
      ≤ 30 * (((T + DATA_CHUNK_SIZE - 1) / DATA_CHUNK_SIZE).toNat - 1) := by
  refine download_cases w (fun r => reconnects r.trace
      ≤ 30 * (((T + DATA_CHUNK_SIZE - 1) / DATA_CHUNK_SIZE).toNat - 1)) ?_ ?_ ?_ ?_
  · intro _
    simp [reconnects]
  · intro _ _
    simp [reconnects]
  · intro T' _ _ _
    simp [reconnects]
  · intro T' _ hp _
    rw [hprobe] at hp
    cases hp
    by_cases hT : 0 < T
    · have hloop := count_connect_chunkLoop_zero w T (T.toNat + 1)
        ((T + DATA_CHUNK_SIZE - 1) / DATA_CHUNK_SIZE).toNat
        (by rw [DATA_CHUNK_SIZE_eq]; omega)
      simp only [reconnects, List.count_cons, beq_iff_eq, reduceCtorEq, if_false, if_true,
        beq_self_eq_true] at hloop ⊢
      omega
    · have hdone : chunkLoop w T (T.toNat + 1) 0
          = ⟨some 0, [Event.disconnect, Event.closeFile]⟩ := by
        rw [chunkLoop, if_neg hT]
      rw [hdone]
      simp [reconnects]

theorem chunkLoop_of_completes (w : World) (T s : Int) (fuel : Nat)
    (h : chunkCompletes w T s) :
    ∃ evs, chunkLoop w T (fuel + 1) s = ⟨(chunkLoop w T fuel (s + DATA_CHUNK_SIZE)).result,
      evs ++ (chunkLoop w T fuel (s + DATA_CHUNK_SIZE)).trace⟩ := by
  obtain ⟨hlt, h1, h2, evs, response, hsl, hw⟩ := h
  refine chunkLoop_cases w T fuel s
    (fun r => ∃ evs, r = ⟨(chunkLoop w T fuel (s + DATA_CHUNK_SIZE)).result,
      evs ++ (chunkLoop w T fuel (s + DATA_CHUNK_SIZE)).trace⟩) ?_ ?_ ?_ ?_ ?_
  · intro h; exact absurd hlt h
  · intro _ h; rcases h with h | h
    · exact absurd h1 h
    · exact absurd h2 h
  · intro evs' _ _ _ hsl'
    rw [hsl] at hsl'
    cases hsl'
  · intro evs' response' _ _ _ hsl' hw'
    rw [hsl] at hsl'
    cases hsl'
    exact absurd hw hw'
  · intro evs' response' _ _ _ _ _
    exact ⟨evs' ++ [Event.writeBlock (toUInt32 s) (toUInt32 response'.bodyLen)], by simp⟩

theorem chunkLoop_reach (w : World) (T : Int) :
    ∀ (k fuel : Nat), (∀ i : Nat, i < k → chunkCompletes w T ((i : Int) * DATA_CHUNK_SIZE)) →
      ∃ pre, chunkLoop w T (fuel + k) 0
        = ⟨(chunkLoop w T fuel ((k : Int) * DATA_CHUNK_SIZE)).result,
            pre ++ (chunkLoop w T fuel ((k : Int) * DATA_CHUNK_SIZE)).trace⟩ := by
  intro k
  induction k with
  | zero => intro fuel _; exact ⟨[], by simp⟩
  | succ k ih =>
    intro fuel h
    obtain ⟨pre, hpre⟩ := ih (fuel + 1) (fun i hi => h i (by omega))
    obtain ⟨evs, hevs⟩ := chunkLoop_of_completes w T ((k : Int) * DATA_CHUNK_SIZE) fuel
      (h k (by omega))
    have hstep : (k : Int) * DATA_CHUNK_SIZE + DATA_CHUNK_SIZE
        = ((k + 1 : Nat) : Int) * DATA_CHUNK_SIZE := by push_cast; ring
    rw [hstep] at hevs
    refine ⟨pre ++ evs, ?_⟩
    rw [show fuel + (k + 1) = fuel + 1 + k by omega, hpre, hevs]
    simp

theorem download_of_reachesChunk (w : World) (T : Int) (k : Nat) (h : reachesChunk w T k) :
    ∃ pre fuel, iotc_ota_fw_download w
      = ⟨(chunkLoop w T (fuel + 1) ((k : Int) * DATA_CHUNK_SIZE)).result,
          pre ++ (chunkLoop w T (fuel + 1) ((k : Int) * DATA_CHUNK_SIZE)).trace⟩ := by
  obtain ⟨hsent, hprobe, hcreate, hbefore, hlt, -, -, -⟩ := h
  have hk : k ≤ T.toNat := by rw [DATA_CHUNK_SIZE_eq] at hlt; omega
  obtain ⟨pre, hpre⟩ := chunkLoop_reach w T k (T.toNat - k + 1) hbefore
  refine ⟨Event.connect :: Event.request 0 0 :: Event.createFileForRx (toUInt32 T) :: pre,
    T.toNat - k, ?_⟩
  rw [download_of_created w T hsent hprobe hcreate,
    show T.toNat + 1 = T.toNat - k + 1 + k by omega, hpre]
  simp

theorem sendLoop_of_other (w : World) (s e : Int) (tries sent : Nat)
    (h1 : (w.send s sent).1 ≠ HTTPSuccess) (h2 : (w.send s sent).1 ≠ HTTPNetworkError) :
    sendLoop w s e tries sent = ([Event.request s (e - 1)], none) := by
  unfold sendLoop
  rcases hs : w.send s sent with ⟨st, r⟩
  rw [hs] at h1 h2
  simp only at h1 h2
  cases tries <;> simp [h1, h2]

theorem sendLoop_first_chunk (w : World) (e : Int) (tries sent : Nat)
    (h1 : (w.send 0 sent).1 ≠ HTTPSuccess) :
    sendLoop w 0 e tries sent = ([Event.request 0 (e - 1)], none) := by
  unfold sendLoop
  rcases hs : w.send 0 sent with ⟨st, r⟩
  rw [hs] at h1
  simp only at h1
  cases tries <;> simp [h1]

theorem sendLoop_retries (w : World) (s e : Int) (hs : s ≠ 0) :
    ∀ (m tries sent : Nat), m ≤ tries →
      (∀ i, i < m → (w.send s (sent + i)).1 = HTTPNetworkError) →
      sendLoop w s e tries sent
        = (retries m s (e - 1) ++ (sendLoop w s e (tries - m) (sent + m)).1,
            (sendLoop w s e (tries - m) (sent + m)).2) := by
  intro m
  induction m with
  | zero => intro tries sent _ _; simp [retries]
  | succ m ih =>
    intro tries sent hm herr
    obtain ⟨tries', rfl⟩ : ∃ t, tries = t + 1 := ⟨tries - 1, by omega⟩
    have h0 := herr 0 (by omega)
    rw [Nat.add_zero] at h0
    have hrec := ih tries' (sent + 1) (by omega)
      (fun i hi => by rw [show sent + 1 + i = sent + (i + 1) by omega]; exact herr (i + 1) (by omega))
    rw [sendLoop]
    rcases hsend : w.send s sent with ⟨st, r⟩
    rw [hsend] at h0
    simp only at h0
    subst h0
    simp only [ne_eq, hs, not_false_eq_true, and_self, if_true, hrec, retries, List.cons_append]
    rw [show tries' + 1 - (m + 1) = tries' - m by omega,
      show sent + 1 + m = sent + (m + 1) by omega]

theorem sendLoop_head (w : World) (s e : Int) (tries sent : Nat) :
    ∃ rest, (sendLoop w s e tries sent).1 = Event.request s (e - 1) :: rest := by
  unfold sendLoop
  rcases w.send s sent with ⟨st, r⟩
  cases tries <;> simp only <;> split_ifs <;> exact ⟨_, rfl⟩

theorem closeFile_not_mem_sendLoop (w : World) (s e : Int) :
    ∀ tries sent, Event.closeFile ∉ (sendLoop w s e tries sent).1 := by
  intro tries
  induction tries with
  | zero =>
    intro sent
    unfold sendLoop
    rcases w.send s sent with ⟨st, r⟩
    simp only
    split_ifs <;> simp
  | succ tries ih =>
    intro sent
    unfold sendLoop
    rcases w.send s sent with ⟨st, r⟩
    have := ih (sent + 1)
    simp only
    split_ifs <;> simp [this]

theorem closeFile_mem_chunkLoop (w : World) (T : Int) :
    ∀ (fuel : Nat) (s : Int), Event.closeFile ∈ (chunkLoop w T fuel s).trace →
      (chunkLoop w T fuel s).result = some 0 := by
  intro fuel
  induction fuel with
  | zero => intro s h; simp [chunkLoop] at h
  | succ fuel ih =>
    intro s
    have hrest := ih (s + DATA_CHUNK_SIZE)
    have hsl := closeFile_not_mem_sendLoop w s (data_end_at T s) 30 0
    refine chunkLoop_cases w T fuel s
      (fun r => Event.closeFile ∈ r.trace → r.result = some 0) ?_ ?_ ?_ ?_ ?_
    · intro _ _; rfl
    · intro _ _ h; simp at h
    · intro evs _ _ _ heq h
      rw [heq] at hsl
      exact absurd h hsl
    · intro evs response _ _ _ heq _ h
      rw [heq] at hsl
      simp only [List.mem_append, List.mem_singleton, reduceCtorEq, or_false] at h
      exact absurd h hsl
    · intro evs response _ _ _ heq _ h
      rw [heq] at hsl
      simp only [List.mem_append, List.mem_cons, reduceCtorEq, false_or] at h
      rcases h with h | h
      · exact absurd h hsl
      · exact hrest h

theorem closeFile_mem_download (w : World)
    (h : Event.closeFile ∈ (iotc_ota_fw_download w).trace) :
    (iotc_ota_fw_download w).result = some 0 := by
  revert h
  refine download_cases w (fun r => Event.closeFile ∈ r.trace → r.result = some 0) ?_ ?_ ?_ ?_
  · intro _; constructor <;> intro h <;> simp at h
  · intro _ _ h; simp at h
  · intro T _ _ _ h; simp at h
  · intro T _ _ _ h
    simp only [List.mem_cons, reduceCtorEq, false_or] at h
    exact closeFile_mem_chunkLoop w T _ _ h

theorem chunkLoop_send_fails (w : World) (T s : Int) (fuel : Nat) (evs : List Event)
    (hlt : s < T) (h1 : w.initializeRequestHeaders s = HTTPSuccess)
    (h2 : w.addRangeHeader s = HTTPSuccess)
    (hsl : sendLoop w s (data_end_at T s) 30 0 = (evs, none)) :
    chunkLoop w T (fuel + 1) s = ⟨some (-1), evs⟩ := by
  refine chunkLoop_cases w T fuel s (fun r => r = ⟨some (-1), evs⟩) ?_ ?_ ?_ ?_ ?_
  · intro h; exact absurd hlt h
  · intro _ h; rcases h with h | h
    · exact absurd h1 h
    · exact absurd h2 h
  · intro evs' _ _ _ hsl'
    rw [hsl] at hsl'
    cases hsl'
    rfl
  · intro evs' response' _ _ _ hsl' _
    rw [hsl] at hsl'
    cases hsl'
  · intro evs' response' _ _ _ hsl' _
    rw [hsl] at hsl'
    cases hsl'

theorem chunkLoop_write_fails (w : World) (T s : Int) (fuel : Nat) (evs : List Event)
    (response : HTTPResponse)
    (hlt : s < T) (h1 : w.initializeRequestHeaders s = HTTPSuccess)
    (h2 : w.addRangeHeader s = HTTPSuccess)
    (hsl : sendLoop w s (data_end_at T s) 30 0 = (evs, some response))
    (hw : w.writeBlock s ≠ toInt16 response.bodyLen) :
    chunkLoop w T (fuel + 1) s
      = ⟨some (-1), evs ++ [Event.writeBlock (toUInt32 s) (toUInt32 response.bodyLen)]⟩ := by
  refine chunkLoop_cases w T fuel s (fun r => r
    = ⟨some (-1), evs ++ [Event.writeBlock (toUInt32 s) (toUInt32 response.bodyLen)]⟩)
    ?_ ?_ ?_ ?_ ?_
  · intro h; exact absurd hlt h
  · intro _ h; rcases h with h | h
    · exact absurd h1 h
    · exact absurd h2 h
  · intro evs' _ _ _ hsl'
    rw [hsl] at hsl'
    cases hsl'
  · intro evs' response' _ _ _ hsl' _
    rw [hsl] at hsl'
    cases hsl'
    rfl
  · intro evs' response' _ _ _ hsl' hw'
    rw [hsl] at hsl'
    cases hsl'
    exact absurd hw' hw

theorem chunkLoop_trace_head (w : World) (T s : Int) (fuel : Nat)
    (hlt : s < T) (h1 : w.initializeRequestHeaders s = HTTPSuccess)
    (h2 : w.addRangeHeader s = HTTPSuccess) :
    ∃ rest, (chunkLoop w T (fuel + 1) s).trace
      = (sendLoop w s (data_end_at T s) 30 0).1 ++ rest := by
  refine chunkLoop_cases w T fuel s (fun r => ∃ rest, r.trace
    = (sendLoop w s (data_end_at T s) 30 0).1 ++ rest) ?_ ?_ ?_ ?_ ?_
  · intro h; exact absurd hlt h
  · intro _ h; rcases h with h | h
    · exact absurd h1 h
    · exact absurd h2 h
  · intro evs _ _ _ hsl
    exact ⟨[], by rw [hsl]; simp⟩
  · intro evs response _ _ _ hsl _
    exact ⟨_, by rw [hsl]⟩
  · intro evs response _ _ _ hsl _
    exact ⟨_, by rw [hsl]⟩

theorem reachesChunk_world30 : reachesChunk world30 8192 1 := by
  refine ⟨⟨rfl, rfl, rfl, rfl, rfl⟩, by decide, rfl, ?_, by decide, rfl, rfl, by decide⟩
  intro i hi
  obtain rfl : i = 0 := by omega
  exact ⟨by decide, rfl, rfl, [Event.request 0 4095], ⟨206, 4096⟩, by decide, by decide⟩

theorem reachesChunk_worldThreeErrors : reachesChunk worldThreeErrors 8192 1 := by
  refine ⟨⟨rfl, rfl, rfl, rfl, rfl⟩, by decide, rfl, ?_, by decide, rfl, rfl, by decide⟩
  intro i hi
  obtain rfl : i = 0 := by omega
  exact ⟨by decide, rfl, rfl, [Event.request 0 4095], ⟨206, 4096⟩, by decide, by decide⟩

theorem reachesChunk_worldParseError : reachesChunk worldParseError 9000 1 := by
  refine ⟨⟨rfl, rfl, rfl, rfl, rfl⟩, by decide, rfl, ?_, by decide, rfl, rfl, by decide⟩
  intro i hi
  obtain rfl : i = 0 := by omega
  exact ⟨by decide, rfl, rfl, [Event.request 0 4095], ⟨206, 4096⟩, by decide, by decide⟩

theorem reachesChunk_worldShortWrite : reachesChunk worldShortWrite 9000 1 := by
  refine ⟨⟨rfl, rfl, rfl, rfl, rfl⟩, by decide, rfl, ?_, by decide, rfl, rfl, by decide⟩
  intro i hi
  obtain rfl : i = 0 := by omega
  exact ⟨by decide, rfl, rfl, [Event.request 0 4095], ⟨206, 4096⟩, by decide, by decide⟩

theorem withStatusCodes_send (w : World) (code : Int → Nat → Nat) (s : Int) (sent : Nat) :
    (withStatusCodes w code).send s sent
      = ((w.send s sent).1, ⟨code s sent, (w.send s sent).2.bodyLen⟩) := rfl

theorem sendLoop_withStatusCodes (w : World) (code : Int → Nat → Nat) (s e : Int) :
    ∀ tries sent,
      (sendLoop (withStatusCodes w code) s e tries sent).1 = (sendLoop w s e tries sent).1
      ∧ (sendLoop (withStatusCodes w code) s e tries sent).2.map HTTPResponse.bodyLen
        = (sendLoop w s e tries sent).2.map HTTPResponse.bodyLen := by
  intro tries
  induction tries with
  | zero =>
    intro sent
    unfold sendLoop
    rw [withStatusCodes_send]
    rcases w.send s sent with ⟨st, r⟩
    simp only
    split_ifs <;> simp
  | succ tries ih =>
    intro sent
    have := ih (sent + 1)
    unfold sendLoop
    rw [withStatusCodes_send]
    rcases w.send s sent with ⟨st, r⟩
    simp only
    split_ifs <;> simp [this]

theorem chunkLoop_succ (w : World) (T : Int) (fuel : Nat) (s : Int) :
    chunkLoop w T (fuel + 1) s =
      if s < T then
        if w.initializeRequestHeaders s ≠ HTTPSuccess then ⟨some (-1), []⟩
        else if w.addRangeHeader s ≠ HTTPSuccess then ⟨some (-1), []⟩
        else
          match sendLoop w s (data_end_at T s) 30 0 with
          | (evs, none) => ⟨some (-1), evs⟩
          | (evs, some response) =>
            if w.writeBlock s ≠ toInt16 response.bodyLen then
              ⟨some (-1), evs ++ [Event.writeBlock (toUInt32 s) (toUInt32 response.bodyLen)]⟩
            else
              ⟨(chunkLoop w T fuel (s + DATA_CHUNK_SIZE)).result,
                evs ++ Event.writeBlock (toUInt32 s) (toUInt32 response.bodyLen)
                  :: (chunkLoop w T fuel (s + DATA_CHUNK_SIZE)).trace⟩
      else ⟨some 0, [Event.disconnect, Event.closeFile]⟩ := by
  rw [chunkLoop]
  rfl

theorem chunkLoop_withStatusCodes (w : World) (code : Int → Nat → Nat) (T : Int) :
    ∀ (fuel : Nat) (s : Int),
      chunkLoop (withStatusCodes w code) T fuel s = chunkLoop w T fuel s := by
  intro fuel
  induction fuel with
  | zero => intro s; rfl
  | succ fuel ih =>
    intro s
    obtain ⟨h1, h2⟩ := sendLoop_withStatusCodes w code s (data_end_at T s) 30 0
    have e1 : (withStatusCodes w code).initializeRequestHeaders = w.initializeRequestHeaders := rfl
    have e2 : (withStatusCodes w code).addRangeHeader = w.addRangeHeader := rfl
    have e3 : (withStatusCodes w code).writeBlock = w.writeBlock := rfl
    rw [chunkLoop_succ, chunkLoop_succ, ih, e1, e2, e3]
    rcases hl : sendLoop (withStatusCodes w code) s (data_end_at T s) 30 0 with ⟨evs', r'⟩
    rcases hr : sendLoop w s (data_end_at T s) 30 0 with ⟨evs, r⟩
    rw [hl, hr] at h1 h2
    simp only at h1 h2
    subst h1
    cases r' <;> cases r <;> simp at h2
    · rfl
    · simp only [h2]

theorem digitChar_facts : ∀ d, d < 10 →
    isdigit (digitChar d) = true ∧ isspace (digitChar d) = false ∧ (digitChar d).toNat - 48 = d
      ∧ digitChar d ≠ NUL ∧ digitChar d ≠ '-' ∧ digitChar d ≠ '+' := by
  decide

theorem scan_digits_decimal (tail : List Char)
    (htail : ∀ c, tail.head? = some c → isdigit c = false) :
    ∀ (ds : List Nat), (∀ d ∈ ds, d < 10) → ∀ acc,
      scan_digits (ds.map digitChar ++ tail) acc
        = acc * 10 ^ ds.length + Nat.ofDigits 10 ds.reverse := by
  intro ds
  induction ds with
  | nil =>
    intro _ acc
    cases tail with
    | nil => simp [scan_digits]
    | cons c cs => simp [scan_digits, htail c rfl]
  | cons d ds ih =>
    intro hds acc
    obtain ⟨h1, -, h3, -⟩ := digitChar_facts d (hds d (List.mem_cons_self _ _))
    have hrec := ih (fun x hx => hds x (List.mem_cons_of_mem _ hx)) (acc * 10 + d)
    have hstep : scan_digits ((d :: ds).map digitChar ++ tail) acc
        = scan_digits (ds.map digitChar ++ tail) (acc * 10 + d) := by
      rw [List.map_cons, List.cons_append, scan_digits, if_pos h1, h3]
    rw [hstep, hrec, List.length_cons, List.reverse_cons, Nat.ofDigits_append,
      Nat.ofDigits_singleton, List.length_reverse]
    ring

theorem scan_sign_of_digit (c : Char) (rest : List Char) (h1 : c ≠ '-') (h2 : c ≠ '+') :
    scan_sign (c :: rest) = (false, c :: rest) := by
  unfold scan_sign
  split
  · rename_i heq
    injection heq with hc _
    exact absurd hc h1
  · rename_i heq
    injection heq with hc _
    exact absurd hc h2
  · rfl

theorem scan_d_decimal (tail : List Char)
    (htail : ∀ c, tail.head? = some c → isdigit c = false)
    (ds : List Nat) (hds : ∀ d ∈ ds, d < 10) (hne : ds ≠ []) :
    scan_d (ds.map digitChar ++ tail) = some ((Nat.ofDigits 10 ds.reverse : Nat) : Int) := by
  obtain ⟨d, ds', rfl⟩ := List.exists_cons_of_ne_nil hne
  obtain ⟨h1, h2, h3, h4, h5, h6⟩ := digitChar_facts d (hds d (List.mem_cons_self _ _))
  have hval := scan_digits_decimal tail htail (d :: ds') hds 0
  simp only [List.map_cons, List.cons_append, zero_mul, zero_add] at hval
  unfold scan_d
  simp only [List.map_cons, List.cons_append, List.dropWhile_cons, h2, Bool.false_eq_true,
    if_false, scan_sign_of_digit _ _ h5 h6, h1, if_true, hval]

theorem S3_RANGE_RESPONSE_PREFIX_eq :
    S3_RANGE_RESPONSE_PREFIX = ['b', 'y', 't', 'e', 's', ' ', '0', '-', '0', '/'] := by
  decide

theorem sscanf_d_prefix (rest : List Char) :
    sscanf_d S3_RANGE_RESPONSE_PREFIX (S3_RANGE_RESPONSE_PREFIX ++ rest) = scan_d rest := by
  have hsp : isspace ' ' = true := by decide
  have h0 : isspace '0' = false := by decide
  have hb : isspace 'b' = false := by decide
  have hy : isspace 'y' = false := by decide
  have ht : isspace 't' = false := by decide
  have he : isspace 'e' = false := by decide
  have hs : isspace 's' = false := by decide
  have hm : isspace '-' = false := by decide
  have hsl : isspace '/' = false := by decide
  rw [S3_RANGE_RESPONSE_PREFIX_eq]
  simp only [List.cons_append, List.nil_append, sscanf_d, hsp, h0, hb, hy, ht, he, hs, hm, hsl,
    if_true, if_false, List.dropWhile_cons, Bool.false_eq_true]

theorem head?_cstring (memory : List Char) (c : Char)
    (h : (cstring memory).head? = some c) : memory.head? = some c := by
  cases memory with
  | nil => simp [cstring] at h
  | cons a rest =>
    unfold cstring at h
    rw [List.takeWhile_cons] at h
    split at h
    · simpa using h
    · simp at h

theorem cstring_append (value rest : List Char) (h : ∀ c ∈ value, c ≠ NUL) :
    cstring (value ++ rest) = value ++ cstring rest := by
  induction value with
  | nil => rfl
  | cons a value ih =>
    have ha : (a != NUL) = true := by simpa using h a (List.mem_cons_self _ _)
    have := ih (fun c hc => h c (List.mem_cons_of_mem _ hc))
    unfold cstring at this ⊢
    rw [List.cons_append, List.takeWhile_cons, if_pos ha, this, List.cons_append]

theorem strncpy_whole (dest value : List Char) (h : ∀ c ∈ value, c ≠ NUL) :
    cstring (strncpy dest value value.length) = value ++ cstring (dest.drop value.length) := by
  have h1 : cstring value = value := by
    have := cstring_append value [] h
    simpa [cstring] using this
  unfold strncpy
  simp only [List.take_length, h1, Nat.sub_self, List.replicate_zero, List.append_nil]
  exact cstring_append value _ h

theorem chunkLoop_returns (w : World) (T : Int) :
    ∀ (fuel : Nat) (s : Int), (T - s).toNat < fuel →
      (chunkLoop w T fuel s).result = some 0 ∨ (chunkLoop w T fuel s).result = some (-1) := by
  intro fuel
  induction fuel with
  | zero => intro s h; omega
  | succ fuel ih =>
    intro s hfuel
    have hC := DATA_CHUNK_SIZE_eq
    refine chunkLoop_cases w T fuel s
      (fun r => r.result = some 0 ∨ r.result = some (-1)) ?_ ?_ ?_ ?_ ?_
    · intro _; exact Or.inl rfl
    · intro _ _; exact Or.inr rfl
    · intro _ _ _ _ _; exact Or.inr rfl
    · intro _ _ _ _ _ _ _; exact Or.inr rfl
    · intro _ _ hlt _ _ _ _
      exact ih (s + DATA_CHUNK_SIZE) (by omega)

/-- The model never runs out of fuel: every run of `iotc_ota_fw_download` returns, and the
value returned is 0 or -1. -/
theorem iotc_ota_fw_download_returns (w : World) :
    (iotc_ota_fw_download w).result = some 0 ∨ (iotc_ota_fw_download w).result = some (-1) := by
  refine download_cases w (fun r => r.result = some 0 ∨ r.result = some (-1)) ?_ ?_ ?_ ?_
  · intro _; exact ⟨Or.inr rfl, Or.inr rfl⟩
  · intro _ _; exact Or.inr rfl
  · intro _ _ _ _; exact Or.inr rfl
  · intro T _ _ _
    exact chunkLoop_returns w T (T.toNat + 1) 0 (by omega)

/-! ## C1: chunk coverage -/

/-- C1. When the probe resolves a total size `T > 0` (with `T + DATA_CHUNK_SIZE` within
`int`, so that the loop does not overflow) and every request and every write succeeds, the
requests of the download are the probe `0-0` followed by exactly the ranges
`[k*C, min((k+1)*C, T) - 1]` for `k = 0 .. ceil(T/C) - 1` (`C = DATA_CHUNK_SIZE`); every
byte of `[0, T)` lies in exactly one of these ranges, and the last range has length
`T mod C`, or `C` when `T mod C = 0`. -/
theorem chunk_ranges_tile (w : World) (T : Int) (hT : 0 < T)
    (_hint : T + DATA_CHUNK_SIZE ≤ INT_MAX)
    (hallocate : w.allocate = true) (hconfigure : w.configure = true)
    (hconnect : w.connect = true)
    (hprobeInit : w.probeInitializeRequestHeaders = HTTPSuccess)
    (hprobeRange : w.probeAddRangeHeader = HTTPSuccess)
    (hprobe : probe_data_length w = some T)
    (hcreate : w.createFileForRx = true)
    (hinit : ∀ s, w.initializeRequestHeaders s = HTTPSuccess)
    (hrange : ∀ s, w.addRangeHeader s = HTTPSuccess)
    (hsend : ∀ s, (w.send s 0).1 = HTTPSuccess)
    (hwrite : ∀ s, w.writeBlock s = toInt16 (w.send s 0).2.bodyLen) :
    requests (iotc_ota_fw_download w).trace = (0, 0) :: tiling T
    ∧ (∀ b : Int, 0 ≤ b → b < T →
        (tiling T).countP (fun r => decide (r.1 ≤ b ∧ b ≤ r.2)) = 1)
    ∧ (∃ a e, (tiling T).getLast? = some (a, e) ∧
        e - a + 1 = if T % DATA_CHUNK_SIZE = 0 then DATA_CHUNK_SIZE else T % DATA_CHUNK_SIZE) := by
  refine ⟨?_, fun b hb hbT => tiling_count T b hb hbT, tiling_getLast T hT⟩
  have hloop := chunkLoop_requests_of_success w T hinit hrange hsend hwrite (T.toNat + 1) 0
    ((T + DATA_CHUNK_SIZE - 1) / DATA_CHUNK_SIZE).toNat
    (by rw [DATA_CHUNK_SIZE_eq]; omega) (by rw [DATA_CHUNK_SIZE_eq]; omega)
  simp only [Nat.cast_zero, zero_mul, Nat.sub_zero, ← List.range_eq_range'] at hloop
  simp only [iotc_ota_fw_download, hallocate, hconfigure, hconnect, hprobeInit, hprobeRange,
    hprobe, hcreate, Bool.not_true, Bool.false_eq_true, if_false, ne_eq, not_true_eq_false,
    List.cons_append, List.nil_append, requests_cons_connect, requests_cons_request,
    requests_cons_createFileForRx, hloop, tiling]

/-- C1, witness: for `T = 9000` the requests are `0-0`, `0-4095`, `4096-8191` and
`8192-8999`, and the last chunk has 808 bytes. -/
theorem chunk_ranges_tile_witness :
    requests (iotc_ota_fw_download world9000).trace
      = [(0, 0), (0, 4095), (4096, 8191), (8192, 8999)]
    ∧ (8999 : Int) - 8192 + 1 = 9000 % DATA_CHUNK_SIZE := by
  refine ⟨?_, by decide⟩
  have h := (chunk_ranges_tile world9000 9000 (by decide) (by decide) rfl rfl rfl rfl rfl (by decide) rfl
    (fun _ => rfl) (fun _ => rfl) (fun _ => rfl) ?_).1
  · rw [h]; decide
  · intro s
    show ((min DATA_CHUNK_SIZE (9000 - s)).toNat : Int)
      = toInt16 ((min DATA_CHUNK_SIZE (9000 - s)).toNat : Int)
    have hle : min DATA_CHUNK_SIZE (9000 - s) ≤ 4096 := min_le_left _ _
    unfold toInt16
    omega

/-! ## C2, C3, C4: network errors and the retry budget -/

/-- C2, counterexample: in `world60` each of the two chunks after the first meets 30
network errors and then succeeds; the download returns success after 60 reconnect-and-retry
steps, more than the 30 of a budget shared by the whole download. -/
theorem retry_budget_exceeded :
    (iotc_ota_fw_download world60).result = some 0
    ∧ reconnects (iotc_ota_fw_download world60).trace = 60
    ∧ ¬ reconnects (iotc_ota_fw_download world60).trace ≤ 30 := by
  decide

/-- C2 (amended). `tries_remaining` is declared inside the chunk loop and so starts at 30
for every chunk: no chunk is sent more than 31 times (at most 30 reconnect-and-retry steps
for one chunk, none for the first), and the reconnect-and-retry steps of a download of
resolved size `T` number at most 30 for each chunk after the first,
`30 * (ceil (T / DATA_CHUNK_SIZE) - 1)` in all. -/
theorem retry_budget_per_chunk (w : World) (T : Int) (hprobe : probe_data_length w = some T)
    (_hint : T + DATA_CHUNK_SIZE ≤ INT_MAX) :
    reconnects (iotc_ota_fw_download w).trace
      ≤ 30 * (((T + DATA_CHUNK_SIZE - 1) / DATA_CHUNK_SIZE).toNat - 1)
    ∧ ∀ s, sendsAt s (iotc_ota_fw_download w).trace ≤ 31 :=
  ⟨reconnects_download w T hprobe, sendsAt_download w⟩

/-- C2 (amended), witness: `world60` resolves 12288 bytes, three chunks, and stays within
`30 * 2` reconnect-and-retry steps. -/
theorem retry_budget_per_chunk_witness :
    reconnects (iotc_ota_fw_download world60).trace
      ≤ 30 * (((12288 + DATA_CHUNK_SIZE - 1) / DATA_CHUNK_SIZE).toNat - 1) :=
  (retry_budget_per_chunk world60 12288 (by decide) (by decide)).1

/-- C3, the code at the failing input: the second chunk of `world30` meets 30 consecutive
network errors; a 31st send is issued for it, succeeds, and the download returns success.
Only when the 31st send fails as well (`world31`) does the download return failure. -/
theorem thirty_failures_then_a_31st_send :
    (iotc_ota_fw_download world30).result = some 0
    ∧ sendsAt 4096 (iotc_ota_fw_download world30).trace = 31
    ∧ (iotc_ota_fw_download world31).result = some (-1)
    ∧ sendsAt 4096 (iotc_ota_fw_download world31).trace = 31 := by
  decide

/-- C4, counterexample: a network error on the first send of the first chunk ends the
download with failure; there is no disconnect, no reconnect and no second request. -/
theorem first_chunk_network_error_is_fatal :
    iotc_ota_fw_download worldFirstChunkError
      = ⟨some (-1), [Event.connect, Event.request 0 0, Event.createFileForRx 9000,
          Event.request 0 4095]⟩ := by
  decide

/-- C4 (amended). A chunk after the first whose first `m < 30` sends return a network error
is not given up: each failed send is followed by a disconnect and a connect, and then the
request for the same byte range is issued again.  Fewer than 30 failed sends leave retry
budget whichever way the 30 tries are counted (the count at the limit is the matter of
C3).  For the first chunk (`data_start = 0`) the guard `0 != data_start` excludes the
retry: its first network error ends the download with failure, with no reconnect. -/
theorem network_error_retried_after_first_chunk (w : World) (T : Int) (k m : Nat)
    (hreach : reachesChunk w T k) (hm : m < 30)
    (herr : ∀ i, i < m → (w.send ((k : Int) * DATA_CHUNK_SIZE) i).1 = HTTPNetworkError) :
    (k ≠ 0 → ∃ pre rest, (iotc_ota_fw_download w).trace
        = pre ++ retries m ((k : Int) * DATA_CHUNK_SIZE)
            (data_end_at T ((k : Int) * DATA_CHUNK_SIZE) - 1)
          ++ Event.request ((k : Int) * DATA_CHUNK_SIZE)
            (data_end_at T ((k : Int) * DATA_CHUNK_SIZE) - 1) :: rest)
    ∧ (k = 0 → 0 < m → iotc_ota_fw_download w
        = ⟨some (-1), [Event.connect, Event.request 0 0, Event.createFileForRx (toUInt32 T),
            Event.request 0 (data_end_at T 0 - 1)]⟩) := by
  have hreach' := hreach
  obtain ⟨hsent, hprobe, hcreate, -, hlt, h1, h2, -⟩ := hreach'
  constructor
  · intro hk
    have hs : (k : Int) * DATA_CHUNK_SIZE ≠ 0 := by
      rw [DATA_CHUNK_SIZE_eq]; omega
    obtain ⟨pre, fuel, hdl⟩ := download_of_reachesChunk w T k hreach
    obtain ⟨rest, hrest⟩ := chunkLoop_trace_head w T _ fuel hlt h1 h2
    have hsl := sendLoop_retries w _ (data_end_at T ((k : Int) * DATA_CHUNK_SIZE)) hs m 30 0
      (le_of_lt hm) (fun i hi => by rw [Nat.zero_add]; exact herr i hi)
    obtain ⟨rest', hrest'⟩ := sendLoop_head w ((k : Int) * DATA_CHUNK_SIZE)
      (data_end_at T ((k : Int) * DATA_CHUNK_SIZE)) (30 - m) (0 + m)
    refine ⟨pre, rest' ++ rest, ?_⟩
    rw [hdl]
    simp only [hrest, hsl, hrest', List.append_assoc, List.cons_append]
  · intro hk hm0
    subst hk
    simp only [Nat.cast_zero, zero_mul] at hlt h1 h2 herr
    have h0 := herr 0 hm0
    have hsl := sendLoop_first_chunk w (data_end_at T 0) 30 0 (by rw [h0]; decide)
    have hloop := chunkLoop_send_fails w T 0 T.toNat _ hlt h1 h2 hsl
    rw [download_of_created w T hsent hprobe hcreate, hloop]

/-- C4 (amended), witness: the second chunk of `worldThreeErrors` meets 3 network errors;
the request for `4096-8191` is sent 3 times with a reconnect after each, and then once
more. -/
theorem network_error_retried_after_first_chunk_witness :
    ∃ pre rest, (iotc_ota_fw_download worldThreeErrors).trace
      = pre ++ retries 3 4096 8191 ++ Event.request 4096 8191 :: rest := by
  have h := (network_error_retried_after_first_chunk worldThreeErrors 8192 1 3
    reachesChunk_worldThreeErrors (by decide) (fun i hi => by
      show (if i < (if (((1 : Nat) : Int) * DATA_CHUNK_SIZE) = 4096 then (3 : Nat) else 0)
        then (HTTPNetworkError, (⟨0, 0⟩ : HTTPResponse))
        else (goodWorld "bytes 0-0/8192".toList 8192).send _ i).1 = HTTPNetworkError
      have hc : (if (((1 : Nat) : Int) * DATA_CHUNK_SIZE) = 4096 then (3 : Nat) else 0) = 3 := by
        decide
      rw [hc, if_pos hi])).1 (by decide)
  have e1 : ((1 : Nat) : Int) * DATA_CHUNK_SIZE = 4096 := by decide
  have e2 : data_end_at 8192 4096 - 1 = 8191 := by decide
  rw [e1, e2] at h
  exact h

/-! ## C5, C6: HTTP status codes and errors of the HTTP client -/

/-- C5, counterexample: the 403 response to the first chunk request does not end the
download; its body is written to the sink at offset 0, the remaining chunks are fetched
and the download returns success. -/
theorem bad_status_code_is_written :
    (world403.send 0 0).2.statusCode = 403
    ∧ iotc_ota_fw_download world403
      = ⟨some 0, [Event.connect, Event.request 0 0, Event.createFileForRx 9000,
          Event.request 0 4095, Event.writeBlock 0 243,
          Event.request 4096 8191, Event.writeBlock 4096 4096,
          Event.request 8192 8999, Event.writeBlock 8192 808,
          Event.disconnect, Event.closeFile]⟩ := by
  decide

/-- C5 (amended). The HTTP status code of a chunk response is never inspected: replacing
the status codes of all responses by any others changes neither the result of the download
nor the calls it makes.  In particular a response that the HTTP client delivers with
`HTTPSuccess` is written to the sink also when its status code is 403 or 404. -/
theorem status_code_is_ignored (w : World) (code : Int → Nat → Nat) :
    iotc_ota_fw_download (withStatusCodes w code) = iotc_ota_fw_download w := by
  unfold iotc_ota_fw_download
  have hp : probe_data_length (withStatusCodes w code) = probe_data_length w := rfl
  rw [hp]
  simp only [chunkLoop_withStatusCodes w code]
  rfl

/-- C6. When, for any chunk, the HTTP client returns a status that is neither
`HTTPSuccess` nor `HTTPNetworkError` (after `m ≤ 30` retried network errors, none for
the first chunk), the download returns failure and that send is the last call it makes:
no reconnect, no further request, no write, no close. -/
theorem other_http_error_is_fatal (w : World) (T : Int) (k m : Nat)
    (hreach : reachesChunk w T k) (hm : m ≤ 30) (hk : m = 0 ∨ k ≠ 0)
    (herr : ∀ i, i < m → (w.send ((k : Int) * DATA_CHUNK_SIZE) i).1 = HTTPNetworkError)
    (h1 : (w.send ((k : Int) * DATA_CHUNK_SIZE) m).1 ≠ HTTPSuccess)
    (h2 : (w.send ((k : Int) * DATA_CHUNK_SIZE) m).1 ≠ HTTPNetworkError) :
    (iotc_ota_fw_download w).result = some (-1)
    ∧ (∃ pre, (iotc_ota_fw_download w).trace
        = pre ++ retries m ((k : Int) * DATA_CHUNK_SIZE)
            (data_end_at T ((k : Int) * DATA_CHUNK_SIZE) - 1)
          ++ [Event.request ((k : Int) * DATA_CHUNK_SIZE)
            (data_end_at T ((k : Int) * DATA_CHUNK_SIZE) - 1)])
    ∧ Event.closeFile ∉ (iotc_ota_fw_download w).trace := by
  have hreach' := hreach
  obtain ⟨-, -, -, -, hlt, hi1, hi2, -⟩ := hreach'
  obtain ⟨pre, fuel, hdl⟩ := download_of_reachesChunk w T k hreach
  have hsl : sendLoop w ((k : Int) * DATA_CHUNK_SIZE)
      (data_end_at T ((k : Int) * DATA_CHUNK_SIZE)) 30 0
      = (retries m ((k : Int) * DATA_CHUNK_SIZE)
          (data_end_at T ((k : Int) * DATA_CHUNK_SIZE) - 1)
        ++ [Event.request ((k : Int) * DATA_CHUNK_SIZE)
          (data_end_at T ((k : Int) * DATA_CHUNK_SIZE) - 1)], none) := by
    rcases hk with hm0 | hk0
    · subst hm0
      rw [sendLoop_of_other w _ _ 30 0 h1 h2]
      rfl
    · have hs : (k : Int) * DATA_CHUNK_SIZE ≠ 0 := by
        rw [DATA_CHUNK_SIZE_eq]; omega
      rw [sendLoop_retries w _ _ hs m 30 0 hm
        (fun i hi => by rw [Nat.zero_add]; exact herr i hi),
        sendLoop_of_other w _ _ (30 - m) (0 + m)
          (by rw [Nat.zero_add]; exact h1) (by rw [Nat.zero_add]; exact h2)]
  have hloop := chunkLoop_send_fails w T _ fuel _ hlt hi1 hi2 hsl
  have hres : (iotc_ota_fw_download w).result = some (-1) := by rw [hdl, hloop]
  refine ⟨hres, ⟨pre, by rw [hdl, hloop]; simp⟩, fun hmem => ?_⟩
  have := closeFile_mem_download w hmem
  rw [hres] at this
  cases this

/-- C6, witness: a parse failure on the second chunk of a 9000-byte object. -/
theorem other_http_error_is_fatal_witness :
    (iotc_ota_fw_download worldParseError).result = some (-1)
    ∧ (∃ pre, (iotc_ota_fw_download worldParseError).trace
        = pre ++ retries 0 4096 8191 ++ [Event.request 4096 8191])
    ∧ Event.closeFile ∉ (iotc_ota_fw_download worldParseError).trace := by
  have h := other_http_error_is_fatal worldParseError 9000 1 0 reachesChunk_worldParseError
    (by decide) (Or.inl rfl) (fun i hi => absurd hi (Nat.not_lt_zero i))
    (by decide) (by decide)
  have e1 : ((1 : Nat) : Int) * DATA_CHUNK_SIZE = 4096 := by decide
  have e2 : data_end_at 9000 4096 - 1 = 8191 := by decide
  rw [e1, e2] at h
  exact h

/-! ## C7, C8: the sink -/

/-- C7, the code at the failing input: `otaPal_CloseFile` fails and the download still
returns 0. -/
theorem failing_close_returns_success :
    worldCloseFails.closeFile = false
    ∧ iotc_ota_fw_download worldCloseFails
      = ⟨some 0, [Event.connect, Event.request 0 0, Event.createFileForRx 9000,
          Event.request 0 4095, Event.writeBlock 0 4096,
          Event.request 4096 8191, Event.writeBlock 4096 4096,
          Event.request 8192 8999, Event.writeBlock 8192 808,
          Event.disconnect, Event.closeFile]⟩ := by
  decide

/-- C8. When the send loop of a chunk ends with a response whose body is no longer than
the response buffer and the sink's write reports a byte count different from the body
length, the download returns failure; the write is the last call it makes (no further
request), and the sink is not closed. -/
theorem short_write_is_fatal (w : World) (T : Int) (k m : Nat) (response : HTTPResponse)
    (hreach : reachesChunk w T k) (hm : m ≤ 30) (hk : m = 0 ∨ k ≠ 0)
    (herr : ∀ i, i < m → (w.send ((k : Int) * DATA_CHUNK_SIZE) i).1 = HTTPNetworkError)
    (hsend : w.send ((k : Int) * DATA_CHUNK_SIZE) m = (HTTPSuccess, response))
    (hlen : (response.bodyLen : Int) ≤ RESPONSE_BUFFER_LENGTH)
    (hwrite : w.writeBlock ((k : Int) * DATA_CHUNK_SIZE) ≠ response.bodyLen) :
    (iotc_ota_fw_download w).result = some (-1)
    ∧ (∃ pre, (iotc_ota_fw_download w).trace
        = pre ++ retries m ((k : Int) * DATA_CHUNK_SIZE)
            (data_end_at T ((k : Int) * DATA_CHUNK_SIZE) - 1)
          ++ [Event.request ((k : Int) * DATA_CHUNK_SIZE)
                (data_end_at T ((k : Int) * DATA_CHUNK_SIZE) - 1),
              Event.writeBlock (toUInt32 ((k : Int) * DATA_CHUNK_SIZE))
                (toUInt32 response.bodyLen)])
    ∧ Event.closeFile ∉ (iotc_ota_fw_download w).trace := by
  have hreach' := hreach
  obtain ⟨-, -, -, -, hlt, hi1, hi2, -⟩ := hreach'
  obtain ⟨pre, fuel, hdl⟩ := download_of_reachesChunk w T k hreach
  have hfst : (w.send ((k : Int) * DATA_CHUNK_SIZE) m).1 = HTTPSuccess := by rw [hsend]
  have hsnd : (w.send ((k : Int) * DATA_CHUNK_SIZE) m).2 = response := by rw [hsend]
  have hsl : sendLoop w ((k : Int) * DATA_CHUNK_SIZE)
      (data_end_at T ((k : Int) * DATA_CHUNK_SIZE)) 30 0
      = (retries m ((k : Int) * DATA_CHUNK_SIZE)
          (data_end_at T ((k : Int) * DATA_CHUNK_SIZE) - 1)
        ++ [Event.request ((k : Int) * DATA_CHUNK_SIZE)
          (data_end_at T ((k : Int) * DATA_CHUNK_SIZE) - 1)], some response) := by
    rcases hk with hm0 | hk0
    · subst hm0
      rw [sendLoop_of_success w _ _ 30 0 hfst, hsnd]
      rfl
    · have hs : (k : Int) * DATA_CHUNK_SIZE ≠ 0 := by
        rw [DATA_CHUNK_SIZE_eq]; omega
      rw [sendLoop_retries w _ _ hs m 30 0 hm
        (fun i hi => by rw [Nat.zero_add]; exact herr i hi),
        sendLoop_of_success w _ _ (30 - m) (0 + m) (by rw [Nat.zero_add]; exact hfst)]
      rw [Nat.zero_add, hsnd]
  have h16 : toInt16 response.bodyLen = response.bodyLen := by
    have hC := DATA_CHUNK_SIZE_eq
    unfold RESPONSE_BUFFER_LENGTH at hlen
    unfold toInt16
    omega
  have hloop := chunkLoop_write_fails w T _ fuel _ response hlt hi1 hi2 hsl
    (by rw [h16]; exact hwrite)
  have hres : (iotc_ota_fw_download w).result = some (-1) := by rw [hdl, hloop]
  refine ⟨hres, ⟨pre, by rw [hdl, hloop]; simp⟩, fun hmem => ?_⟩
  have := closeFile_mem_download w hmem
  rw [hres] at this
  cases this

/-- C8, witness: the sink reports 100 bytes for the 4096 bytes of the second chunk. -/
theorem short_write_is_fatal_witness :
    (iotc_ota_fw_download worldShortWrite).result = some (-1)
    ∧ (∃ pre, (iotc_ota_fw_download worldShortWrite).trace
        = pre ++ retries 0 4096 8191 ++ [Event.request 4096 8191, Event.writeBlock 4096 4096])
    ∧ Event.closeFile ∉ (iotc_ota_fw_download worldShortWrite).trace := by
  have h := short_write_is_fatal worldShortWrite 9000 1 0 ⟨206, 4096⟩
    reachesChunk_worldShortWrite (by decide) (Or.inl rfl)
    (fun i hi => absurd hi (Nat.not_lt_zero i)) (by decide) (by decide) (by decide)
  have e1 : ((1 : Nat) : Int) * DATA_CHUNK_SIZE = 4096 := by decide
  have e2 : data_end_at 9000 4096 - 1 = 8191 := by decide
  have e3 : toUInt32 4096 = 4096 := by decide
  have e4 : toUInt32 ((⟨206, 4096⟩ : HTTPResponse).bodyLen : Int) = 4096 := by decide
  rw [e1, e2, e3, e4] at h
  exact h

/-! ## C9, C10: the size probe -/

/-- C9, counterexample: the values `bytes0-0/5` (no blank) and `bytes 0-0/12abc` (text
after the number) are not of the form `bytes 0-0/<integer>`, yet the probe resolves 5 and
12, the sink is created and a chunk is requested. -/
theorem malformed_content_range_accepted :
    iotc_ota_fw_download (goodWorld "bytes0-0/5".toList 5)
      = ⟨some 0, [Event.connect, Event.request 0 0, Event.createFileForRx 5,
          Event.request 0 4, Event.writeBlock 0 5, Event.disconnect, Event.closeFile]⟩
    ∧ iotc_ota_fw_download (goodWorld "bytes 0-0/12abc".toList 12)
      = ⟨some 0, [Event.connect, Event.request 0 0, Event.createFileForRx 12,
          Event.request 0 11, Event.writeBlock 0 12, Event.disconnect, Event.closeFile]⟩ := by
  decide

/-- C9 (amended). When the probe was sent and its `Content-Range` value is absent, empty,
longer than `DATA_BYTE_SIZE_CHAR_MAX`, or a value (without NUL) on which `sscanf` with the
format `"bytes 0-0/%d"` fails before the end of the value is reached, so that it converts
no integer whatever bytes follow the value, the download fails having made one request,
the `0-0` probe: no retry, no sink creation, no chunk request. -/
theorem malformed_probe_is_fatal (w : World) (hsent : probeSent w)
    (h : w.contentRange = none ∨ ∃ v, w.contentRange = some v ∧
      (v = [] ∨ DATA_BYTE_SIZE_CHAR_MAX < v.length ∨
        ((∀ c ∈ v, c ≠ NUL) ∧
          ∀ rest, sscanf_d S3_RANGE_RESPONSE_PREFIX (v ++ rest) = none))) :
    iotc_ota_fw_download w = ⟨some (-1), [Event.connect, Event.request 0 0]⟩ := by
  apply download_of_probe_none w hsent
  unfold probe_data_length
  rcases h with h | ⟨v, hv, h⟩
  · rw [h]
  · rw [hv]
    rcases h with h | h | ⟨hnul, h⟩
    · simp [h]
    · simp only [gt_iff_lt, h, if_true]
      split_ifs <;> rfl
    · simp only [strncpy_whole w.stack v hnul, h]
      split_ifs <;> rfl

/-- C9 (amended), witness: the value `9000` lacks the `bytes 0-0/` part; the conversion
fails at its first character. -/
theorem malformed_probe_is_fatal_witness :
    iotc_ota_fw_download (goodWorld "9000".toList 9000)
      = ⟨some (-1), [Event.connect, Event.request 0 0]⟩ :=
  malformed_probe_is_fatal (goodWorld "9000".toList 9000) ⟨rfl, rfl, rfl, rfl, rfl⟩
    (Or.inr ⟨"9000".toList, rfl, Or.inr (Or.inr ⟨by decide, fun _ => rfl⟩)⟩)

/-- C10, the code at the failing input: `strncpy` writes no terminator after the 14
characters of `bytes 0-0/9000`, `sscanf` reads on into the array, and the size resolved,
passed to the sink, is 90005. -/
theorem stale_digit_changes_size :
    worldStaleDigit.contentRange = some "bytes 0-0/9000".toList
    ∧ probe_data_length worldStaleDigit = some 90005
    ∧ (iotc_ota_fw_download worldStaleDigit).trace.take 4
      = [Event.connect, Event.request 0 0, Event.createFileForRx 90005, Event.request 0 4095] := by
  decide

/-- On a value `bytes 0-0/<digits>` with 1 to 8 digits the probe resolves the number the
digits denote, provided the byte that follows the copied value in `data_length_buffer`
is not a digit. -/
theorem probe_data_length_of_terminated (w : World) (ds : List Nat)
    (hds : ∀ d ∈ ds, d < 10) (h1 : 1 ≤ ds.length) (h8 : ds.length ≤ 8)
    (hcr : w.contentRange = some (S3_RANGE_RESPONSE_PREFIX ++ ds.map digitChar))
    (hterm : ∀ c, (w.stack.drop (S3_RANGE_RESPONSE_PREFIX.length + ds.length)).head? = some c →
      isdigit c = false) :
    probe_data_length w = some ((Nat.ofDigits 10 ds.reverse : Nat) : Int) := by
  have hlen : (S3_RANGE_RESPONSE_PREFIX ++ ds.map digitChar).length
      = S3_RANGE_RESPONSE_PREFIX.length + ds.length := by simp
  have hplen : S3_RANGE_RESPONSE_PREFIX.length = 10 := by decide
  have hmax : DATA_BYTE_SIZE_CHAR_MAX = 18 := by decide
  have hnul : ∀ c ∈ S3_RANGE_RESPONSE_PREFIX ++ ds.map digitChar, c ≠ NUL := by
    intro c hc
    rcases List.mem_append.1 hc with hc | hc
    · exact (by decide : ∀ c ∈ S3_RANGE_RESPONSE_PREFIX, c ≠ NUL) c hc
    · obtain ⟨d, hd, rfl⟩ := List.mem_map.1 hc
      exact (digitChar_facts d (hds d hd)).2.2.2.1
  have hne : ds ≠ [] := List.ne_nil_of_length_pos h1
  unfold probe_data_length
  rw [hcr]
  simp only [hlen, hplen, hmax]
  rw [if_neg (by omega), if_neg (by omega)]
  have hcopy := strncpy_whole w.stack _ hnul
  rw [hlen, hplen] at hcopy
  rw [hcopy, List.append_assoc, sscanf_d_prefix]
  exact scan_d_decimal (cstring (w.stack.drop (10 + ds.length)))
    (fun c hc => hterm c (by rw [hplen]; exact head?_cstring _ c hc)) ds hds hne

/-! ## C11, C12: the digit bound and the empty object -/

/-- C11, the code at the failing input: `sizeof(S3_RANGE_RESPONSE_PREFIX)` counts the
terminating NUL, so `DATA_BYTE_SIZE_CHAR_MAX` is 18 and the value `bytes 0-0/12345678`, 18
characters with a total of 8 digits, passes the length check; the probe resolves 12345678
and the sink is created with that size. -/
theorem eight_digit_total_is_accepted :
    DATA_BYTE_SIZE_CHAR_MAX = 18
    ∧ world8Digits.contentRange = some "bytes 0-0/12345678".toList
    ∧ probe_data_length world8Digits = some 12345678
    ∧ (iotc_ota_fw_download world8Digits).trace.take 4
      = [Event.connect, Event.request 0 0, Event.createFileForRx 12345678,
          Event.request 0 4095] := by
  decide

/-- C12. When the probe resolves a total size of 0 and the sink is created, the download
makes no chunk request and writes nothing: after the probe and the creation of the sink it
disconnects, closes the sink and returns success. -/
theorem empty_object_succeeds (w : World) (hsent : probeSent w)
    (hprobe : probe_data_length w = some 0) (hcreate : w.createFileForRx = true) :
    iotc_ota_fw_download w
      = ⟨some 0, [Event.connect, Event.request 0 0, Event.createFileForRx 0,
          Event.disconnect, Event.closeFile]⟩ := by
  rw [download_of_created w 0 hsent hprobe hcreate]
  rfl

/-- C12, witness: the probe answers `bytes 0-0/0`. -/
theorem empty_object_succeeds_witness :
    iotc_ota_fw_download worldEmptyObject
      = ⟨some 0, [Event.connect, Event.request 0 0, Event.createFileForRx 0,
          Event.disconnect, Event.closeFile]⟩ :=
  empty_object_succeeds worldEmptyObject ⟨rfl, rfl, rfl, rfl, rfl⟩ (by decide) rfl

/-! ## C13, C14, C15: OTA directives -/

theorem split_url_loop_zero (url : List Char) (hostAlloc resourceAlloc : Bool) :
    ∀ (rest : List Char) (i slash_count host_name_start : Nat),
      (split_url_loop url hostAlloc resourceAlloc rest i slash_count host_name_start).1 = 0 →
      ∃ h r, split_url_loop url hostAlloc resourceAlloc rest i slash_count host_name_start
        = (0, some h, some r) := by
  intro rest
  induction rest with
  | nil => intro i sc hs h; simp [split_url_loop] at h
  | cons c rest ih =>
    intro i sc hs h
    unfold split_url_loop at h ⊢
    split_ifs at h ⊢
    · exact ih _ _ _ h
    · simp at h
    · simp at h
    · exact ⟨_, _, rfl⟩
    · exact ih _ _ _ h
    · exact ih _ _ _ h

theorem start_ota_cases (env : OtaEnv) (url : List Char) :
    (∃ status, status ≠ 0 ∧ start_ota env url = (some status, []))
    ∨ ∃ h r, split_url url env.hostAlloc env.resourceAlloc = (0, some h, some r)
        ∧ start_ota env url = ((iotc_ota_fw_download env.world).result,
            [OtaEvent.download h r (iotc_ota_fw_download env.world)]) := by
  by_cases h0 : (split_url url env.hostAlloc env.resourceAlloc).1 = 0
  · obtain ⟨h, r, hs⟩ := split_url_loop_zero url env.hostAlloc env.resourceAlloc url 0 0 0 h0
    refine Or.inr ⟨h, r, hs, ?_⟩
    unfold start_ota
    rw [show split_url url env.hostAlloc env.resourceAlloc = (0, some h, some r) from hs]
    rfl
  · refine Or.inl ⟨(split_url url env.hostAlloc env.resourceAlloc).1, h0, ?_⟩
    unfold start_ota
    rcases hs : split_url url env.hostAlloc env.resourceAlloc with ⟨st, ho, ro⟩
    rw [hs] at h0
    simp only at h0
    split
    · rename_i heq
      injection heq with h1 _
      exact absurd h1 h0
    · rename_i heq
      injection heq with h1 _
      rw [h1]

/-- C13, counterexample: for a directive that declares the running version, and for one
that declares an older version, `on_ota` runs the download all the same (and commits). -/
theorem same_version_is_downloaded :
    is_app_version_same_as_ota APP_VERSION = true
    ∧ on_ota otaEnvGood directiveSameVersion
      = [OtaEvent.warn VersionVerdict.sameVersion,
          OtaEvent.download "host".toList "/fw.bin".toList (iotc_ota_fw_download world9000),
          OtaEvent.ota_ack (some "ack-1".toList) OtaAckStatus.success none,
          OtaEvent.delay 5000, OtaEvent.apply]
    ∧ app_needs_ota_update "01.01.01".toList = false
    ∧ on_ota otaEnvGood directiveOlderVersion
      = [OtaEvent.warn VersionVerdict.deviceNewer,
          OtaEvent.download "host".toList "/fw.bin".toList (iotc_ota_fw_download world9000),
          OtaEvent.ota_ack (some "ack-1".toList) OtaAckStatus.success none,
          OtaEvent.delay 5000, OtaEvent.apply] := by
  decide

/-- C13 (amended). For a directive with a URL and a version, the version only selects the
warning that is logged: what `on_ota` does after the warning is the same for any two
versions.  When the URL can be split the download is run right after the warning, whatever
the version, and when that download returns 0 the ack carries the success status and the
image is committed. -/
theorem version_does_not_gate_download (env : OtaEnv) (url version other h r : List Char)
    (ack_id : Option (List Char))
    (hsplit : split_url url env.hostAlloc env.resourceAlloc = (0, some h, some r)) :
    (on_ota env ⟨some url, ack_id, some version⟩).tail
        = (on_ota env ⟨some url, ack_id, some other⟩).tail
    ∧ (on_ota env ⟨some url, ack_id, some version⟩).take 2
        = [OtaEvent.warn (version_verdict version),
            OtaEvent.download h r (iotc_ota_fw_download env.world)]
    ∧ ((iotc_ota_fw_download env.world).result = some 0 →
        on_ota env ⟨some url, ack_id, some version⟩
          = [OtaEvent.warn (version_verdict version),
              OtaEvent.download h r (iotc_ota_fw_download env.world),
              OtaEvent.ota_ack ack_id OtaAckStatus.success none,
              OtaEvent.delay 5000, OtaEvent.apply]) := by
  refine ⟨?_, ?_, ?_⟩
  · simp [on_ota, start_ota, hsplit]
  · simp [on_ota, start_ota, hsplit]
  · intro hok
    simp [on_ota, start_ota, hsplit, hok]

/-- C13 (amended), witness: a directive for the running version is downloaded, and as the
download succeeds it is acknowledged with the success status and committed. -/
theorem version_does_not_gate_download_witness :
    on_ota otaEnvGood directiveSameVersion
      = [OtaEvent.warn (version_verdict APP_VERSION),
          OtaEvent.download "host".toList "/fw.bin".toList (iotc_ota_fw_download world9000),
          OtaEvent.ota_ack (some "ack-1".toList) OtaAckStatus.success none,
          OtaEvent.delay 5000, OtaEvent.apply] :=
  (version_does_not_gate_download otaEnvGood "https://host/fw.bin".toList APP_VERSION
    "01.01.01".toList "host".toList "/fw.bin".toList (some "ack-1".toList) (by decide)).2.2
    (by decide)

/-- C14, the code at the failing inputs: when the download fails (no TLS connection), and
when the URL cannot be split, the acknowledgment still carries the success status. -/
theorem failed_download_is_acknowledged_as_success :
    (iotc_ota_fw_download worldNoConnect).result = some (-1)
    ∧ on_ota otaEnvNoConnect directiveNewerVersion
      = [OtaEvent.warn VersionVerdict.updateRequired,
          OtaEvent.download "host".toList "/fw.bin".toList ⟨some (-1), [Event.connect]⟩,
          OtaEvent.ota_ack (some "ack-1".toList) OtaAckStatus.success none]
    ∧ (start_ota otaEnvGood "https://host".toList).1 = some (-4)
    ∧ on_ota otaEnvGood directiveBadUrl
      = [OtaEvent.warn VersionVerdict.updateRequired,
          OtaEvent.ota_ack (some "ack-1".toList) OtaAckStatus.success none] := by
  decide

/-- C15. For every directive, `on_ota` calls `iotc_ota_fw_apply` exactly when it ran the
download and the download returned 0; the call is then the last thing it does, right after
the acknowledgment and the delay of 5 seconds, and nothing before the acknowledgment, the
download included, calls it. -/
theorem apply_iff_download_succeeded (env : OtaEnv) (data : OtaDirective) :
    (OtaEvent.apply ∈ on_ota env data ↔
      ∃ h r run, OtaEvent.download h r run ∈ on_ota env data ∧ run.result = some 0)
    ∧ (OtaEvent.apply ∈ on_ota env data →
      ∃ pre ack_id status message, on_ota env data
        = pre ++ [OtaEvent.ota_ack ack_id status message, OtaEvent.delay 5000, OtaEvent.apply]
        ∧ OtaEvent.apply ∉ pre) := by
  rcases data with ⟨url, ack_id, version⟩
  cases url with
  | none => simp [on_ota]
  | some url =>
    cases version with
    | none => simp [on_ota]
    | some version =>
      rcases start_ota_cases env url with ⟨status, hne, hs⟩ | ⟨h, r, -, hs⟩
      · simp [on_ota, hs, hne]
      · by_cases hres : (iotc_ota_fw_download env.world).result = some 0
        · simp only [on_ota, hs, hres, decide_True, if_true, List.cons_append,
            List.nil_append]
          refine ⟨⟨fun _ => ⟨h, r, _, by simp, hres⟩, fun _ => by simp⟩, fun _ => ?_⟩
          exact ⟨[OtaEvent.warn (version_verdict version),
            OtaEvent.download h r (iotc_ota_fw_download env.world)], ack_id,
            OtaAckStatus.success, none, rfl, by simp⟩
        · simp only [on_ota, hs, hres, decide_False, Bool.false_eq_true, if_false,
            List.cons_append, List.nil_append]
          refine ⟨⟨fun hm => ?_, fun ⟨h', r', run, hm, hrun⟩ => ?_⟩, fun hm => ?_⟩
          · simp at hm
          · simp only [List.mem_cons, reduceCtorEq, OtaEvent.download.injEq, List.mem_singleton,
              false_or, or_false, List.not_mem_nil] at hm
            rw [hm.2.2] at hrun
            exact absurd hrun hres
          · simp at hm

/-! ## C16: publishing -/

/-- C16, the code at the failing input: `MQTTAgent_Publish` returns `MQTTSuccess` and the
wait for the notification times out; the function returns `MQTTSuccess`. -/
theorem publish_timeout_returns_success :
    publish_and_wait_for_ack MQTTSuccess none = MQTTSuccess := by
  decide

/-! ## C17: the copy of the payload -/

theorem cstring_append_NUL (value rest : List Char) (h : ∀ c ∈ value, c ≠ NUL) :
    cstring (value ++ NUL :: rest) = value := by
  rw [cstring_append value _ h]
  simp [cstring]

theorem cstring_fill_buffer (block payload : List Char) (hnul : ∀ c ∈ payload, c ≠ NUL) :
    cstring (fill_buffer block payload)
      = payload.take (min payload.length (MQTT_PAYLOAD_BUFFER_LENGTH - 1)) := by
  unfold fill_buffer MQTT_PAYLOAD_BUFFER_LENGTH
  by_cases hlen : payload.length < 1024
  · rw [if_pos hlen, cstring_append_NUL _ _ hnul, min_eq_left (by omega), List.take_length]
  · rw [if_neg hlen, min_eq_right (by omega), List.set_eq_take_append_cons_drop,
      if_pos (by rw [List.length_take]; omega), List.take_take, min_eq_left (by omega)]
    exact cstring_append_NUL _ _ (fun c hc => hnul c (List.mem_of_mem_take hc))

/-- C17. For every payload without NUL bytes the buffer filled by
`incoming_message_callback` holds the NUL-terminated string of the first
`min(n, MQTT_PAYLOAD_BUFFER_LENGTH - 1)` bytes of the payload, and whatever the length of
the payload the buffer is appended to a queue that has room. -/
theorem buffer_holds_truncated_payload (block payload : List Char)
    (hnul : ∀ c ∈ payload, c ≠ NUL) :
    cstring (fill_buffer block payload)
      = payload.take (min payload.length (MQTT_PAYLOAD_BUFFER_LENGTH - 1))
    ∧ ∀ s : QueueState, s.queue.length < MQTT_COMMAND_QUEUE_LENGTH →
        (incoming_message_callback s payload (some block)).queue
          = s.queue ++ [⟨s.allocated, fill_buffer block payload⟩] := by
  refine ⟨cstring_fill_buffer block payload hnul, fun s hs => ?_⟩
  simp [incoming_message_callback, hs]

/-- C17, witness: a payload of 2000 letters is cut to its first 1023 and enqueued. -/
theorem buffer_holds_truncated_payload_witness :
    cstring (fill_buffer [] (List.replicate 2000 'a')) = List.replicate 1023 'a'
    ∧ (incoming_message_callback ⟨[], 0, []⟩ (List.replicate 2000 'a') (some [])).queue
        = [⟨0, fill_buffer [] (List.replicate 2000 'a')⟩] := by
  have h := buffer_holds_truncated_payload [] (List.replicate 2000 'a')
    (fun c hc => by rw [List.eq_of_mem_replicate hc]; decide)
  refine ⟨?_, h.2 ⟨[], 0, []⟩ (by decide)⟩
  have hmin : min (min 2000 (MQTT_PAYLOAD_BUFFER_LENGTH - 1)) 2000 = 1023 := by decide
  rw [h.1, List.length_replicate, List.take_replicate, hmin]

/-! ## C18, C19, C20: the command queue -/

theorem queueRun_concat (steps : List QueueStep) (st : QueueStep) :
    queueRun (steps ++ [st]) = queueStep (queueRun steps) st := by
  simp [queueRun, List.foldl_append]

theorem mallocs_append (a b : List QueueEvent) : mallocs (a ++ b) = mallocs a ++ mallocs b := by
  simp [mallocs]

theorem frees_append (a b : List QueueEvent) : frees (a ++ b) = frees a ++ frees b := by
  simp [frees]

theorem freesBy_append (actor : Actor) (a b : List QueueEvent) :
    freesBy actor (a ++ b) = freesBy actor a ++ freesBy actor b := by
  simp [freesBy]

theorem failedSends_append (a b : List QueueEvent) :
    failedSends (a ++ b) = failedSends a ++ failedSends b := by
  simp [failedSends]

theorem received_append (a b : List QueueEvent) :
    received (a ++ b) = received a ++ received b := by
  simp [received]

theorem processed_append (a b : List QueueEvent) :
    processed (a ++ b) = processed a ++ processed b := by
  simp [processed]

theorem queueInvariant_init : QueueInvariant ⟨[], 0, []⟩ :=
  ⟨by simp [pending, frees], rfl, rfl, rfl, by simp⟩

theorem queueInvariant_incoming (s : QueueState) (payload : List Char)
    (block : Option (List Char)) (h : QueueInvariant s) :
    QueueInvariant (incoming_message_callback s payload block) := by
  obtain ⟨h1, h2, h3, h4, h5⟩ := h
  cases block with
  | none =>
    refine ⟨?_, ?_, ?_, ?_, h5⟩
    · show (pending s ++ frees (s.log ++ [QueueEvent.mallocFailed])).Perm _
      rw [frees_append]
      simpa [frees] using h1
    · show mallocs (s.log ++ [QueueEvent.mallocFailed]) = _
      rw [mallocs_append, h2]
      exact List.append_nil _
    · show freesBy Actor.callback (s.log ++ [QueueEvent.mallocFailed])
        = failedSends (s.log ++ [QueueEvent.mallocFailed])
      rw [freesBy_append, failedSends_append, h3]
      rfl
    · show freesBy Actor.worker (s.log ++ [QueueEvent.mallocFailed])
        = received (s.log ++ [QueueEvent.mallocFailed])
      rw [freesBy_append, received_append, h4]
      rfl
  | some b =>
    by_cases hroom : s.queue.length < MQTT_COMMAND_QUEUE_LENGTH
    · simp only [incoming_message_callback, hroom, if_true]
      refine ⟨?_, ?_, ?_, ?_, ?_⟩
      · show (List.map CommandBuffer.id (s.queue ++ [⟨s.allocated, fill_buffer b payload⟩])
          ++ frees (s.log ++ [QueueEvent.malloc s.allocated,
            QueueEvent.sendToBack s.allocated true])).Perm (List.range (s.allocated + 1))
        rw [frees_append, List.map_append, List.range_succ]
        show ((pending s ++ [s.allocated]) ++ (frees s.log ++ [])).Perm _
        rw [List.append_nil, List.append_assoc, List.singleton_append]
        exact List.perm_middle.trans ((List.Perm.cons _ h1).trans
          (List.perm_append_singleton _ _).symm)
      · show mallocs (s.log ++ [QueueEvent.malloc s.allocated,
          QueueEvent.sendToBack s.allocated true]) = _
        rw [mallocs_append, h2, List.range_succ]
        rfl
      · show freesBy Actor.callback (s.log ++ [QueueEvent.malloc s.allocated,
          QueueEvent.sendToBack s.allocated true])
          = failedSends (s.log ++ [QueueEvent.malloc s.allocated,
            QueueEvent.sendToBack s.allocated true])
        rw [freesBy_append, failedSends_append, h3]
        rfl
      · show freesBy Actor.worker (s.log ++ [QueueEvent.malloc s.allocated,
          QueueEvent.sendToBack s.allocated true])
          = received (s.log ++ [QueueEvent.malloc s.allocated,
            QueueEvent.sendToBack s.allocated true])
        rw [freesBy_append, received_append, h4]
        rfl
      · show (s.queue ++ [_]).length ≤ _
        rw [List.length_append, List.length_singleton]
        omega
    · simp only [incoming_message_callback, hroom, if_false]
      refine ⟨?_, ?_, ?_, ?_, h5⟩
      · show (pending s ++ frees (s.log ++ [QueueEvent.malloc s.allocated,
            QueueEvent.sendToBack s.allocated false,
            QueueEvent.free Actor.callback s.allocated])).Perm (List.range (s.allocated + 1))
        rw [frees_append, List.range_succ]
        show (pending s ++ (frees s.log ++ [s.allocated])).Perm _
        rw [← List.append_assoc]
        exact List.Perm.append_right _ h1
      · show mallocs (s.log ++ [QueueEvent.malloc s.allocated,
          QueueEvent.sendToBack s.allocated false,
          QueueEvent.free Actor.callback s.allocated]) = _
        rw [mallocs_append, h2, List.range_succ]
        rfl
      · show freesBy Actor.callback (s.log ++ [QueueEvent.malloc s.allocated,
          QueueEvent.sendToBack s.allocated false,
          QueueEvent.free Actor.callback s.allocated])
          = failedSends (s.log ++ [QueueEvent.malloc s.allocated,
            QueueEvent.sendToBack s.allocated false,
            QueueEvent.free Actor.callback s.allocated])
        rw [freesBy_append, failedSends_append, h3]
        rfl
      · show freesBy Actor.worker (s.log ++ [QueueEvent.malloc s.allocated,
          QueueEvent.sendToBack s.allocated false,
          QueueEvent.free Actor.callback s.allocated])
          = received (s.log ++ [QueueEvent.malloc s.allocated,
            QueueEvent.sendToBack s.allocated false,
            QueueEvent.free Actor.callback s.allocated])
        rw [freesBy_append, received_append, h4]
        rfl

theorem queueInvariant_command_task (s : QueueState) (h : QueueInvariant s) :
    QueueInvariant (mqtt_command_task s) := by
  obtain ⟨h1, h2, h3, h4, h5⟩ := h
  unfold mqtt_command_task
  rcases hq : s.queue with _ | ⟨message, rest⟩
  · exact ⟨h1, h2, h3, h4, h5⟩
  · simp only
    have hpend : pending s = message.id :: rest.map CommandBuffer.id := by
      simp [pending, hq]
    rw [hpend] at h1
    rw [hq] at h5
    refine ⟨?_, ?_, ?_, ?_, ?_⟩
    · show (rest.map CommandBuffer.id ++ frees (s.log ++ [QueueEvent.receive message.id,
          QueueEvent.process_event (cstring message.bytes),
          QueueEvent.free Actor.worker message.id])).Perm _
      rw [frees_append]
      show (rest.map CommandBuffer.id ++ (frees s.log ++ [message.id])).Perm _
      rw [← List.append_assoc]
      exact (List.perm_append_singleton _ _).trans h1
    · show mallocs (s.log ++ [QueueEvent.receive message.id,
          QueueEvent.process_event (cstring message.bytes),
          QueueEvent.free Actor.worker message.id]) = _
      rw [mallocs_append, h2]
      exact List.append_nil _
    · show freesBy Actor.callback (s.log ++ [QueueEvent.receive message.id,
          QueueEvent.process_event (cstring message.bytes),
          QueueEvent.free Actor.worker message.id])
        = failedSends (s.log ++ [QueueEvent.receive message.id,
          QueueEvent.process_event (cstring message.bytes),
          QueueEvent.free Actor.worker message.id])
      rw [freesBy_append, failedSends_append, h3]
      rfl
    · show freesBy Actor.worker (s.log ++ [QueueEvent.receive message.id,
          QueueEvent.process_event (cstring message.bytes),
          QueueEvent.free Actor.worker message.id])
        = received (s.log ++ [QueueEvent.receive message.id,
          QueueEvent.process_event (cstring message.bytes),
          QueueEvent.free Actor.worker message.id])
      rw [freesBy_append, received_append, h4]
      rfl
    · show rest.length ≤ _
      simp only [List.length_cons] at h5
      omega

theorem queueInvariant_run (steps : List QueueStep) : QueueInvariant (queueRun steps) := by
  induction steps using List.reverseRecOn with
  | nil => exact queueInvariant_init
  | append_singleton steps st ih =>
    rw [queueRun_concat]
    cases st with
    | incoming payload block => exact queueInvariant_incoming _ payload block ih
    | command_task => exact queueInvariant_command_task _ ih

theorem queueStep_log (s : QueueState) (st : QueueStep) :
    ∃ l, (queueStep s st).log = s.log ++ l := by
  cases st with
  | incoming payload block =>
    cases block with
    | none => exact ⟨_, rfl⟩
    | some b =>
      by_cases hroom : s.queue.length < MQTT_COMMAND_QUEUE_LENGTH
      · refine ⟨[QueueEvent.malloc s.allocated, QueueEvent.sendToBack s.allocated true], ?_⟩
        simp only [queueStep, incoming_message_callback, hroom, if_true]
      · refine ⟨[QueueEvent.malloc s.allocated, QueueEvent.sendToBack s.allocated false,
          QueueEvent.free Actor.callback s.allocated], ?_⟩
        simp only [queueStep, incoming_message_callback, hroom, if_false]
  | command_task =>
    rcases hq : s.queue with _ | ⟨message, rest⟩
    · exact ⟨[], by simp [queueStep, mqtt_command_task, hq]⟩
    · refine ⟨[QueueEvent.receive message.id,
        QueueEvent.process_event (cstring message.bytes),
        QueueEvent.free Actor.worker message.id], ?_⟩
      simp only [queueStep, mqtt_command_task, hq]

theorem delivered_concat (steps : List QueueStep) (st : QueueStep) :
    delivered (steps ++ [st]) = delivered steps ++ delivered [st] := by
  simp [delivered]

theorem processed_pending_eq_delivered (steps : List QueueStep)
    (hmalloc : QueueEvent.mallocFailed ∉ (queueRun steps).log)
    (hsend : failedSends (queueRun steps).log = []) :
    processed (queueRun steps).log ++ (queueRun steps).queue.map (fun b => cstring b.bytes)
      = delivered steps := by
  induction steps using List.reverseRecOn with
  | nil => rfl
  | append_singleton steps st ih =>
    rw [queueRun_concat] at hmalloc hsend ⊢
    obtain ⟨l, hl⟩ := queueStep_log (queueRun steps) st
    have ih' := ih (fun h => hmalloc (by rw [hl]; exact List.mem_append_left _ h))
      (by rw [hl, failedSends_append] at hsend; exact (List.append_eq_nil.1 hsend).1)
    rw [delivered_concat, ← ih']
    cases st with
    | incoming payload block =>
      cases block with
      | none =>
        exact absurd (by simp [queueStep, incoming_message_callback]) hmalloc
      | some b =>
        by_cases hroom : (queueRun steps).queue.length < MQTT_COMMAND_QUEUE_LENGTH
        · simp only [queueStep, incoming_message_callback, hroom, if_true, processed_append,
            List.map_append, List.map_cons, List.map_nil]
          show (processed (queueRun steps).log ++ []) ++ _ = _
          rw [List.append_nil, List.append_assoc]
          rfl
        · simp only [queueStep, incoming_message_callback, hroom, if_false,
            failedSends_append] at hsend
          have := (List.append_eq_nil.1 hsend).2
          exact absurd this (by simp [failedSends])
    | command_task =>
      rcases hq : (queueRun steps).queue with _ | ⟨message, rest⟩
      · simp [queueStep, mqtt_command_task, hq, delivered]
      · simp only [queueStep, mqtt_command_task, hq, processed_append, List.map_cons]
        show (processed (queueRun steps).log ++ [cstring message.bytes]) ++ _ = _
        rw [List.append_assoc]
        simp [delivered]

/-- C18. After every sequence of callback and worker steps: no buffer is freed twice; every
buffer allocated is either pending in the queue and not freed, or freed and not pending;
only allocated buffers are freed; the callback frees exactly the buffers whose
`xQueueSendToBack` failed and the worker exactly those that `xQueueReceive` delivered; and
when the queue is empty there are as many frees as allocations. -/
theorem every_buffer_released_once (steps : List QueueStep) :
    (frees (queueRun steps).log).Nodup
    ∧ (∀ id ∈ mallocs (queueRun steps).log,
        (id ∈ pending (queueRun steps) ∧ id ∉ frees (queueRun steps).log)
        ∨ (id ∉ pending (queueRun steps) ∧ id ∈ frees (queueRun steps).log))
    ∧ (∀ id ∈ frees (queueRun steps).log, id ∈ mallocs (queueRun steps).log)
    ∧ (∀ id, id ∈ freesBy Actor.callback (queueRun steps).log
        ↔ id ∈ failedSends (queueRun steps).log)
    ∧ (∀ id, id ∈ freesBy Actor.worker (queueRun steps).log
        ↔ id ∈ received (queueRun steps).log)
    ∧ ((queueRun steps).queue = [] →
        (mallocs (queueRun steps).log).length = (frees (queueRun steps).log).length) := by
  obtain ⟨h1, h2, h3, h4, -⟩ := queueInvariant_run steps
  have hnd : (pending (queueRun steps) ++ frees (queueRun steps).log).Nodup :=
    h1.nodup_iff.2 (List.nodup_range _)
  obtain ⟨-, hndf, hdisj⟩ := List.nodup_append.1 hnd
  refine ⟨hndf, fun id hid => ?_, fun id hid => ?_, fun id => by rw [h3],
    fun id => by rw [h4], fun hq => ?_⟩
  · rw [h2] at hid
    rcases List.mem_append.1 (h1.mem_iff.2 hid) with hp | hf
    · exact Or.inl ⟨hp, fun hf => hdisj hp hf⟩
    · exact Or.inr ⟨fun hp => hdisj hp hf, hf⟩
  · rw [h2]
    exact h1.mem_iff.1 (List.mem_append_right _ hid)
  · have hp : pending (queueRun steps) = [] := by simp [pending, hq]
    rw [hp, List.nil_append] at h1
    rw [h2, h1.length_eq]

/-- C19. When no allocation and no `xQueueSendToBack` fails, the messages passed to
`iotcl_c2d_process_event` followed by the messages still pending are the strings stored for
the payloads, in the order the payloads arrived; once the queue is empty every payload has
been processed exactly once, in that order. -/
theorem commands_processed_in_order (steps : List QueueStep)
    (hmalloc : QueueEvent.mallocFailed ∉ (queueRun steps).log)
    (hsend : failedSends (queueRun steps).log = []) :
    processed (queueRun steps).log ++ (queueRun steps).queue.map (fun b => cstring b.bytes)
      = delivered steps
    ∧ ((queueRun steps).queue = [] → processed (queueRun steps).log = delivered steps) := by
  have h := processed_pending_eq_delivered steps hmalloc hsend
  refine ⟨h, fun hq => ?_⟩
  rw [hq] at h
  simpa using h

/-- C19, witness: `A`, `B`, `C` are processed as `A`, `B`, `C`. -/
theorem commands_processed_in_order_witness :
    processed (queueRun stepsABC).log = ["A".toList, "B".toList, "C".toList] := by
  have h := (commands_processed_in_order stepsABC (by decide) (by decide)).2 (by decide)
  rw [h]
  decide

/-- C20. A state reached from the empty queue never holds more than
`MQTT_COMMAND_QUEUE_LENGTH` pending buffers.  A callback that finds that many pending
leaves the queue as it is and frees its own buffer after the failed `xQueueSendToBack`; a
callback that finds fewer appends its buffer at the back. -/
theorem queue_holds_at_most_five (steps : List QueueStep) (payload block : List Char) :
    MQTT_COMMAND_QUEUE_LENGTH = 5
    ∧ (queueRun steps).queue.length ≤ MQTT_COMMAND_QUEUE_LENGTH
    ∧ ((queueRun steps).queue.length = MQTT_COMMAND_QUEUE_LENGTH →
        queueRun (steps ++ [QueueStep.incoming payload (some block)])
          = ⟨(queueRun steps).queue, (queueRun steps).allocated + 1,
              (queueRun steps).log ++ [QueueEvent.malloc (queueRun steps).allocated,
                QueueEvent.sendToBack (queueRun steps).allocated false,
                QueueEvent.free Actor.callback (queueRun steps).allocated]⟩)
    ∧ ((queueRun steps).queue.length < MQTT_COMMAND_QUEUE_LENGTH →
        (queueRun (steps ++ [QueueStep.incoming payload (some block)])).queue
          = (queueRun steps).queue
            ++ [⟨(queueRun steps).allocated, fill_buffer block payload⟩]) := by
  refine ⟨rfl, (queueInvariant_run steps).capacity, fun hfull => ?_, fun hroom => ?_⟩
  · rw [queueRun_concat]
    simp [queueStep, incoming_message_callback, hfull]
  · rw [queueRun_concat]
    simp [queueStep, incoming_message_callback, hroom]

/-! ## C21, C22: the order of versions -/

theorem strcmp_swap : ∀ a b : List Char, strcmp b a = - strcmp a b
  | [], [] => by simp [strcmp]
  | [], b :: _ => by simp [strcmp]
  | a :: _, [] => by simp [strcmp]
  | a :: as, b :: bs => by
    by_cases h : a = b
    · subst h
      simp only [strcmp, if_true]
      exact strcmp_swap as bs
    · have h2 : ¬ b = a := fun e => h e.symm
      simp only [strcmp, h, h2, if_false]
      omega

theorem strcmp_self : ∀ v : List Char, strcmp v v = 0
  | [] => by simp [strcmp]
  | a :: as => by
    simp only [strcmp, if_true]
    exact strcmp_self as

theorem toNat_pos_of_ne_NUL (c : Char) (h : c ≠ NUL) : 0 < c.toNat := by
  rcases Nat.eq_zero_or_pos c.toNat with h0 | h0
  · exfalso
    apply h
    rw [← Char.ofNat_toNat c, h0]
    rfl
  · exact h0

theorem strcmp_neg_iff_precedes : ∀ (running version : List Char),
    (∀ c ∈ version, c ≠ NUL) → (strcmp running version < 0 ↔ precedes running version)
  | [], [] => by
    intro _
    simp only [strcmp, lt_self_iff_false, false_iff]
    intro h
    cases h
  | [], b :: bs => by
    intro hv
    have hb := toNat_pos_of_ne_NUL b (hv b (List.mem_cons_self _ _))
    simp only [strcmp]
    constructor
    · intro _
      exact List.Lex.nil
    · intro _
      omega
  | a :: as, [] => by
    intro _
    simp only [strcmp]
    constructor
    · intro h
      omega
    · intro h
      cases h
  | a :: as, b :: bs => by
    intro hv
    have ih := strcmp_neg_iff_precedes as bs (fun c hc => hv c (List.mem_cons_of_mem _ hc))
    by_cases h : a = b
    · subst h
      simp only [strcmp, if_true]
      rw [ih]
      constructor
      · intro hl
        exact List.Lex.cons hl
      · intro hl
        cases hl with
        | cons hl => exact hl
        | rel hr => exact absurd hr (lt_irrefl _)
    · simp only [strcmp, h, if_false]
      constructor
      · intro hl
        exact List.Lex.rel (by omega)
      · intro hl
        cases hl with
        | cons hl => exact absurd rfl h
        | rel hr => omega

/-- C21. With the two version predicates taken as functions of the running and the declared
version, exactly one of `is_same a b`, `needs_update a b` and `needs_update b a` holds for
all strings `a` and `b`; so `is_same v v` holds for every `v`, and `needs_update a b` and
`needs_update b a` never hold together.  The predicates of the source are the ones for the
running version `APP_VERSION`. -/
theorem version_trichotomy (a b v : List Char) :
    ((is_same a b = true ∧ needs_update a b = false ∧ needs_update b a = false)
      ∨ (is_same a b = false ∧ needs_update a b = true ∧ needs_update b a = false)
      ∨ (is_same a b = false ∧ needs_update a b = false ∧ needs_update b a = true))
    ∧ is_same v v = true
    ∧ ¬ (needs_update a b = true ∧ needs_update b a = true)
    ∧ is_app_version_same_as_ota v = is_same APP_VERSION v
    ∧ app_needs_ota_update v = needs_update APP_VERSION v := by
  have hs := strcmp_swap a b
  have hv := strcmp_self v
  simp only [is_same, needs_update, beq_iff_eq, decide_eq_true_eq, decide_eq_false_iff_not,
    beq_eq_false_iff_ne, ne_eq, hs, hv]
  refine ⟨?_, trivial, ?_, rfl, rfl⟩
  · omega
  · omega

/-- C22. `needs_update running version` holds exactly when the running version precedes
the declared one in byte-wise lexicographic order, for every running version and every
declared version (a C string, so without NUL); in particular `app_needs_ota_update v`
holds exactly when `APP_VERSION` precedes `v`. -/
theorem needs_update_iff_precedes (running version : List Char)
    (hv : ∀ c ∈ version, c ≠ NUL) :
    (needs_update running version = true ↔ precedes running version)
    ∧ (app_needs_ota_update version = true ↔ precedes APP_VERSION version) := by
  simp only [needs_update, app_needs_ota_update, decide_eq_true_eq]
  exact ⟨strcmp_neg_iff_precedes running version hv, strcmp_neg_iff_precedes APP_VERSION version hv⟩

/-- C22, witness: the order is not the numeric one.  With the running version `10.0` and
the declared version `9.0` an update is judged needed, as `1` precedes `9`; with the
running version `9.0` and the declared version `10.0` it is judged not needed. -/
theorem needs_update_iff_precedes_witness :
    (∀ c ∈ "9.0".toList, c ≠ NUL)
    ∧ needs_update "10.0".toList "9.0".toList = true
    ∧ needs_update "9.0".toList "10.0".toList = false :=
  ⟨by decide,
    (needs_update_iff_precedes "10.0".toList "9.0".toList (by decide)).1.mpr
      (List.Lex.rel (by decide)),
    by decide⟩

/-! ## C23, C24, C27: the acknowledgement of commands -/

theorem acks_iotc_process_cmd_str (command : List Char) :
    acks (iotc_process_cmd_str command).2 = [] := by
  simp only [iotc_process_cmd_str]
  split_ifs <;> rfl

theorem acks_append (a b : List CommandEvent) : acks (a ++ b) = acks a ++ acks b := by
  simp [acks, List.filterMap_append]

/-- C23. When no command can be decoded from the event (`iotcl_c2d_get_command` returns
NULL), `on_command` does nothing but send one ack with the outcome
`IOTCL_C2D_EVT_CMD_FAILED` and the message `Internal error` when a correlation id is
present, and does nothing at all when none is present; this holds with every
implementation of `iotc_process_cmd_str`. -/
theorem undecodable_command_ack (process : List Char → Int × List CommandEvent)
    (ack_id : List Char) :
    on_command ⟨none, some ack_id⟩
        = [CommandEvent.cmd_ack ack_id CmdAckStatus.IOTCL_C2D_EVT_CMD_FAILED
            "Internal error".toList]
    ∧ on_command ⟨none, none⟩ = []
    ∧ on_command_linked process ⟨none, some ack_id⟩
        = [CommandEvent.cmd_ack ack_id CmdAckStatus.IOTCL_C2D_EVT_CMD_FAILED
            "Internal error".toList]
    ∧ on_command_linked process ⟨none, none⟩ = [] :=
  ⟨rfl, rfl, rfl, rfl⟩

/-- C24. For every decoded command string, recognised or not, `on_command` sends exactly
one ack, carrying the correlation id, when a correlation id is present, and no ack when it
is absent.  With any implementation of `iotc_process_cmd_str` the ack follows the calls of
that implementation, whatever it returns. -/
theorem one_ack_per_decoded_command (process : List Char → Int × List CommandEvent)
    (command ack_id : List Char) :
    (∃ status message,
      acks (on_command ⟨some command, some ack_id⟩) = [(ack_id, status, message)])
    ∧ acks (on_command ⟨some command, none⟩) = []
    ∧ (∃ status message,
        on_command_linked process ⟨some command, some ack_id⟩
          = (process command).2 ++ [CommandEvent.cmd_ack ack_id status message])
    ∧ on_command_linked process ⟨some command, none⟩ = (process command).2 := by
  refine ⟨?_, ?_, ?_, ?_⟩
  · refine ⟨CmdAckStatus.IOTCL_C2D_EVT_CMD_FAILED, "Command error".toList, ?_⟩
    show acks ((iotc_process_cmd_str command).2 ++ _) = _
    rw [acks_append, acks_iotc_process_cmd_str]
    rfl
  · show acks ((iotc_process_cmd_str command).2 ++ _) = _
    rw [acks_append, acks_iotc_process_cmd_str]
    rfl
  · rcases hp : process command with ⟨err, calls⟩
    by_cases he : err = 0
    · refine ⟨CmdAckStatus.IOTCL_C2D_EVT_CMD_FAILED, "Command error".toList, ?_⟩
      simp [on_command_linked, hp, he]
    · refine ⟨CmdAckStatus.IOTCL_C2D_EVT_CMD_SUCCESS_WITH_ACK, "Command OK".toList, ?_⟩
      simp [on_command_linked, hp, he]
  · rcases hp : process command with ⟨err, calls⟩
    simp [on_command_linked, hp]

/-- C27. The command `ping` is recognised and `iotc_process_cmd_str` returns `0` for it, yet
with a correlation id present `on_command` acknowledges it with the outcome
`IOTCL_C2D_EVT_CMD_FAILED` and the message `Command error`; an implementation of
`iotc_process_cmd_str` that returns the error `1` gets the outcome
`IOTCL_C2D_EVT_CMD_SUCCESS_WITH_ACK` and the message `Command OK`. -/
theorem ping_is_acknowledged_as_failed :
    (iotc_process_cmd_str "ping".toList).1 = 0
    ∧ on_command commandPing
        = [CommandEvent.cmd_ack "a1".toList CmdAckStatus.IOTCL_C2D_EVT_CMD_FAILED
            "Command error".toList]
    ∧ on_command_linked (fun _ => (1, [])) commandPing
        = [CommandEvent.cmd_ack "a1".toList CmdAckStatus.IOTCL_C2D_EVT_CMD_SUCCESS_WITH_ACK
            "Command OK".toList] := by
  decide

/-! ## C25: the status returned by `iotc_send_http_request` -/

/-- C25. When the TLS connection is established and `HTTPClient_Send` fails with
`HTTPNetworkError`, or `HTTPClient_InitializeRequestHeaders` fails, the function sets
`iotc_response->data` to NULL and the local variable `returnStatus` to `EXIT_FAILURE`, and
returns `EXIT_SUCCESS`. -/
theorem http_failure_returns_success :
    iotc_send_http_request httpsWorldSendFails none = ⟨EXIT_SUCCESS, none, EXIT_FAILURE⟩
    ∧ iotc_send_http_request httpsWorldHeadersFail none = ⟨EXIT_SUCCESS, none, EXIT_FAILURE⟩ := by
  decide

/-! ## C26: the blocks written -/

theorem writes_append (a b : List Event) : writes (a ++ b) = writes a ++ writes b := by
  simp [writes, List.filterMap_append]

theorem writes_sendLoop (w : World) (s e : Int) :
    ∀ tries sent, writes (sendLoop w s e tries sent).1 = [] := by
  intro tries
  induction tries with
  | zero =>
    intro sent
    unfold sendLoop
    rcases w.send s sent with ⟨st, r⟩
    simp only
    split_ifs <;> rfl
  | succ tries ih =>
    intro sent
    unfold sendLoop
    rcases w.send s sent with ⟨st, r⟩
    have := ih (sent + 1)
    simp only
    split_ifs
    · show writes (sendLoop w s e tries (sent + 1)).1 = []
      exact this
    · rfl
    · rfl

theorem chunkLoop_writes_of_success (w : World) (T : Int) :
    ∀ (fuel j n : Nat), (n = ((T + DATA_CHUNK_SIZE - 1) / DATA_CHUNK_SIZE).toNat) →
      (T - (j : Int) * DATA_CHUNK_SIZE).toNat < fuel →
      (chunkLoop w T fuel ((j : Int) * DATA_CHUNK_SIZE)).result = some 0 →
      writes (chunkLoop w T fuel ((j : Int) * DATA_CHUNK_SIZE)).trace
        = (List.range' j (n - j)).map fun (k : Nat) =>
            (toUInt32 ((k : Int) * DATA_CHUNK_SIZE),
              toUInt32 (bodyLenAt w T ((k : Int) * DATA_CHUNK_SIZE))) := by
  intro fuel
  induction fuel with
  | zero => intro j n _ h; omega
  | succ fuel ih =>
    intro j n hn hfuel
    have hC := DATA_CHUNK_SIZE_eq
    have hn4 : n = ((T + 4096 - 1) / 4096).toNat := by rw [hC] at hn; exact hn
    have hfuel4 : (T - (j : Int) * 4096).toNat < fuel + 1 := by rw [hC] at hfuel; exact hfuel
    refine chunkLoop_cases w T fuel ((j : Int) * DATA_CHUNK_SIZE)
      (fun r => r.result = some 0 → writes r.trace
        = (List.range' j (n - j)).map fun (k : Nat) =>
            (toUInt32 ((k : Int) * DATA_CHUNK_SIZE),
              toUInt32 (bodyLenAt w T ((k : Int) * DATA_CHUNK_SIZE)))) ?_ ?_ ?_ ?_ ?_
    · intro hlt _
      rw [hC] at hlt
      have hjn : n - j = 0 := by omega
      rw [hjn]
      rfl
    · intro _ _ h
      simp at h
    · intro _ _ _ _ _ h
      simp at h
    · intro _ _ _ _ _ _ _ h
      simp at h
    · intro evs response hlt _ _ hsl _ hres
      have hstep : (j : Int) * DATA_CHUNK_SIZE + DATA_CHUNK_SIZE
          = ((j + 1 : Nat) : Int) * DATA_CHUNK_SIZE := by
        push_cast; ring
      have hlt4 : (j : Int) * 4096 < T := by rw [hC] at hlt; exact hlt
      simp only at hres ⊢
      rw [hstep] at hres ⊢
      have hrest := ih (j + 1) n hn (by rw [hC]; push_cast; omega) hres
      have hjn : j < n := by omega
      have hr : List.range' j (n - j) = j :: List.range' (j + 1) (n - (j + 1)) := by
        have : n - j = (n - (j + 1)) + 1 := by omega
        rw [this, List.range'_succ]
      have hevs : writes evs = [] := by
        have := writes_sendLoop w ((j : Int) * DATA_CHUNK_SIZE)
          (data_end_at T ((j : Int) * DATA_CHUNK_SIZE)) 30 0
        rw [hsl] at this
        exact this
      have hbody : bodyLenAt w T ((j : Int) * DATA_CHUNK_SIZE) = response.bodyLen := by
        unfold bodyLenAt
        rw [hsl]
      rw [hr, writes_append, hevs, List.nil_append, List.map_cons, hbody, ← hrest]
      rfl

theorem tiling_lengths_sum (T : Int) (hT : 0 ≤ T) :
    ∀ m : Nat, (m : Int) ≤ (T + DATA_CHUNK_SIZE - 1) / DATA_CHUNK_SIZE →
      ((List.range m).map fun (k : Nat) =>
        (min (((k : Int) + 1) * DATA_CHUNK_SIZE) T - 1 - (k : Int) * DATA_CHUNK_SIZE + 1).toNat).sum
        = (min ((m : Int) * DATA_CHUNK_SIZE) T).toNat := by
  intro m
  have hC := DATA_CHUNK_SIZE_eq
  induction m with
  | zero =>
    intro _
    simp only [List.range_zero, List.map_nil, List.sum_nil, Nat.cast_zero, zero_mul]
    rw [min_eq_left hT]
    rfl
  | succ m ih =>
    intro h
    rw [hC] at h ih ⊢
    push_cast at h
    have := ih (by omega)
    rw [List.range_succ, List.map_append, List.sum_append, List.map_singleton,
      List.sum_singleton, this]
    push_cast
    have h1 : min ((m : Int) * 4096) T = (m : Int) * 4096 := min_eq_left (by omega)
    rw [h1]
    rcases le_total (((m : Int) + 1) * 4096) T with h2 | h2
    · rw [min_eq_left h2]
      omega
    · rw [min_eq_right h2]
      omega

/-- C26, counterexample: for an object of 9000 bytes the first chunk request, for the
range `0-4095`, is answered by a body of 100 bytes; the download returns success, having
written 100 bytes at the offset 0, and the lengths written sum to 5004. -/
theorem short_body_is_accepted :
    probe_data_length worldShortBody = some 9000
    ∧ (iotc_ota_fw_download worldShortBody).result = some 0
    ∧ requests (iotc_ota_fw_download worldShortBody).trace
        = [(0, 0), (0, 4095), (4096, 8191), (8192, 8999)]
    ∧ writes (iotc_ota_fw_download worldShortBody).trace
        = [(0, 100), (4096, 4096), (8192, 808)] := by
  decide

/-- C26, amended. When the download returns success for an object of resolved total size
`T` (with `T + DATA_CHUNK_SIZE` within `int`), one block is written for each requested
range, in order, at the offset where the range starts, and its length is the body length
of the response received for that range, which is not compared with the length of the
range.  When every response body has the length of the range requested for it, the blocks
written are the requested ranges, which exactly cover `[0, T)`, and the lengths written
sum to `T`. -/
theorem written_blocks_follow_bodies (w : World) (T : Int)
    (hint : T + DATA_CHUNK_SIZE ≤ INT_MAX) (hsent : probeSent w)
    (hprobe : probe_data_length w = some T)
    (hok : (iotc_ota_fw_download w).result = some 0) :
    writes (iotc_ota_fw_download w).trace
      = (tiling T).map (fun r => (r.1.toNat, toUInt32 (bodyLenAt w T r.1)))
    ∧ ((∀ r ∈ tiling T, (bodyLenAt w T r.1 : Int) = r.2 - r.1 + 1) →
        writes (iotc_ota_fw_download w).trace
          = (tiling T).map (fun r => (r.1.toNat, (r.2 - r.1 + 1).toNat))
        ∧ (((writes (iotc_ota_fw_download w).trace).map Prod.snd).sum : Int) = max T 0
        ∧ ∀ b : Int, 0 ≤ b → b < T →
            (tiling T).countP (fun r => decide (r.1 ≤ b ∧ b ≤ r.2)) = 1) := by
  have hC := DATA_CHUNK_SIZE_eq
  have hI : INT_MAX = 2147483647 := rfl
  rw [hC, hI] at hint
  have hcreate : w.createFileForRx = true := by
    rcases hc : w.createFileForRx with _ | _
    · rw [download_of_create_failed w T hsent hprobe hc] at hok
      simp at hok
    · rfl
  rw [download_of_created w T hsent hprobe hcreate] at hok ⊢
  simp only at hok ⊢
  have hloop := chunkLoop_writes_of_success w T (T.toNat + 1) 0
    ((T + DATA_CHUNK_SIZE - 1) / DATA_CHUNK_SIZE).toNat
    rfl (by rw [hC]; omega)
    (by simp only [Nat.cast_zero, zero_mul]; exact hok)
  simp only [Nat.cast_zero, zero_mul, Nat.sub_zero, ← List.range_eq_range'] at hloop
  have hw : writes (Event.connect :: Event.request 0 0 :: Event.createFileForRx (toUInt32 T)
      :: (chunkLoop w T (T.toNat + 1) 0).trace)
      = writes (chunkLoop w T (T.toNat + 1) 0).trace := rfl
  rw [hw, hloop]
  have hfirst : (List.range ((T + DATA_CHUNK_SIZE - 1) / DATA_CHUNK_SIZE).toNat).map
        (fun (k : Nat) => (toUInt32 ((k : Int) * DATA_CHUNK_SIZE),
          toUInt32 (bodyLenAt w T ((k : Int) * DATA_CHUNK_SIZE))))
      = (tiling T).map (fun r => (r.1.toNat, toUInt32 (bodyLenAt w T r.1))) := by
    unfold tiling
    rw [List.map_map]
    apply List.map_congr_left
    intro k hk
    rw [List.mem_range, hC] at hk
    simp only [Function.comp, hC, Prod.mk.injEq, and_true]
    unfold toUInt32
    omega
  rw [hfirst]
  refine ⟨rfl, fun hbody => ?_⟩
  have hsecond : (tiling T).map (fun r => (r.1.toNat, toUInt32 (bodyLenAt w T r.1)))
      = (tiling T).map (fun r => (r.1.toNat, (r.2 - r.1 + 1).toNat)) := by
    apply List.map_congr_left
    intro r hr
    have hb := hbody r hr
    unfold tiling at hr
    rw [List.mem_map] at hr
    obtain ⟨k, hk, hkr⟩ := hr
    rw [List.mem_range, hC] at hk
    have hle : r.2 - r.1 + 1 ≤ 4096 := by
      rw [← hkr, hC]
      simp only
      have := min_le_left (((k : Int) + 1) * 4096) T
      omega
    simp only [Prod.mk.injEq, true_and]
    rw [hb]
    unfold toUInt32
    omega
  rw [hsecond]
  refine ⟨rfl, ?_, fun b hb hbT => tiling_count T b hb hbT⟩
  rw [List.map_map]
  unfold tiling
  rw [List.map_map]
  by_cases hT : 0 ≤ T
  · have hsum := tiling_lengths_sum T hT ((T + DATA_CHUNK_SIZE - 1) / DATA_CHUNK_SIZE).toNat
      (by rw [hC]; omega)
    have hfun : (Prod.snd ∘ fun (r : Int × Int) => (r.1.toNat, (r.2 - r.1 + 1).toNat)) ∘
          (fun (k : Nat) =>
            ((k : Int) * DATA_CHUNK_SIZE, min (((k : Int) + 1) * DATA_CHUNK_SIZE) T - 1))
        = fun (k : Nat) =>
          (min (((k : Int) + 1) * DATA_CHUNK_SIZE) T - 1 - (k : Int) * DATA_CHUNK_SIZE + 1).toNat := by
      funext k
      rfl
    rw [hfun, hsum, hC]
    rw [min_eq_right (by omega), max_eq_left hT]
    omega
  · have hn : ((T + DATA_CHUNK_SIZE - 1) / DATA_CHUNK_SIZE).toNat = 0 := by
      rw [hC]; omega
    rw [hn, max_eq_right (by omega)]
    rfl

/-- C26, witness: for the object of 9000 bytes whose responses all have the length asked
for, the blocks written are `(0, 4096)`, `(4096, 4096)` and `(8192, 808)`. -/
theorem written_blocks_follow_bodies_witness :
    probeSent world9000 ∧ probe_data_length world9000 = some 9000
    ∧ (iotc_ota_fw_download world9000).result = some 0
    ∧ writes (iotc_ota_fw_download world9000).trace
        = (tiling 9000).map (fun r => (r.1.toNat, toUInt32 (bodyLenAt world9000 9000 r.1))) :=
  ⟨⟨rfl, rfl, rfl, rfl, rfl⟩, by decide, by decide,
    (written_blocks_follow_bodies world9000 9000 (by decide) ⟨rfl, rfl, rfl, rfl, rfl⟩
      (by decide) (by decide)).1⟩

/-! ## C28: the scan of the OTA payload -/

theorem starts_with_append (needle rest : List Char) :
    starts_with (needle ++ rest) needle = true := by
  induction needle with
  | nil => cases rest <;> rfl
  | cons n needle ih => simp [starts_with, ih]

theorem starts_with_iff : ∀ (s needle : List Char),
    starts_with s needle = true ↔ ∃ r, s = needle ++ r
  | s, [] => by
    constructor
    · intro _
      exact ⟨s, rfl⟩
    · intro _
      cases s <;> rfl
  | [], n :: needle => by
    simp [starts_with]
  | c :: s, n :: needle => by
    simp only [starts_with, Bool.and_eq_true, beq_iff_eq, List.cons_append, List.cons.injEq,
      starts_with_iff s needle]
    constructor
    · rintro ⟨h, r, hr⟩
      exact ⟨r, h, hr⟩
    · rintro ⟨r, h, hr⟩
      exact ⟨h, r, hr⟩

theorem strstr_first (needle tail : List Char) (htail : starts_with tail needle = true) :
    ∀ pre : List Char,
      (∀ k, k < pre.length → starts_with ((pre ++ tail).drop k) needle = false) →
      strstr (pre ++ tail) needle = some tail
  | [], _ => by
    cases tail with
    | nil =>
      cases needle with
      | nil => rfl
      | cons n needle => simp [starts_with] at htail
    | cons c tail =>
      rw [List.nil_append, strstr, if_pos htail]
  | c :: pre, h => by
    have h0 := h 0 (by simp)
    rw [List.drop_zero] at h0
    rw [List.cons_append] at h0 ⊢
    rw [strstr, h0]
    simp only [Bool.false_eq_true, if_false]
    apply strstr_first needle tail htail pre
    intro k hk
    have := h (k + 1) (by simpa using hk)
    simpa using this

theorem set_length_append (done : List Char) (r x : Char) (rs : List Char) :
    (done ++ r :: rs).set done.length x = done ++ x :: rs := by
  induction done with
  | nil => rfl
  | cons d done ih => simp [ih]

theorem copy_until_char_loop_found (t : Char) (rest : List Char) :
    ∀ (pre done remaining : List Char), t ∉ pre → pre.length < remaining.length →
      copy_until_char_loop t (pre ++ t :: rest) done.length (done ++ remaining)
        = some (true, done ++ pre ++ NUL :: remaining.drop (pre.length + 1))
  | [], done, remaining, _, hlen => by
    cases remaining with
    | nil => simp at hlen
    | cons r rs =>
      rw [List.nil_append, copy_until_char_loop, if_pos (by simp), if_pos rfl,
        set_length_append]
      simp
  | c :: pre, done, remaining, hpre, hlen => by
    cases remaining with
    | nil => simp at hlen
    | cons r rs =>
      have hc : ¬ t = c := fun e => hpre (e ▸ List.mem_cons_self _ _)
      have hp : t ∉ pre := fun m => hpre (List.mem_cons_of_mem _ m)
      have ih := copy_until_char_loop_found t rest pre (done ++ [c]) rs hp
        (by simpa using hlen)
      rw [List.cons_append, copy_until_char_loop, if_pos (by simp), if_neg hc,
        set_length_append]
      simp only [List.length_append, List.length_singleton, List.append_assoc,
        List.singleton_append] at ih
      rw [ih]
      simp

theorem copy_until_char_loop_absent (t : Char) :
    ∀ (source done remaining : List Char), t ∉ source → source.length ≤ remaining.length →
      copy_until_char_loop t source done.length (done ++ remaining)
        = some (false, done ++ source ++ remaining.drop source.length)
  | [], done, remaining, _, _ => by simp [copy_until_char_loop]
  | c :: source, done, remaining, hsrc, hlen => by
    cases remaining with
    | nil => simp at hlen
    | cons r rs =>
      have hc : ¬ t = c := fun e => hsrc (e ▸ List.mem_cons_self _ _)
      have hp : t ∉ source := fun m => hsrc (List.mem_cons_of_mem _ m)
      have ih := copy_until_char_loop_absent t source (done ++ [c]) rs hp
        (by simpa using hlen)
      rw [copy_until_char_loop, if_pos (by simp), if_neg hc, set_length_append]
      simp only [List.length_append, List.length_singleton, List.append_assoc,
        List.singleton_append] at ih
      rw [ih]
      simp

theorem exists_first_occurrence (t : Char) : ∀ l : List Char, t ∈ l →
    ∃ a r, l = a ++ t :: r ∧ t ∉ a
  | [], h => by simp at h
  | c :: l, h => by
    by_cases hc : t = c
    · subst hc
      exact ⟨[], l, rfl, List.not_mem_nil _⟩
    · rcases List.mem_cons.1 h with e | m
      · exact absurd e hc
      · obtain ⟨a, r, hl, ha⟩ := exists_first_occurrence t l m
        refine ⟨c :: a, r, by rw [hl]; rfl, ?_⟩
        intro m2
        rcases List.mem_cons.1 m2 with e | m2
        · exact hc e
        · exact ha m2

theorem takeWhile_first (t : Char) (a r : List Char) (ha : t ∉ a) :
    (a ++ t :: r).takeWhile (fun c => c != t) = a := by
  induction a with
  | nil => simp
  | cons c a ih =>
    have hc : c ≠ t := fun e => ha (e ▸ List.mem_cons_self _ _)
    have := ih (fun m => ha (List.mem_cons_of_mem _ m))
    simp [List.takeWhile_cons, hc, this]

theorem takeWhile_absent (t : Char) (l : List Char) (h : t ∉ l) :
    l.takeWhile (fun c => c != t) = l := by
  induction l with
  | nil => rfl
  | cons c l ih =>
    have hc : c ≠ t := fun e => h (e ▸ List.mem_cons_self _ _)
    have := ih (fun m => h (List.mem_cons_of_mem _ m))
    simp [List.takeWhile_cons, hc, this]

theorem copy_until_char_found (target pre rest : List Char) (t : Char) (hpre : t ∉ pre)
    (hnul : ∀ c ∈ pre, c ≠ NUL) (hroom : pre.length < target.length) :
    ∃ buf, copy_until_char target (pre ++ t :: rest) t = some (true, buf)
      ∧ cstring buf = pre := by
  cases target with
  | nil => simp at hroom
  | cons r rs =>
    have h := copy_until_char_loop_found t rest pre [] (NUL :: rs) hpre (by simpa using hroom)
    refine ⟨pre ++ NUL :: (NUL :: rs).drop (pre.length + 1), ?_, cstring_append_NUL pre _ hnul⟩
    rw [copy_until_char, if_pos (by simp)]
    simpa using h

theorem copy_until_char_absent (target source : List Char) (t : Char) (hsrc : t ∉ source)
    (hroom : source.length < target.length) :
    ∃ buf, copy_until_char target source t = some (false, buf) := by
  cases target with
  | nil => simp at hroom
  | cons r rs =>
    have h := copy_until_char_loop_absent t source [] (NUL :: rs) hsrc
      (by simp at hroom ⊢; omega)
    refine ⟨source ++ (NUL :: rs).drop source.length, ?_⟩
    rw [copy_until_char, if_pos (by simp)]
    simpa using h

theorem mem_cstring (memory : List Char) : ∀ c ∈ cstring memory, c ≠ NUL := by
  intro c hc
  have := List.mem_takeWhile_imp hc
  simpa using this

theorem extracted_urls_on_c2d_message (url_buff file_name_buff pre url tail : List Char)
    (hfirst : ∀ k, k < pre.length →
      starts_with ((pre ++ (JSON_OBJ_URL ++ (url ++ '"' :: tail))).drop k) JSON_OBJ_URL = false)
    (hnul : ∀ c ∈ url, c ≠ NUL) (hquote : '"' ∉ url)
    (hroom : url.length < url_buff.length) (pPayload : List Char)
    (hpayload : cstring pPayload = pre ++ (JSON_OBJ_URL ++ (url ++ '"' :: tail))) :
    extracted_urls (on_c2d_message url_buff file_name_buff (some pPayload)) = [url] := by
  have hstr := strstr_first JSON_OBJ_URL (JSON_OBJ_URL ++ (url ++ '"' :: tail))
    (starts_with_append _ _) pre hfirst
  obtain ⟨buf, hcopy, hbuf⟩ := copy_until_char_found url_buff url tail '"' hquote hnul hroom
  simp only [on_c2d_message, hpayload, hstr, List.drop_left, hcopy, hbuf]
  split
  · simp [extracted_urls]
  · split
    · simp [extracted_urls]
    · simp [extracted_urls]
    · simp [extracted_urls]

theorem copy_until_char_loop_overflow (t : Char) (rest : List Char) :
    ∀ (pre done remaining : List Char), t ∉ pre → remaining.length ≤ pre.length →
      copy_until_char_loop t (pre ++ t :: rest) done.length (done ++ remaining) = none
  | [], done, remaining, _, hlen => by
    have hr : remaining = [] := List.eq_nil_of_length_eq_zero (by simpa using hlen)
    subst hr
    rw [List.nil_append, List.append_nil, copy_until_char_loop, if_neg (lt_irrefl _)]
  | c :: pre, done, remaining, hpre, hlen => by
    cases remaining with
    | nil =>
      rw [List.append_nil, List.cons_append, copy_until_char_loop, if_neg (lt_irrefl _)]
    | cons r rs =>
      have hc : ¬ t = c := fun e => hpre (e ▸ List.mem_cons_self _ _)
      have hp : t ∉ pre := fun m => hpre (List.mem_cons_of_mem _ m)
      have ih := copy_until_char_loop_overflow t rest pre (done ++ [c]) rs hp
        (by simpa using hlen)
      rw [List.cons_append, copy_until_char_loop, if_pos (by simp), if_neg hc,
        set_length_append]
      simp only [List.length_append, List.length_singleton, List.append_assoc,
        List.singleton_append] at ih
      exact ih

theorem copy_until_char_overflow (target pre rest : List Char) (t : Char) (hpre : t ∉ pre)
    (hroom : target.length ≤ pre.length) :
    copy_until_char target (pre ++ t :: rest) t = none := by
  cases target with
  | nil => simp [copy_until_char]
  | cons r rs =>
    have h := copy_until_char_loop_overflow t rest pre [] (NUL :: rs) hpre
      (by simpa using hroom)
    rw [copy_until_char, if_pos (by simp)]
    simpa using h

theorem on_c2d_message_overflow (url_buff file_name_buff pPayload url_part : List Char)
    (hstr : strstr (cstring pPayload) JSON_OBJ_URL = some url_part)
    (hcopy : copy_until_char url_buff (url_part.drop JSON_OBJ_URL.length) '"' = none) :
    on_c2d_message url_buff file_name_buff (some pPayload)
      = [C2dLog.ota_received, C2dLog.out_of_bounds] := by
  simp only [on_c2d_message, hstr, hcopy]

theorem strstr_at_start (needle rest : List Char) :
    strstr (needle ++ rest) needle = some (needle ++ rest) :=
  strstr_first needle (needle ++ rest) (starts_with_append needle rest) []
    (fun _ hk => absurd hk (Nat.not_lt_zero _))

/-- C28, counterexample: a payload whose URL has `MAX_URL_LEN + 1` characters.  The
terminator of the copy falls outside the `MAX_URL_LEN + 1` bytes of `url_buff`, which
neither `on_c2d_message` nor `copy_until_char` checks, and no URL is extracted; likewise
`copy_until_char` on a target of two bytes, for the source `ab,cd` and the terminator `,`,
writes outside the target and returns nothing. -/
theorem long_url_leaves_url_buff :
    cstring payloadLongUrl
      = JSON_OBJ_URL ++ (List.replicate (MAX_URL_LEN + 1) 'a' ++ '"' :: [])
    ∧ on_c2d_message (List.replicate (MAX_URL_LEN + 1) NUL) (List.replicate 100 NUL)
        (some payloadLongUrl) = [C2dLog.ota_received, C2dLog.out_of_bounds]
    ∧ extracted_urls (on_c2d_message (List.replicate (MAX_URL_LEN + 1) NUL)
        (List.replicate 100 NUL) (some payloadLongUrl)) = []
    ∧ copy_until_char (List.replicate 2 'x') "ab,cd".toList ',' = none := by
  have hnul : ∀ c ∈ payloadLongUrl, c ≠ NUL := by
    intro c hc
    simp only [payloadLongUrl, List.mem_append, List.mem_replicate, List.mem_singleton] at hc
    rcases hc with hc | hc | hc
    · revert c
      decide
    · rw [hc.2]
      decide
    · rw [hc]
      decide
  have hc : cstring payloadLongUrl = payloadLongUrl := by
    have h := cstring_append payloadLongUrl [] hnul
    rw [List.append_nil] at h
    rw [h]
    show payloadLongUrl ++ [] = payloadLongUrl
    rw [List.append_nil]
  have hq : '"' ∉ List.replicate (MAX_URL_LEN + 1) 'a' := by
    intro hm
    exact absurd (List.eq_of_mem_replicate hm) (by decide)
  have hstr : strstr (cstring payloadLongUrl) JSON_OBJ_URL = some payloadLongUrl := by
    rw [hc]
    exact strstr_at_start JSON_OBJ_URL _
  have hcopy : copy_until_char (List.replicate (MAX_URL_LEN + 1) NUL)
      (payloadLongUrl.drop JSON_OBJ_URL.length) '"' = none := by
    show copy_until_char _ (List.drop JSON_OBJ_URL.length (JSON_OBJ_URL ++ _)) '"' = none
    rw [List.drop_left]
    exact copy_until_char_overflow (List.replicate (MAX_URL_LEN + 1) NUL)
      (List.replicate (MAX_URL_LEN + 1) 'a') [] '"' hq
      (by rw [List.length_replicate, List.length_replicate])
  have hrun := on_c2d_message_overflow (List.replicate (MAX_URL_LEN + 1) NUL)
    (List.replicate 100 NUL) payloadLongUrl payloadLongUrl hstr hcopy
  refine ⟨hc, hrun, ?_, ?_⟩
  · rw [hrun]
    rfl
  · exact copy_until_char_overflow (List.replicate 2 'x') "ab".toList "cd".toList ','
      (by decide) (by decide)

/-- C28 (amended). The scan takes the first match and knows no escapes.  For a payload
made of `pre`, the marker `JSON_OBJ_URL`, `url`, a double quote and `post`, in which the
marker does not occur at an earlier position, `url` holding no double quote (and, as
`pre`, no NUL) and having at most `MAX_URL_LEN` characters, the URL that `on_c2d_message`
extracts is `url`: the characters between the first occurrence of the marker and the next
double quote.  For a string `source`, whose characters before the first `t` (all of them
when there is none) fit `target` with one byte to spare, `copy_until_char` returns true
exactly when `t` occurs in `source`, and then `target` holds the characters of `source`
before the first `t`. -/
theorem url_is_up_to_next_quote (url_buff file_name_buff pPayload pre url post : List Char)
    (target source : List Char) (t : Char)
    (hpayload : pPayload = pre ++ (JSON_OBJ_URL ++ (url ++ '"' :: post)))
    (hfirst : ∀ k, k < pre.length → starts_with (pPayload.drop k) JSON_OBJ_URL = false)
    (hnul : ∀ c ∈ pre ++ url, c ≠ NUL) (hquote : '"' ∉ url)
    (hbuff : url_buff.length = MAX_URL_LEN + 1) (hfit : url.length ≤ MAX_URL_LEN)
    (hsource : ∀ c ∈ source, c ≠ NUL)
    (hroom : (source.takeWhile (fun c => c != t)).length < target.length) :
    extracted_urls (on_c2d_message url_buff file_name_buff (some pPayload)) = [url]
    ∧ ∃ buf, copy_until_char target source t = some (decide (t ∈ source), buf)
        ∧ (t ∈ source → cstring buf = source.takeWhile (fun c => c != t)) := by
  constructor
  · have hc : cstring pPayload = pre ++ (JSON_OBJ_URL ++ (url ++ '"' :: cstring post)) := by
      have h1 : pPayload = (pre ++ (JSON_OBJ_URL ++ (url ++ ['"']))) ++ post := by
        rw [hpayload]; simp
      rw [h1, cstring_append]
      · simp
      · intro c hc
        simp only [List.mem_append, List.mem_singleton] at hc
        rcases hc with hc | hc | hc | hc
        · exact hnul c (List.mem_append_left _ hc)
        · revert c
          decide
        · exact hnul c (List.mem_append_right _ hc)
        · rw [hc]
          decide
    refine extracted_urls_on_c2d_message url_buff file_name_buff pre url (cstring post) ?_
      (fun c hc => hnul c (List.mem_append_right _ hc)) hquote (by omega) pPayload hc
    intro k hk
    have hk1 := hfirst k hk
    rw [← hc]
    cases hsw : starts_with (List.drop k (cstring pPayload)) JSON_OBJ_URL with
    | false => rfl
    | true =>
      exfalso
      obtain ⟨r, hr⟩ := (starts_with_iff _ _).1 hsw
      have hsplit : pPayload = cstring pPayload ++ pPayload.dropWhile (fun c => c != NUL) :=
        (List.takeWhile_append_dropWhile _ _).symm
      have hklen : k ≤ (cstring pPayload).length := by
        rw [hc]
        simp only [List.length_append]
        omega
      have : starts_with (pPayload.drop k) JSON_OBJ_URL = true := by
        rw [starts_with_iff]
        refine ⟨r ++ pPayload.dropWhile (fun c => c != NUL), ?_⟩
        conv_lhs => rw [hsplit]
        rw [List.drop_append_of_le_length hklen, hr, List.append_assoc]
      rw [hk1] at this
      exact absurd this (by decide)
  · by_cases ht : t ∈ source
    · obtain ⟨a, r, hs, ha⟩ := exists_first_occurrence t source ht
      subst hs
      rw [takeWhile_first t a r ha] at hroom ⊢
      obtain ⟨buf, h1, h2⟩ := copy_until_char_found target a r t ha
        (fun c hc => hsource c (List.mem_append_left _ hc)) hroom
      exact ⟨buf, by rw [h1]; simp, fun _ => h2⟩
    · rw [takeWhile_absent t source ht] at hroom
      obtain ⟨buf, h1⟩ := copy_until_char_absent target source t ht hroom
      exact ⟨buf, by rw [h1]; simp [ht], fun h => absurd h ht⟩

/-- C28 (amended), witness: a backslash in front of a double quote does not keep the quote from
ending the URL; and `copy_until_char` copies `ab` from `ab,cd` up to the comma. -/
theorem url_is_up_to_next_quote_witness :
    extracted_urls (on_c2d_message (List.replicate (MAX_URL_LEN + 1) NUL) (List.replicate 100 NUL)
        (some payloadEscapedQuote)) = [urlWithBackslash]
    ∧ ∃ buf, copy_until_char (List.replicate 8 'x') "ab,cd".toList ','
          = some (decide (',' ∈ "ab,cd".toList), buf)
        ∧ (',' ∈ "ab,cd".toList →
            cstring buf = "ab,cd".toList.takeWhile (fun c => c != ',')) :=
  url_is_up_to_next_quote (List.replicate (MAX_URL_LEN + 1) NUL) (List.replicate 100 NUL)
    payloadEscapedQuote "\x7b".toList urlWithBackslash
    ('c' :: '"' :: ',' :: (JSON_OBJ_FILENAME ++ "f.bin".toList ++ ['"'] ++ "\x7d".toList))
    (List.replicate 8 'x') "ab,cd".toList ',' (by decide) (by decide) (by decide) (by decide)
    (List.length_replicate _ _) (by decide) (by decide) (by decide)

/-! ## C29: the split of the URL -/

theorem split_url_loop_skip (url : List Char) (hostAlloc resourceAlloc : Bool) :
    ∀ (a rest : List Char) (i slash_count host_name_start : Nat), '/' ∉ a →
      split_url_loop url hostAlloc resourceAlloc (a ++ rest) i slash_count host_name_start
        = split_url_loop url hostAlloc resourceAlloc rest (i + a.length) slash_count
            host_name_start
  | [], rest, i, slash_count, host_name_start, _ => by simp
  | c :: a, rest, i, slash_count, host_name_start, h => by
    have hc : c ≠ '/' := fun e => h (e ▸ List.mem_cons_self _ _)
    have ha : '/' ∉ a := fun m => h (List.mem_cons_of_mem _ m)
    rw [List.cons_append, split_url_loop, if_neg hc,
      split_url_loop_skip url hostAlloc resourceAlloc a rest (i + 1) slash_count
        host_name_start ha, List.length_cons]
    congr 1
    omega

theorem split_url_loop_few (url : List Char) (hostAlloc resourceAlloc : Bool) :
    ∀ (rest : List Char) (i slash_count host_name_start : Nat),
      slash_count + rest.count '/' < 3 →
      split_url_loop url hostAlloc resourceAlloc rest i slash_count host_name_start
        = (-4, none, none)
  | [], _, _, _, _ => by simp [split_url_loop]
  | c :: rest, i, slash_count, host_name_start, h => by
    by_cases hc : c = '/'
    · subst hc
      rw [List.count_cons_self] at h
      rw [split_url_loop, if_pos rfl]
      by_cases h2 : slash_count + 1 = 2
      · rw [if_pos h2]
        exact split_url_loop_few url hostAlloc resourceAlloc rest _ _ _ (by omega)
      · rw [if_neg h2, if_neg (by omega)]
        exact split_url_loop_few url hostAlloc resourceAlloc rest _ _ _ (by omega)
    · rw [List.count_cons_of_ne (fun e => hc e.symm)] at h
      rw [split_url_loop, if_neg hc]
      exact split_url_loop_few url hostAlloc resourceAlloc rest _ _ _ h

theorem exists_first_slash : ∀ l : List Char, 0 < l.count '/' →
    ∃ a t, l = a ++ '/' :: t ∧ '/' ∉ a ∧ t.count '/' + 1 = l.count '/'
  | [], h => by simp at h
  | c :: l, h => by
    by_cases hc : c = '/'
    · subst hc
      exact ⟨[], l, rfl, List.not_mem_nil _, by rw [List.count_cons_self]⟩
    · rw [List.count_cons_of_ne (fun e => hc e.symm)] at h
      obtain ⟨a, t, hl, ha, ht⟩ := exists_first_slash l h
      refine ⟨c :: a, t, by rw [hl]; rfl, ?_, ?_⟩
      · intro m
        rcases List.mem_cons.1 m with e | m
        · exact hc e.symm
        · exact ha m
      · rw [List.count_cons_of_ne (fun e => hc e.symm)]
        exact ht

theorem split_url_of_parts (a b host tail : List Char) (ha : '/' ∉ a) (hb : '/' ∉ b)
    (hh : '/' ∉ host) :
    split_url (a ++ '/' :: (b ++ '/' :: (host ++ '/' :: tail))) true true
      = (0, some host, some ('/' :: tail)) := by
  unfold split_url
  generalize hu : a ++ '/' :: (b ++ '/' :: (host ++ '/' :: tail)) = url
  have hurl : url = (a ++ '/' :: (b ++ ['/'])) ++ (host ++ '/' :: tail) := by
    rw [← hu]; simp
  have hurl2 : url = (a ++ '/' :: (b ++ '/' :: host)) ++ ('/' :: tail) := by
    rw [← hu]; simp
  have hlen : (a ++ '/' :: (b ++ ['/'])).length = a.length + 1 + b.length + 1 := by
    simp; omega
  have hlen2 : (a ++ '/' :: (b ++ '/' :: host)).length
      = a.length + 1 + b.length + 1 + host.length := by
    simp; omega
  conv_lhs => arg 4; rw [← hu]
  rw [split_url_loop_skip url true true a _ 0 0 0 ha, split_url_loop, if_pos rfl,
    if_neg (by decide), if_neg (by decide),
    split_url_loop_skip url true true b _ _ _ _ hb, split_url_loop, if_pos rfl,
    if_pos (by decide),
    split_url_loop_skip url true true host _ _ _ _ hh, split_url_loop, if_pos rfl,
    if_neg (by decide), if_pos (by decide)]
  simp only [Bool.not_true, Bool.false_eq_true, if_false, zero_add, Prod.mk.injEq, true_and,
    Option.some.injEq]
  constructor
  · have h1 : url.drop (a.length + 1 + b.length + 1) = host ++ '/' :: tail := by
      rw [hurl, ← hlen, List.drop_left]
    rw [h1]
    have h2 : a.length + 1 + b.length + 1 + host.length - (a.length + 1 + b.length + 1)
        = host.length := by omega
    rw [h2, List.take_left]
  · rw [hurl2, ← hlen2, List.drop_left]

/-- C29. With two valid output pointers and both allocations successful, `split_url`
returns `0` exactly when `url` holds at least three `/`.  Then `url` is
`a ++ "/" ++ b ++ "/" ++ host ++ "/" ++ tail` with no `/` in `a`, `b` and `host`, and in
every such case `host_name` is `host`, the text between the second and the third `/`, and
`resource` is `"/" ++ tail`, the rest of `url` from the third `/` on.  With fewer than
three `/` it returns `-4` with both outputs NULL, and `start_ota` returns `-4` without
calling `iotc_ota_fw_download`. -/
theorem split_url_three_slashes (url : List Char) :
    ((split_url url true true).1 = 0 ↔ 3 ≤ url.count '/')
    ∧ (∀ a b host tail : List Char, '/' ∉ a → '/' ∉ b → '/' ∉ host →
        url = a ++ '/' :: (b ++ '/' :: (host ++ '/' :: tail)) →
        split_url url true true = (0, some host, some ('/' :: tail)))
    ∧ (3 ≤ url.count '/' → ∃ a b host tail : List Char, '/' ∉ a ∧ '/' ∉ b ∧ '/' ∉ host ∧
        url = a ++ '/' :: (b ++ '/' :: (host ++ '/' :: tail)))
    ∧ (url.count '/' < 3 → split_url url true true = (-4, none, none)
        ∧ ∀ world, start_ota ⟨true, true, world⟩ url = (some (-4), [])) := by
  have hparts : 3 ≤ url.count '/' → ∃ a b host tail : List Char, '/' ∉ a ∧ '/' ∉ b ∧
      '/' ∉ host ∧ url = a ++ '/' :: (b ++ '/' :: (host ++ '/' :: tail)) := by
    intro h3
    obtain ⟨a, t1, h1, ha, hc1⟩ := exists_first_slash url (by omega)
    obtain ⟨b, t2, h2, hb, hc2⟩ := exists_first_slash t1 (by omega)
    obtain ⟨host, tail, h3, hh, _⟩ := exists_first_slash t2 (by omega)
    exact ⟨a, b, host, tail, ha, hb, hh, by rw [h1, h2, h3]⟩
  have hfew : url.count '/' < 3 → split_url url true true = (-4, none, none) := by
    intro h
    exact split_url_loop_few url true true url 0 0 0 (by omega)
  refine ⟨⟨?_, ?_⟩, ?_, hparts, ?_⟩
  · intro h0
    by_contra hlt
    rw [hfew (by omega)] at h0
    exact absurd h0 (by decide)
  · intro h3
    obtain ⟨a, b, host, tail, ha, hb, hh, hu⟩ := hparts h3
    rw [hu, split_url_of_parts a b host tail ha hb hh]
  · intro a b host tail ha hb hh hu
    rw [hu]
    exact split_url_of_parts a b host tail ha hb hh
  · intro h
    refine ⟨hfew h, fun world => ?_⟩
    simp only [start_ota, hfew h]

/-- C29, witness: `https://host/a/b?x=1` gives the host `host` and the resource
`/a/b?x=1`. -/
theorem split_url_three_slashes_witness :
    split_url "https://host/a/b?x=1".toList true true
      = (0, some "host".toList, some "/a/b?x=1".toList) :=
  (split_url_three_slashes "https://host/a/b?x=1".toList).2.1 "https:".toList [] "host".toList
    "a/b?x=1".toList (by decide) (by decide) (by decide) (by decide)

/-! ## C30: the clock -/

/-- C30. After `set_time(u)` at the tick count `t0`, `unix_time_get` at a later tick count
`t1` (both within 32 bits, so no wrap of the tick counter) stores
`u + (t1 / configTICK_RATE_HZ - t0 / configTICK_RATE_HZ)` modulo `2^32` and returns `0`; a
read at the same tick stores `u`. -/
theorem unix_time_get_after_set_time (configTICK_RATE_HZ u t0 t1 : Nat)
    (_hHZ : 0 < configTICK_RATE_HZ) (hu : u < 4294967296) (h01 : t0 ≤ t1)
    (h1 : t1 < 4294967296) :
    unix_time_get configTICK_RATE_HZ t1 (set_time configTICK_RATE_HZ t0 u)
      = (0, (u + (t1 / configTICK_RATE_HZ - t0 / configTICK_RATE_HZ)) % 4294967296)
    ∧ unix_time_get configTICK_RATE_HZ t0 (set_time configTICK_RATE_HZ t0 u) = (0, u) := by
  have h0 : t0 < 4294967296 := by omega
  have hdiv : t0 / configTICK_RATE_HZ ≤ t1 / configTICK_RATE_HZ := Nat.div_le_div_right h01
  have ha : t0 / configTICK_RATE_HZ < 4294967296 :=
    lt_of_le_of_lt (Nat.div_le_self _ _) h0
  have hb : t1 / configTICK_RATE_HZ < 4294967296 :=
    lt_of_le_of_lt (Nat.div_le_self _ _) h1
  simp only [unix_time_get, set_time, tx_time_get, toUInt32, Nat.mod_eq_of_lt h0,
    Nat.mod_eq_of_lt h1, Prod.mk.injEq, true_and]
  generalize t0 / configTICK_RATE_HZ = a at *
  generalize t1 / configTICK_RATE_HZ = b at *
  constructor <;> omega

/-- C30, witness: with 1000 ticks per second, the time set to 10 s at the tick 5000000
(5000 s of uptime, more than the time set) reads 13 s at the tick 5003000 and 10 s at the
tick 5000000. -/
theorem unix_time_get_after_set_time_witness :
    unix_time_get 1000 5003000 (set_time 1000 5000000 10) = (0, 13)
    ∧ unix_time_get 1000 5000000 (set_time 1000 5000000 10) = (0, 10) :=
  unix_time_get_after_set_time 1000 10 5000000 5003000 (by decide) (by decide) (by decide)
    (by decide)

end Iotc
